import Mathlib

/-!
Rule builder of the Akamai provider (`pkg/providers/property/ruleformats/builder.go`).

A shallow embedding of `RulesBuilder` and of the functions it is made of.

* A Go value of type `any` is a `Value`.  A `float64` is carried by the text
  that `%v` prints for it, the only thing the builder ever observes of a number.
* A Go `map[string]any` is an association list `OptMap`.  The order of the list
  is the order in which one run of `range` visits the entries; Go fixes no such
  order, so a statement holds for a Go map when it holds for every ordering of
  its entries.  Go map keys are unique: `OptMap.set` and `OptMap.delete` keep
  them so.
* A Go function that returns `(T, error)` and may panic is a `Res T`.
* The schema reader, `strcase.ToLowerCamel` and `json.Unmarshal` live outside
  this package: the reader is represented by what each of its getters returns,
  the two library functions are fields of `Lib`.
* The resources of the package `gtm` are present by their tests only.  What
  the namespace `Gtm` says of their plan is modelled from the specification,
  and marked so where it is defined.
* The namespace `Edgegrid` embeds `LogMultiline` of the vendored client
  (`edgegrid/log.go`); a Go string is a `String`, read as the list of its
  characters, and the logging function `f` is given by what a call of it does
  to the state of the log.
-/

namespace Ruleformats

/-! ## Values and option maps -/

/-- A Go value of interface type `any`, as the terraform schema produces them. -/
inductive Value where
  | null
  | bool (b : Bool)
  | int (n : Int)
  | float (text : String)
  | str (s : String)
  | list (xs : List Value)
  | map (m : List (String × Value))
deriving Repr, Inhabited

/-- Go `map[string]any` (also `papi.RuleOptionsMap`). -/
abbrev OptMap := List (String × Value)

namespace OptMap

/-- Map read `m[k]` with the comma-ok result. -/
def get (m : List (String × α)) (k : String) : Option α :=
  match m with
  | [] => none
  | (k', v) :: rest => if k' = k then some v else get rest k

/-- Map write `m[k] = v`: an existing entry is overwritten, a new one is added. -/
def set (m : List (String × α)) (k : String) (v : α) : List (String × α) :=
  match m with
  | [] => [(k, v)]
  | (k', v') :: rest => if k' = k then (k, v) :: rest else (k', v') :: set rest k v

/-- The builtin `delete(m, k)`. -/
def delete (m : List (String × α)) (k : String) : List (String × α) :=
  m.filter (fun e => !decide (e.1 = k))

/-- The keys of a map, in iteration order. -/
def keys (m : List (String × α)) : List String := m.map Prod.fst

end OptMap

namespace Value

/-- `true` exactly for a `map[string]any`. -/
def isMap : Value → Bool
  | .map _ => true
  | _ => false

/-- Insertion of one rendered entry into a key-sorted list (`fmt` prints maps sorted by key). -/
def insertSorted (e : String × String) : List (String × String) → List (String × String)
  | [] => [e]
  | e' :: rest => if e.1 < e'.1 then e :: e' :: rest else e' :: insertSorted e rest

/-- Join with single blanks, as `fmt` does between elements. -/
def joinBlank : List String → String
  | [] => ""
  | [s] => s
  | s :: rest => s ++ " " ++ joinBlank rest

mutual
/-- The text `fmt.Sprintf("%v", v)` prints. -/
def fmtV : Value → String
  | .null => "<nil>"
  | .bool b => if b then "true" else "false"
  | .int n => toString n
  | .float text => text
  | .str s => s
  | .list xs => "[" ++ joinBlank (fmtList xs) ++ "]"
  | .map m =>
    "map[" ++ joinBlank (((fmtEntries m).foldr insertSorted []).map (fun e => e.1 ++ ":" ++ e.2)) ++ "]"
/-- Rendering of the elements of a slice. -/
def fmtList : List Value → List String
  | [] => []
  | x :: xs => fmtV x :: fmtList xs
/-- Rendering of the values of a map, each with its key. -/
def fmtEntries : List (String × Value) → List (String × String)
  | [] => []
  | (k, v) :: m => (k, fmtV v) :: fmtEntries m
end

end Value

/-! ## Errors, panics and results -/

/-- An error handed back by the schema reader, with what `errors.Is` answers for
the two not-found sentinels the builder tests. -/
structure ReaderError where
  text : String
  isNotFound : Bool
  isTfNotFound : Bool
deriving Repr, DecidableEq

/-- The two sentinels of the role checks. -/
inductive Sentinel where
  | ErrOnlyForDefault
  | ErrNotForDefault
deriving Repr, DecidableEq

/-- An error value returned by the builder. -/
inductive BuildError where
  /-- an error of the schema reader, passed on as it is -/
  | reader (e : ReaderError)
  /-- `fmt.Errorf("%w: %s", sentinel, field)` -/
  | role (s : Sentinel) (field : String)
  /-- an error of `json.Unmarshal` -/
  | decode (text : String)
deriving Repr, DecidableEq

namespace BuildError

/-- Answer of `errors.Is(err, sentinel)` for the role sentinels. -/
def wraps : BuildError → Sentinel → Bool
  | .role s _, s' => decide (s = s')
  | _, _ => false

/-- Answer of `errors.Is(err, tf.ErrNotFound)`; the errors of `encoding/json`
and the role errors do not wrap that sentinel. -/
def isTfNotFound : BuildError → Bool
  | .reader e => e.isTfNotFound
  | _ => false

/-- Text of `err.Error()`, given the texts of the sentinels (declared outside this file). -/
def message (sentinelText : Sentinel → String) : BuildError → String
  | .reader e => e.text
  | .role s field => sentinelText s ++ ": " ++ field
  | .decode text => text

end BuildError

/-- Payload of a Go panic. -/
inductive Panic where
  /-- `panic(msg)` -/
  | explicit (msg : String)
  /-- a failed type assertion `x.(T)` -/
  | typeAssertion
deriving Repr, DecidableEq

/-- How a call fails: it returns an error, or it panics. -/
inductive Failure where
  | err (e : BuildError)
  | panic (p : Panic)
deriving Repr, DecidableEq

/-- Outcome of a Go call returning `(T, error)` that may panic. -/
abbrev Res (α : Type) := Except Failure α

/-- Outcome of a Go call that returns a plain value and may panic. -/
abbrev MayPanic (α : Type) := Except Panic α

/-- A panic in a callee unwinds through the caller. -/
def MayPanic.unwind : MayPanic α → Res α
  | .ok a => .ok a
  | .error p => .error (.panic p)

/-! ## The builder -/

/-- Stands for `papi.RuleBehavior`. -/
structure RuleBehavior where
  Name : String
  Locked : Bool
  UUID : String
  TemplateUuid : String
  Options : OptMap
deriving Repr

/-- Stands for `papi.RuleVariable`. -/
structure RuleVariable where
  Name : String
  Description : Option String
  Value : Option String
  Sensitive : Bool
  Hidden : Bool
deriving Repr, DecidableEq

/-- Stands for `papi.RuleCustomOverride`. -/
structure RuleCustomOverride where
  Name : String
  OverrideID : String
deriving Repr, DecidableEq

/-- Stands for `papi.Rules`; `Options.IsSecure` is the field `IsSecure`. -/
inductive Rules where
  | mk (AdvancedOverride : String) (Behaviors : List RuleBehavior) (Children : List Rules)
      (Comments : String) (Criteria : List RuleBehavior) (CriteriaLocked : Bool)
      (CustomOverride : Option RuleCustomOverride) (Name : String) (IsSecure : Bool)
      (UUID : String) (TemplateUuid : String) (TemplateLink : String)
      (Variables : List RuleVariable) (CriteriaMustSatisfy : String)
deriving Repr

namespace Rules

/-- Field `Name`. -/
def Name : Rules → String
  | .mk _ _ _ _ _ _ _ n _ _ _ _ _ _ => n

/-- Field `Variables`. -/
def Variables : Rules → List RuleVariable
  | .mk _ _ _ _ _ _ _ _ _ _ _ _ vs _ => vs

/-- Field `Children`. -/
def Children : Rules → List Rules
  | .mk _ _ cs _ _ _ _ _ _ _ _ _ _ _ => cs

/-- Field `AdvancedOverride`. -/
def AdvancedOverride : Rules → String
  | .mk x _ _ _ _ _ _ _ _ _ _ _ _ _ => x

/-- Field `Behaviors`. -/
def Behaviors : Rules → List RuleBehavior
  | .mk _ x _ _ _ _ _ _ _ _ _ _ _ _ => x

/-- Field `Comments`. -/
def Comments : Rules → String
  | .mk _ _ _ x _ _ _ _ _ _ _ _ _ _ => x

/-- Field `Criteria`. -/
def Criteria : Rules → List RuleBehavior
  | .mk _ _ _ _ x _ _ _ _ _ _ _ _ _ => x

/-- Field `CriteriaLocked`. -/
def CriteriaLocked : Rules → Bool
  | .mk _ _ _ _ _ x _ _ _ _ _ _ _ _ => x

/-- Field `CustomOverride`. -/
def CustomOverride : Rules → Option RuleCustomOverride
  | .mk _ _ _ _ _ _ x _ _ _ _ _ _ _ => x

/-- Field `Options.IsSecure`. -/
def IsSecure : Rules → Bool
  | .mk _ _ _ _ _ _ _ _ x _ _ _ _ _ => x

/-- Field `UUID`. -/
def UUID : Rules → String
  | .mk _ _ _ _ _ _ _ _ _ x _ _ _ _ => x

/-- Field `TemplateUuid`. -/
def TemplateUuid : Rules → String
  | .mk _ _ _ _ _ _ _ _ _ _ x _ _ _ => x

/-- Field `TemplateLink`. -/
def TemplateLink : Rules → String
  | .mk _ _ _ _ _ _ _ _ _ _ _ x _ _ => x

/-- Field `CriteriaMustSatisfy`. -/
def CriteriaMustSatisfy : Rules → String
  | .mk _ _ _ _ _ _ _ _ _ _ _ _ _ x => x

end Rules

/-- Stands for `papi.RulesUpdate`. -/
structure RulesUpdate where
  Comments : String
  Rules : Rules

/-- A rule item of the schema reader: a behavior or criterion name and its attribute map. -/
structure RuleItem where
  Name : String
  Item : OptMap
deriving Repr

/-- What one getter of the schema reader returns: the value and the error, both
of which Go hands back. -/
abbrev Got (α : Type) := α × Option ReaderError

/-- The schema reader, by the results of the getters `Build` calls. -/
structure RulesSchemaReader where
  name : Got String
  variablesList : Got (List OptMap)
  criteriaMustSatisfy : Got String
  isSecure : Got Bool
  advancedOverride : Got String
  comments : Got String
  criteriaLocked : Got Bool
  customOverride : Got (Option RuleCustomOverride)
  uuid : Got String
  templateUUID : Got String
  templateLink : Got String
  criteriaList : Got (List RuleItem)
  behaviorsList : Got (List RuleItem)
  childrenList : Got (List String)

/-- The struct `RulesBuilder`. -/
structure RulesBuilder where
  schemaReader : RulesSchemaReader
  typeMappings : OptMap
  nameMappings : List (String × String)
  shouldFlatten : String → Bool

/-- Library functions the builder calls. -/
structure Lib where
  /-- `strcase.ToLowerCamel` -/
  toLowerCamel : String → String
  /-- `json.Unmarshal` into a `papi.RulesUpdate`; the error carries its text -/
  unmarshal : String → Except String RulesUpdate

/-- The constant `defaultRule`. -/
def defaultRule : String := "default"

/-! ## Option maps of behaviors and criteria -/

/-- Length of the longest key of a table; a longer key is never found in it. -/
def maxKeyLen (t : List (String × α)) : Nat :=
  match t with
  | [] => 0
  | (k, _) :: rest => max k.length (maxKeyLen rest)

/-- Lines 277 to 293 of `remapOptionValues`: the value the `if` chain stores at
`newRom[optionName]`, `none` when it stores nothing (a flattened empty list). -/
def pickValue (r : RulesBuilder) (optKey : String) (v : Value) : MayPanic (Option Value) :=
  let optValKey := optKey ++ "." ++ v.fmtV
  if r.shouldFlatten optKey then
    match v with
    | .list slc =>
      if slc.length > 1 then
        .error (.explicit ("expected object type has len()>1: " ++ optKey))
      else
        match slc with
        | x :: _ => .ok (some x)
        | [] => .ok none
    | _ => .error (.explicit ("unexpected type for: " ++ optKey))
  else
    match OptMap.get r.typeMappings optValKey with
    | some mappedType => .ok (some mappedType)
    | none => .ok (some v)

/-- The loop of `remapOptionValues` over the entries still to visit, with the
map `newRom` built so far.  Keys of a Go map are unique, so the read of
`newRom[optionName]` on line 295 finds the value stored just before, or nothing
when nothing was stored.  The recursion ends because a nested map is smaller
than the map it sits in, and a map taken from `typeMappings` was found under a
key longer than `behaviorName`. -/
def remapLoop (r : RulesBuilder) (behaviorName : String) (options : OptMap) (newRom : OptMap) :
    MayPanic OptMap :=
  match options with
  | [] => .ok newRom
  | (optionName, v) :: rest =>
    match h : pickValue r (behaviorName ++ "." ++ optionName) v with
    | .error f => .error f
    | .ok none => remapLoop r behaviorName rest newRom
    | .ok (some (.map m)) =>
      match remapLoop r (behaviorName ++ "." ++ optionName) m [] with
      | .error f => .error f
      | .ok m' =>
        remapLoop r behaviorName rest
          (OptMap.set (OptMap.set newRom optionName (.map m)) optionName (.map m'))
    | .ok (some picked) => remapLoop r behaviorName rest (OptMap.set newRom optionName picked)
termination_by (maxKeyLen r.typeMappings + 1 - behaviorName.length, sizeOf options)
decreasing_by
  all_goals simp_wf
  · exact Prod.Lex.right _ (by omega)
  · have hlen : ∀ (t : OptMap) (k : String) (w : Value),
        OptMap.get t k = some w → k.length ≤ maxKeyLen t := by
      intro t k w
      induction t with
      | nil => intro hg; simp [OptMap.get] at hg
      | cons e rest ih =>
        obtain ⟨k', v'⟩ := e
        intro hg
        simp only [OptMap.get] at hg
        simp only [maxKeyLen]
        split at hg
        · subst_vars; exact Nat.le_max_left _ _
        · exact Nat.le_trans (ih hg) (Nat.le_max_right _ _)
    have horigin : sizeOf m < sizeOf v ∨
        OptMap.get r.typeMappings (behaviorName ++ "." ++ optionName ++ "." ++ v.fmtV)
          = some (.map m) := by
      have hp := h
      unfold pickValue at hp
      simp only at hp
      split at hp
      · left
        split at hp
        · split at hp
          · cases hp
          · split at hp
            · simp only [Except.ok.injEq, Option.some.injEq] at hp
              subst hp
              simp only [Value.list.sizeOf_spec, List.cons.sizeOf_spec, Value.map.sizeOf_spec]
              omega
            · cases hp
        · cases hp
      · split at hp
        · rename_i mt hget
          simp only [Except.ok.injEq, Option.some.injEq] at hp
          subst hp
          right; exact hget
        · simp only [Except.ok.injEq, Option.some.injEq] at hp
          subst hp
          left
          simp only [Value.map.sizeOf_spec]
          omega
    rcases horigin with hlt | hget
    · rcases Nat.lt_or_ge
        (maxKeyLen r.typeMappings + 1 - (behaviorName.length + ".".length + optionName.length))
        (maxKeyLen r.typeMappings + 1 - behaviorName.length) with h1 | h1
      · exact Prod.Lex.left _ _ h1
      · have h2 : maxKeyLen r.typeMappings + 1
              - (behaviorName.length + ".".length + optionName.length)
            = maxKeyLen r.typeMappings + 1 - behaviorName.length := by omega
        rw [h2]
        exact Prod.Lex.right _ (by omega)
    · have h3 := hlen _ _ _ hget
      simp only [String.length_append] at h3
      have h4 : ".".length = 1 := rfl
      exact Prod.Lex.left _ _ (by omega)
  · exact Prod.Lex.right _ (by omega)
  · exact Prod.Lex.right _ (by omega)

/-- The method `remapOptionValues`. -/
def remapOptionValues (r : RulesBuilder) (behaviorName : String) (options : OptMap) :
    MayPanic OptMap :=
  remapLoop r behaviorName options []

/-- Lines 353 to 356 of `mapKeysToCamelCase`, also lines 248 to 251 of
`buildRuleBehaviors`: lower camel case, then the name table. -/
def mappedName (lib : Lib) (r : RulesBuilder) (k : String) : String :=
  match OptMap.get r.nameMappings (lib.toLowerCamel k) with
  | some name => name
  | none => lib.toLowerCamel k

mutual
/-- Lines 340 to 352 of `mapKeysToCamelCase`: the rewritten value of one entry. -/
def camelValue (lib : Lib) (r : RulesBuilder) : Value → Value
  | .map mapValue => .map (camelLoop lib r mapValue [])
  | .list sliceValue => .list (camelSlice lib r sliceValue)
  | v => v
/-- Lines 344 to 351: the copy of a slice, maps among its elements rewritten. -/
def camelSlice (lib : Lib) (r : RulesBuilder) : List Value → List Value
  | [] => []
  | .map mapValue :: rest => .map (camelLoop lib r mapValue []) :: camelSlice lib r rest
  | value :: rest => value :: camelSlice lib r rest
/-- The loop of `mapKeysToCamelCase` over the entries still to visit, with the
map `newMap` built so far; `reflect.ValueOf(v).IsValid()` fails for `nil` only. -/
def camelLoop (lib : Lib) (r : RulesBuilder) : List (String × Value) → OptMap → OptMap
  | [], newMap => newMap
  | (_, .null) :: rest, newMap => camelLoop lib r rest newMap
  | (k, v) :: rest, newMap =>
    camelLoop lib r rest (OptMap.set newMap (mappedName lib r k) (camelValue lib r v))
end

/-- The method `mapKeysToCamelCase`. -/
def mapKeysToCamelCase (lib : Lib) (r : RulesBuilder) (old : OptMap) : OptMap :=
  camelLoop lib r old []

/-- The type assertion `x.(bool)`. -/
def asBool : Value → Option Bool
  | .bool b => some b
  | _ => none

/-- The type assertion `x.(string)`. -/
def asString : Value → Option String
  | .str s => some s
  | _ => none

/-- The generic `getFromMapAndDeleteOrDefault`, with the assertion `res.(T)`
given by `cast`; it returns the value and the map as the call leaves it. -/
def getFromMapAndDeleteOrDefault (cast : Value → Option T) (m : OptMap) (key : String)
    (defVal : T) : MayPanic (T × OptMap) :=
  match OptMap.get m key with
  | none => .ok (defVal, m)
  | some .null => .ok (defVal, m)
  | some res =>
    match cast res with
    | some t => .ok (t, OptMap.delete m key)
    | none => .error .typeAssertion

/-- One turn of the loop of `buildRuleBehaviors`: the behavior built from an
item, and the item as the turn leaves it. -/
def buildRuleBehavior (lib : Lib) (r : RulesBuilder) (item : RuleItem) :
    MayPanic (RuleBehavior × RuleItem) := do
  let itemName := mappedName lib r item.Name
  let (locked, m1) ← getFromMapAndDeleteOrDefault asBool item.Item "locked" false
  let (uuid, m2) ← getFromMapAndDeleteOrDefault asString m1 "uuid" ""
  let (templateUuid, m3) ← getFromMapAndDeleteOrDefault asString m2 "template_uuid" ""
  let options ← remapOptionValues r itemName (mapKeysToCamelCase lib r m3)
  pure ({ Name := itemName, Locked := locked, UUID := uuid, TemplateUuid := templateUuid,
          Options := options }, { item with Item := m3 })

/-- The method `buildRuleBehaviors`, together with the items as it leaves them;
the error it returns is always `nil`. -/
def buildRuleBehaviorsState (lib : Lib) (r : RulesBuilder) :
    List RuleItem → Res (List RuleBehavior × List RuleItem)
  | [] => .ok ([], [])
  | item :: rest => do
    let (b, item') ← (buildRuleBehavior lib r item).unwind
    let (behaviors, rest') ← buildRuleBehaviorsState lib r rest
    pure (b :: behaviors, item' :: rest')

/-- The method `buildRuleBehaviors`. -/
def buildRuleBehaviors (lib : Lib) (r : RulesBuilder) (behaviorsList : List RuleItem) :
    Res (List RuleBehavior) :=
  (buildRuleBehaviorsState lib r behaviorsList).map Prod.fst

/-! ## `Build` and the getters it calls -/

/-- Map read followed by the assertion `.(string)`; a missing key reads as `nil`. -/
def assertString (m : OptMap) (key : String) : MayPanic String :=
  match (OptMap.get m key).bind asString with
  | some s => .ok s
  | none => .error .typeAssertion

/-- Map read followed by the assertion `.(bool)`; a missing key reads as `nil`. -/
def assertBool (m : OptMap) (key : String) : MayPanic Bool :=
  match (OptMap.get m key).bind asBool with
  | some b => .ok b
  | none => .error .typeAssertion

/-- The loop of `ruleVariables`. -/
def convertVariables : List OptMap → MayPanic (List RuleVariable)
  | [] => .ok []
  | entry :: rest => do
    let name ← assertString entry "name"
    let description ← assertString entry "description"
    let value ← assertString entry "value"
    let sensitive ← assertBool entry "sensitive"
    let hidden ← assertBool entry "hidden"
    let vars ← convertVariables rest
    pure ({ Name := name, Description := some description, Value := some value,
            Sensitive := sensitive, Hidden := hidden } :: vars)

/-- The method `ruleVariables`. -/
def ruleVariables (r : RulesBuilder) : Res (List RuleVariable) :=
  match r.schemaReader.variablesList with
  | (_, some err) => if err.isNotFound then .ok [] else .error (.err (.reader err))
  | (variableList, none) => (convertVariables variableList).unwind

/-- The method `ruleCriteriaMustSatisfy`. -/
def ruleCriteriaMustSatisfy (r : RulesBuilder) : Got String := r.schemaReader.criteriaMustSatisfy

/-- The method `ruleAdvancedOverride`. -/
def ruleAdvancedOverride (r : RulesBuilder) : Got String := r.schemaReader.advancedOverride

/-- The method `ruleComments`. -/
def ruleComments (r : RulesBuilder) : Got String := r.schemaReader.comments

/-- The method `ruleCriteriaLocked`. -/
def ruleCriteriaLocked (r : RulesBuilder) : Got Bool := r.schemaReader.criteriaLocked

/-- The method `ruleCustomOverride`. -/
def ruleCustomOverride (r : RulesBuilder) : Got (Option RuleCustomOverride) :=
  r.schemaReader.customOverride

/-- The method `ruleName`. -/
def ruleName (r : RulesBuilder) : Got String := r.schemaReader.name

/-- The method `ruleIsSecure`. -/
def ruleIsSecure (r : RulesBuilder) : Got Bool := r.schemaReader.isSecure

/-- The method `ruleUUID`. -/
def ruleUUID (r : RulesBuilder) : Got String := r.schemaReader.uuid

/-- The method `ruleTemplateUUID`. -/
def ruleTemplateUUID (r : RulesBuilder) : Got String := r.schemaReader.templateUUID

/-- The method `ruleTemplateLink`. -/
def ruleTemplateLink (r : RulesBuilder) : Got String := r.schemaReader.templateLink

/-- The method `ruleBehaviors`: a panic, or the pair Go returns. -/
def ruleBehaviors (lib : Lib) (r : RulesBuilder) : Res (Got (List RuleBehavior)) :=
  match r.schemaReader.behaviorsList with
  | (_, some err) => .ok ([], some err)
  | (behaviorsList, none) => (buildRuleBehaviors lib r behaviorsList).map (fun bs => (bs, none))

/-- The method `ruleCriteria`: a panic, or the pair Go returns. -/
def ruleCriteria (lib : Lib) (r : RulesBuilder) : Res (Got (List RuleBehavior)) :=
  match r.schemaReader.criteriaList with
  | (_, some err) => .ok ([], some err)
  | (criteriaMap, none) => (buildRuleBehaviors lib r criteriaMap).map (fun bs => (bs, none))

/-- The loop of `ruleChildren`: it stops at the first entry that does not decode. -/
def decodeChildren (lib : Lib) : List String → Except BuildError (List Rules)
  | [] => .ok []
  | childJSON :: rest =>
    match lib.unmarshal childJSON with
    | .error text => .error (.decode text)
    | .ok child =>
      match decodeChildren lib rest with
      | .error e => .error e
      | .ok children => .ok (child.Rules :: children)

/-- The method `ruleChildren`: the pair Go returns. -/
def ruleChildren (lib : Lib) (r : RulesBuilder) : List Rules × Option BuildError :=
  match r.schemaReader.childrenList with
  | (_, some err) => if err.isNotFound then ([], none) else ([], some (.reader err))
  | (childrenList, none) =>
    match decodeChildren lib childrenList with
    | .error e => ([], some e)
    | .ok children => (children, none)

/-- The statement `if err != nil { return nil, err }`. -/
def failOn (err : Option ReaderError) : Res Unit :=
  match err with
  | some e => .error (.err (.reader e))
  | none => .ok ()

/-- The statement `if err != nil && !errors.Is(err, ErrNotFound) { return nil, err }`. -/
def unlessNotFound (err : Option ReaderError) : Res Unit :=
  match err with
  | some e => if e.isNotFound then .ok () else .error (.err (.reader e))
  | none => .ok ()

/-- The statement `if err != nil && !errors.Is(err, tf.ErrNotFound) { return nil, err }`. -/
def unlessTfNotFound (err : Option BuildError) : Res Unit :=
  match err with
  | some e => if e.isTfNotFound then .ok () else .error (.err e)
  | none => .ok ()

/-- A role check: `if cond { return nil, fmt.Errorf("%w: %s", sentinel, field) }`. -/
def forbid (cond : Bool) (s : Sentinel) (field : String) : Res Unit :=
  if cond then .error (.err (.role s field)) else .ok ()

/-- The method `Build`. -/
def Build (lib : Lib) (r : RulesBuilder) : Res Rules := do
  let name := (ruleName r).1
  failOn (ruleName r).2
  let vars ← ruleVariables r
  forbid (name != defaultRule && vars.length > 0) .ErrOnlyForDefault "variable"
  let criteriaMustSatisfy := (ruleCriteriaMustSatisfy r).1
  forbid (name == defaultRule && (ruleCriteriaMustSatisfy r).2.isNone)
    .ErrNotForDefault "criteria_must_satisfy"
  unlessNotFound (ruleCriteriaMustSatisfy r).2
  let isSecure := (ruleIsSecure r).1
  forbid (name != defaultRule && (ruleIsSecure r).2.isNone) .ErrOnlyForDefault "is_secure"
  unlessNotFound (ruleIsSecure r).2
  let advancedOverride := (ruleAdvancedOverride r).1
  forbid (name != defaultRule && (ruleAdvancedOverride r).2.isNone)
    .ErrOnlyForDefault "advanced_override"
  unlessNotFound (ruleAdvancedOverride r).2
  let comments := (ruleComments r).1
  unlessNotFound (ruleComments r).2
  let criteriaLocked := (ruleCriteriaLocked r).1
  forbid (name == defaultRule && (ruleCriteriaLocked r).2.isNone)
    .ErrNotForDefault "criteria_locked"
  unlessNotFound (ruleCriteriaLocked r).2
  let customOverride := (ruleCustomOverride r).1
  forbid (name != defaultRule && (ruleCustomOverride r).2.isNone)
    .ErrOnlyForDefault "custom_override"
  unlessNotFound (ruleCustomOverride r).2
  let uuid := (ruleUUID r).1
  unlessNotFound (ruleUUID r).2
  let templateUUID := (ruleTemplateUUID r).1
  unlessNotFound (ruleTemplateUUID r).2
  let templateLink := (ruleTemplateLink r).1
  unlessNotFound (ruleTemplateLink r).2
  let criteria ← ruleCriteria lib r
  forbid (name == defaultRule && criteria.2.isNone) .ErrNotForDefault "criterion"
  unlessNotFound criteria.2
  let behaviors ← ruleBehaviors lib r
  unlessNotFound behaviors.2
  let children := (ruleChildren lib r).1
  unlessTfNotFound (ruleChildren lib r).2
  pure (Rules.mk advancedOverride behaviors.1 children comments criteria.1 criteriaLocked
    customOverride name isSecure uuid templateUUID templateLink vars criteriaMustSatisfy)

/-! ## Notions used in the statements -/

/-- The test `err == nil || errors.Is(err, ErrNotFound)`: no failure other than not-found. -/
def notHard (err : Option ReaderError) : Bool :=
  match err with
  | some e => e.isNotFound
  | none => true

/-- The field is set: its getter returns a value and no error. -/
def Got.isSet (g : Got α) : Bool := g.2.isNone

/-- The getter reports not-found: `errors.Is(err, ErrNotFound)` holds of its error. -/
def Got.absent (g : Got α) : Bool :=
  match g.2 with
  | some e => e.isNotFound
  | none => false

/-- The getter returns a value or reports not-found. -/
def Got.soft (g : Got α) : Bool := notHard g.2

/-- A builder with another reader, the tables kept. -/
def RulesBuilder.withReader (r : RulesBuilder) (s : RulesSchemaReader) : RulesBuilder :=
  { r with schemaReader := s }

mutual
/-- A map value has unique keys, at every level reached through map values. -/
def wellKeyedValue : Value → Prop
  | .map m => wellKeyed m
  | _ => True
/-- The keys of the map are unique, and so are those of the maps it holds as values. -/
def wellKeyed : List (String × Value) → Prop
  | [] => True
  | (k, v) :: rest => k ∉ OptMap.keys rest ∧ wellKeyedValue v ∧ wellKeyed rest
end

/-! ## Example configurations -/

/-- The sentinel `ErrNotFound` as the reader returns it. -/
def errNotFound : ReaderError := ⟨"not found", true, false⟩

/-- A reader failure that is not a not-found. -/
def errBroken : ReaderError := ⟨"type assertion failed", false, false⟩

/-- A reader for a rule named `n` in which every optional field is absent. -/
def bareReader (n : String) : RulesSchemaReader :=
  { name := (n, none)
    variablesList := ([], some errNotFound)
    criteriaMustSatisfy := ("", some errNotFound)
    isSecure := (false, some errNotFound)
    advancedOverride := ("", some errNotFound)
    comments := ("", some errNotFound)
    criteriaLocked := (false, some errNotFound)
    customOverride := (none, some errNotFound)
    uuid := ("", some errNotFound)
    templateUUID := ("", some errNotFound)
    templateLink := ("", some errNotFound)
    criteriaList := ([], some errNotFound)
    behaviorsList := ([], some errNotFound)
    childrenList := ([], some errNotFound) }

/-- A builder over a reader, with empty tables and nothing to flatten. -/
def plainBuilder (s : RulesSchemaReader) : RulesBuilder :=
  { schemaReader := s, typeMappings := [], nameMappings := [], shouldFlatten := fun _ => false }

/-- A library whose case conversion is the identity and whose decoder rejects every input. -/
def plainLib : Lib :=
  { toLowerCamel := fun s => s, unmarshal := fun _ => .error "unexpected end of JSON input" }

/-- The default rule with `criteria_locked` set to `false` and nothing else. -/
def lockedDefault : RulesBuilder :=
  plainBuilder { bareReader "default" with criteriaLocked := (false, none) }

/-- As `lockedDefault`, but the reader fails on the variables. -/
def lockedDefaultBrokenVariables : RulesBuilder :=
  plainBuilder { bareReader "default" with
    criteriaLocked := (false, none), variablesList := ([], some errBroken) }

/-- As `lockedDefault`, but the reader fails on `is_secure`. -/
def lockedDefaultBrokenSecure : RulesBuilder :=
  plainBuilder { bareReader "default" with
    criteriaLocked := (false, none), isSecure := (false, some errBroken) }

/-- The default rule with one criterion whose `locked` entry is not a boolean. -/
def defaultWithBadCriterion : RulesBuilder :=
  plainBuilder { bareReader "default" with
    criteriaList := ([{ Name := "path", Item := [("locked", .str "yes")] }], none) }

/-- A rule named "caching" with `is_secure` set to `true` and nothing else. -/
def secureChild : RulesBuilder :=
  plainBuilder { bareReader "caching" with isSecure := (true, none) }

/-- A rule named "caching" whose variables list is present and empty. -/
def childWithNoVariables : RulesBuilder :=
  plainBuilder { bareReader "caching" with variablesList := ([], none) }

/-- As `secureChild`, but the reader fails on `criteria_must_satisfy`. -/
def secureChildBrokenPolicy : RulesBuilder :=
  plainBuilder { bareReader "caching" with
    isSecure := (true, none), criteriaMustSatisfy := ("", some errBroken) }

/-- As `secureChild`, with a variable that has no `name` entry. -/
def secureChildBadVariable : RulesBuilder :=
  plainBuilder { bareReader "caching" with
    isSecure := (true, none), variablesList := ([[("value", .str "1")]], none) }

/-- A library that decodes the empty JSON object to an empty rule and rejects every other text. -/
def strictLib : Lib :=
  { toLowerCamel := fun s => s
    unmarshal := fun s =>
      if s = "\x7b\x7d" then .ok { Comments := "", Rules := Rules.mk "" [] [] "" [] false none "" false "" "" "" [] "" }
      else .error "invalid character" }

/-- A rule named "caching" with two children, the second of which does not decode. -/
def childWithBrokenChild : RulesBuilder :=
  plainBuilder { bareReader "caching" with childrenList := (["\x7b\x7d", "\x7b"], none) }

/-- A builder for which exactly `someBehavior.someOption` is flattened. -/
def flattenSomeOption : RulesBuilder :=
  { schemaReader := bareReader "default", typeMappings := [], nameMappings := [],
    shouldFlatten := fun k => k == "someBehavior.someOption" }

/-- A builder whose table maps the value "408" of `someBehavior.code` to the number 408. -/
def mapSomeCode : RulesBuilder :=
  { schemaReader := bareReader "default"
    typeMappings := [("someBehavior.code.408", .int 408)]
    nameMappings := []
    shouldFlatten := fun k => k == "someBehavior.someOption" }

/-- A builder whose table maps the value "x" of `b.o` to a map holding a list under `p`,
with `b.o.p` flagged for flattening. -/
def mapToFlattenedMap : RulesBuilder :=
  { schemaReader := bareReader "default"
    typeMappings := [("b.o.x", .map [("p", .list [.str "q"])])]
    nameMappings := []
    shouldFlatten := fun k => k == "b.o.p" }

/-- A library that converts `cache_key` to `cacheKey` and leaves every other name. -/
def snakeLib : Lib :=
  { toLowerCamel := fun s => if s = "cache_key" then "cacheKey" else s
    unmarshal := fun _ => .error "unexpected end of JSON input" }

/-- A builder whose name table sends both `a` and `b` to `c`. -/
def mergeNames : RulesBuilder :=
  { schemaReader := bareReader "default", typeMappings := [],
    nameMappings := [("a", "c"), ("b", "c")], shouldFlatten := fun _ => false }

/-- An empty rule document with the given name. -/
def namedRule (n : String) : Rules :=
  Rules.mk "" [] [] "" [] false none n false "" "" "" [] ""

/-- A library whose decoder reads a non-empty text as the rule document of that name. -/
def namingLib : Lib :=
  { toLowerCamel := fun s => s
    unmarshal := fun s =>
      if s = "" then .error "unexpected end of JSON input"
      else .ok { Comments := "", Rules := namedRule s } }

/-- A rule named "caching" with the two children `first` and `second`. -/
def childWithTwoChildren : RulesBuilder :=
  plainBuilder { bareReader "caching" with childrenList := (["first", "second"], none) }

/-- One behavior `someBehavior` whose flattened option holds two elements. -/
def twoElementItem : RuleItem :=
  { Name := "someBehavior", Item := [("someOption", .list [.str "X", .str "Y"])] }

/-- Two behaviors with plain options. -/
def plainItems : List RuleItem :=
  [{ Name := "caching", Item := [("ttl", .str "1d")] },
   { Name := "gzip", Item := [("locked", .bool true)] }]

/-- The map as `getFromMapAndDeleteOrDefault(m, key, _)` leaves it: the entry is deleted when
it is present and not `nil`. -/
def dropIfSet (m : OptMap) (key : String) : OptMap :=
  match OptMap.get m key with
  | none => m
  | some .null => m
  | some _ => OptMap.delete m key

/-- The item map after the three reads of `buildRuleBehaviors`. -/
def stripMeta (m : OptMap) : OptMap :=
  dropIfSet (dropIfSet (dropIfSet m "locked") "uuid") "template_uuid"

/-- The value `getFromMapAndDeleteOrDefault(m, key, defVal)` returns when its assertion holds. -/
def readOrDefault (cast : Value → Option T) (m : OptMap) (key : String) (defVal : T) : T :=
  match OptMap.get m key with
  | none => defVal
  | some .null => defVal
  | some res => (cast res).getD defVal

/-- The entry under `key` is absent, `nil`, or of the asserted type. -/
def wellTyped (cast : Value → Option T) (m : OptMap) (key : String) : Bool :=
  match OptMap.get m key with
  | none => true
  | some .null => true
  | some res => (cast res).isSome

/-- The three keys `buildRuleBehaviors` reads from an item map. -/
def metaKeys : List String := ["locked", "uuid", "template_uuid"]

/-- An item whose `locked` entry is a string. -/
def badLockedItem : RuleItem :=
  { Name := "gzip", Item := [("locked", .str "yes")] }

/-- An item that holds the three entries and nothing else, `template_uuid` being `nil`. -/
def metaOnlyItem : RuleItem :=
  { Name := "gzip", Item := [("locked", .bool true), ("uuid", .str "u-1"), ("template_uuid", .null)] }

/-- The test `v != nil`. -/
def Value.notNull : Value → Bool
  | .null => false
  | _ => true

/-- The default rule with comments, `is_secure`, a uuid, one variable, one behavior and one
child. -/
def fullDefault : RulesBuilder :=
  plainBuilder { bareReader "default" with
    comments := ("top rule", none)
    isSecure := (true, none)
    uuid := ("u-0", none)
    variablesList := ([[("name", .str "PMUSER_X"), ("description", .str "d"),
      ("value", .str "1"), ("sensitive", .bool false), ("hidden", .bool true)]], none)
    behaviorsList := ([metaOnlyItem], none)
    childrenList := (["first"], none) }

/-- The behavior built from `metaOnlyItem`. -/
def builtMetaOnly : RuleBehavior :=
  { Name := "gzip", Locked := true, UUID := "u-1", TemplateUuid := "", Options := [] }

/-- The variable of `fullDefault`. -/
def builtVariable : RuleVariable :=
  { Name := "PMUSER_X", Description := some "d", Value := some "1", Sensitive := false,
    Hidden := true }

/-- The document built for `fullDefault`. -/
def fullDefaultDoc : Rules :=
  Rules.mk "" [builtMetaOnly] [namedRule "first"] "top rule" [] false none "default" true "u-0"
    "" "" [builtVariable] ""

/-- An item that holds a `locked` entry and nothing else. -/
def lockedOnlyItem : RuleItem :=
  { Name := "gzip", Item := [("locked", .bool true)] }

/-- The entry under `key` is absent or `nil`: `getFromMapAndDeleteOrDefault` returns the
default for it and deletes nothing. -/
def unsetAt (m : OptMap) (key : String) : Bool :=
  match OptMap.get m key with
  | none => true
  | some .null => true
  | some _ => false

/-- The behavior with `Locked`, `UUID` and `TemplateUuid` at their defaults. -/
def RuleBehavior.withoutMeta (b : RuleBehavior) : RuleBehavior :=
  { b with Locked := false, UUID := "", TemplateUuid := "" }

/-- The item as one turn of the loop of `buildRuleBehaviors` leaves it. -/
def RuleItem.stripped (item : RuleItem) : RuleItem :=
  { item with Item := stripMeta item.Item }

/-! ## The plan of the GTM resources -/

namespace Gtm

/-- Stands for `gtm.GeoAssignment`, by the fields the tests of the geomap resource set. -/
structure GeoAssignment where
  DatacenterID : Nat
  Nickname : String
  Countries : List String
deriving DecidableEq, Repr

/-- The geomap resource, by the attributes the order tests change. -/
structure GeoMapConfig where
  Domain : String
  Name : String
  WaitOnComplete : Bool
  Assignments : List GeoAssignment
deriving DecidableEq, Repr

/-- Stands for `gtm.ResourceInstance` with its `gtm.LoadObject`, by the fields the tests of
the resource resource set. -/
structure ResourceInstance where
  DatacenterID : Nat
  UseDefaultLoadObject : Bool
  LoadObject : String
  LoadObjectPort : Nat
  LoadServers : List String
deriving DecidableEq, Repr

/-- The resource resource, by the attributes the order tests set or change; `ResourceType`
is the field `Type`. -/
structure ResourceConfig where
  Domain : String
  Name : String
  AggregationType : String
  ResourceType : String
  ResourceInstances : List ResourceInstance
deriving DecidableEq, Repr

/-- A block of a list-valued field: its scalar fields, and the list it holds. -/
abbrev Block (κ : Type) := κ × List String

/-- The `assignment` block of a geomap: the datacenter and nickname, and the countries. -/
def GeoAssignment.block (a : GeoAssignment) : Block (Nat ×ₗ String) :=
  (toLex (a.DatacenterID, a.Nickname), a.Countries)

/-- The `resource_instance` block of a resource: its scalar fields, and the load servers. -/
def ResourceInstance.block (i : ResourceInstance) : Block (Nat ×ₗ Bool ×ₗ String ×ₗ Nat) :=
  (toLex (i.DatacenterID, toLex (i.UseDefaultLoadObject, toLex (i.LoadObject, i.LoadObjectPort))),
   i.LoadServers)

/-- Modelled from the spec: the comparison of a list-valued field, which is missing from the
sources, is made "via sorting hints", so that "a reordering of list-valued fields" is not a
change: the list is sorted before it is compared. -/
def sortedField (l : List String) : List String :=
  l.insertionSort (fun a b => a ≤ b)

/-- Modelled from the spec: the form in which a block of a list-valued field, missing from the
sources, is compared: the list inside the block is sorted. -/
def normalBlock [LinearOrder κ] (b : Block κ) : κ ×ₗ List String :=
  toLex (b.1, sortedField b.2)

/-- Modelled from the spec: the form in which a list of blocks, missing from the sources, is
compared: each block in its compared form, and the blocks sorted. -/
def normalBlocks [LinearOrder κ] (bs : List (Block κ)) : List (κ ×ₗ List String) :=
  (bs.map normalBlock).insertionSort (fun a b => a ≤ b)

/-- Modelled from the spec: the plan of the geomap resource, missing from the sources, as the
list of the attributes that differ between the state and the configuration; "a reordering of
list-valued fields should NOT produce a change, while other field changes should". -/
def planGeoMap (state config : GeoMapConfig) : List String :=
  (if config.Domain = state.Domain then [] else ["domain"]) ++
  (if config.Name = state.Name then [] else ["name"]) ++
  (if config.WaitOnComplete = state.WaitOnComplete then [] else ["wait_on_complete"]) ++
  (if normalBlocks (config.Assignments.map GeoAssignment.block)
      = normalBlocks (state.Assignments.map GeoAssignment.block) then [] else ["assignment"])

/-- Modelled from the spec: the plan of the resource resource, missing from the sources, as
the list of the attributes that differ between the state and the configuration; "a reordering
of list-valued fields should NOT produce a change, while other field changes should". -/
def planResource (state config : ResourceConfig) : List String :=
  (if config.Domain = state.Domain then [] else ["domain"]) ++
  (if config.Name = state.Name then [] else ["name"]) ++
  (if config.AggregationType = state.AggregationType then [] else ["aggregation_type"]) ++
  (if config.ResourceType = state.ResourceType then [] else ["type"]) ++
  (if normalBlocks (config.ResourceInstances.map ResourceInstance.block)
      = normalBlocks (state.ResourceInstances.map ResourceInstance.block) then []
    else ["resource_instance"])

/-- Two lists of blocks differ only by the order of the blocks and the order of the list
inside each block. -/
def Reordered (config state : List (Block κ)) : Prop :=
  ∃ l, config.Perm l ∧ List.Forall₂ (fun a b => a.1 = b.1 ∧ a.2.Perm b.2) l state

/-- The geomap of the order tests as it is created (`getDiffOrderGeoMap`). -/
def diffOrderGeoMap : GeoMapConfig :=
  { Domain := "gtm_terra_testdomain.akadns.net"
    Name := "tfexample_geomap_1"
    WaitOnComplete := true
    Assignments :=
      [{ DatacenterID := 3131, Nickname := "tfexample_dc_1", Countries := ["PL", "FR", "US", "GB"] },
       { DatacenterID := 3132, Nickname := "tfexample_dc_2", Countries := ["AU", "GB"] },
       { DatacenterID := 3133, Nickname := "tfexample_dc_3",
         Countries := ["CN", "BG", "TR", "MC", "GB"] }] }

/-- The same geomap with its assignments, and the countries inside them, in another order. -/
def diffOrderGeoMapReordered : GeoMapConfig :=
  { diffOrderGeoMap with
    Assignments :=
      [{ DatacenterID := 3132, Nickname := "tfexample_dc_2", Countries := ["GB", "AU"] },
       { DatacenterID := 3131, Nickname := "tfexample_dc_1", Countries := ["GB", "PL", "US", "FR"] },
       { DatacenterID := 3133, Nickname := "tfexample_dc_3",
         Countries := ["GB", "BG", "CN", "MC", "TR"] }] }

/-- The resource of the order tests (`resourceForOrderTests`). -/
def resourceForOrderTests : ResourceConfig :=
  { Domain := "gtm_terra_testdomain.akadns.net"
    Name := "tfexample_resource_1"
    AggregationType := "latest"
    ResourceType := "XML load object via HTTP"
    ResourceInstances :=
      [{ DatacenterID := 3131, UseDefaultLoadObject := false, LoadObject := "/test1",
         LoadObjectPort := 80, LoadServers := ["1.2.3.4", "1.2.3.5", "1.2.3.6"] },
       { DatacenterID := 3132, UseDefaultLoadObject := false, LoadObject := "/test2",
         LoadObjectPort := 80, LoadServers := ["1.2.3.7", "1.2.3.8", "1.2.3.9", "1.2.3.10"] }] }

/-- The same resource with its instances, and the load servers inside them, in another
order. -/
def resourceReordered : ResourceConfig :=
  { resourceForOrderTests with
    ResourceInstances :=
      [{ DatacenterID := 3132, UseDefaultLoadObject := false, LoadObject := "/test2",
         LoadObjectPort := 80, LoadServers := ["1.2.3.10", "1.2.3.9", "1.2.3.8", "1.2.3.7"] },
       { DatacenterID := 3131, UseDefaultLoadObject := false, LoadObject := "/test1",
         LoadObjectPort := 80, LoadServers := ["1.2.3.6", "1.2.3.4", "1.2.3.5"] }] }

end Gtm

/-- A rule named "caching" with one well-formed variable. -/
def childWithVariable : RulesBuilder :=
  plainBuilder { bareReader "caching" with
    variablesList := ([[("name", .str "PMUSER_X"), ("description", .str "d"),
      ("value", .str "1"), ("sensitive", .bool false), ("hidden", .bool true)]], none) }

/-- A rule named "caching" with one variable that has no `name` entry. -/
def childWithBadVariable : RulesBuilder :=
  plainBuilder { bareReader "caching" with variablesList := ([[("value", .str "1")]], none) }

/-- One role check of `Build`: the field it names, the sentinel it wraps, whether the field
is present (the getter returned no error; for the variables, the list is read and is not
empty), and the errors of the getters that `Build` has tested before it reaches the check. -/
structure RoleCheck where
  field : String
  sentinel : Sentinel
  present : Bool
  before : List (Option ReaderError)

/-- The seven role checks of `Build`, in the order of its statements (lines 52 to 119). -/
def roleChecks (r : RulesBuilder) : List RoleCheck :=
  [ { field := "variable", sentinel := .ErrOnlyForDefault
      present := r.schemaReader.variablesList.2.isNone && !r.schemaReader.variablesList.1.isEmpty
      before := [] },
    { field := "criteria_must_satisfy", sentinel := .ErrNotForDefault
      present := (ruleCriteriaMustSatisfy r).2.isNone
      before := [] },
    { field := "is_secure", sentinel := .ErrOnlyForDefault
      present := (ruleIsSecure r).2.isNone
      before := [(ruleCriteriaMustSatisfy r).2] },
    { field := "advanced_override", sentinel := .ErrOnlyForDefault
      present := (ruleAdvancedOverride r).2.isNone
      before := [(ruleCriteriaMustSatisfy r).2, (ruleIsSecure r).2] },
    { field := "criteria_locked", sentinel := .ErrNotForDefault
      present := (ruleCriteriaLocked r).2.isNone
      before := [(ruleCriteriaMustSatisfy r).2, (ruleIsSecure r).2, (ruleAdvancedOverride r).2,
        (ruleComments r).2] },
    { field := "custom_override", sentinel := .ErrOnlyForDefault
      present := (ruleCustomOverride r).2.isNone
      before := [(ruleCriteriaMustSatisfy r).2, (ruleIsSecure r).2, (ruleAdvancedOverride r).2,
        (ruleComments r).2, (ruleCriteriaLocked r).2] },
    { field := "criterion", sentinel := .ErrNotForDefault
      present := r.schemaReader.criteriaList.2.isNone
      before := [(ruleCriteriaMustSatisfy r).2, (ruleIsSecure r).2, (ruleAdvancedOverride r).2,
        (ruleComments r).2, (ruleCriteriaLocked r).2, (ruleCustomOverride r).2, (ruleUUID r).2,
        (ruleTemplateUUID r).2, (ruleTemplateLink r).2] } ]

/-- The configuration violates a role constraint: the field is present in a rule of the
other role. -/
def violated (r : RulesBuilder) (c : RoleCheck) : Bool :=
  c.present &&
    (match c.sentinel with
     | .ErrOnlyForDefault => (ruleName r).1 != defaultRule
     | .ErrNotForDefault => (ruleName r).1 == defaultRule)

/-- The first role constraint, in the order of `Build`, that the configuration violates. -/
def firstViolation (r : RulesBuilder) : Option RoleCheck :=
  (roleChecks r).find? (violated r)

/-- A rule named "caching" with `is_secure` present and `false`. -/
def insecureChild : RulesBuilder :=
  plainBuilder { bareReader "caching" with isSecure := (false, none) }

/-- A rule named "caching" with `advanced_override` present and empty. -/
def childEmptyOverride : RulesBuilder :=
  plainBuilder { bareReader "caching" with advancedOverride := ("", none) }

/-- The default rule with `criteria_must_satisfy` present and empty. -/
def defaultEmptyPolicy : RulesBuilder :=
  plainBuilder { bareReader "default" with criteriaMustSatisfy := ("", none) }

/-- As `insecureChild`, but the reader fails on `criteria_must_satisfy`. -/
def insecureChildBrokenPolicy : RulesBuilder :=
  plainBuilder { bareReader "caching" with
    isSecure := (false, none), criteriaMustSatisfy := ("", some errBroken) }

/-- A rule named "caching" for which the getter of `is_secure` fails with an error that is
not a not-found. -/
def childBrokenSecure : RulesBuilder :=
  plainBuilder { bareReader "caching" with isSecure := (false, some errBroken) }

/-- A rule whose name is not found, with `is_secure` and a criterion set. -/
def namelessRule : RulesBuilder :=
  plainBuilder { bareReader "" with
    name := ("", some errNotFound)
    isSecure := (true, none)
    criteriaList := ([{ Name := "path", Item := [("locked", .str "yes")] }], none) }

/-- A rule named "caching" with `advanced_override` and `custom_override` set, for which the
getter of `is_secure` fails with an error that is not a not-found. -/
def twoOverridesBrokenSecure : RulesBuilder :=
  plainBuilder { bareReader "caching" with
    advancedOverride := ("<xml/>", none)
    customOverride := (some { Name := "mdc", OverrideID := "cbo_1" }, none)
    isSecure := (false, some errBroken) }

/-- A rule named "caching" with `is_secure` and `custom_override` set, for which the getter
of `comments` fails with an error that is not a not-found. -/
def secureOverrideBrokenComments : RulesBuilder :=
  plainBuilder { bareReader "caching" with
    isSecure := (true, none)
    customOverride := (some { Name := "mdc", OverrideID := "cbo_1" }, none)
    comments := ("", some errBroken) }

/-- The default rule with `criteria_must_satisfy` and `criteria_locked` set, for which the
getter of `is_secure` fails with an error that is not a not-found. -/
def defaultTwoCriteriaFields : RulesBuilder :=
  plainBuilder { bareReader "default" with
    criteriaMustSatisfy := ("all", none)
    criteriaLocked := (true, none)
    isSecure := (false, some errBroken) }

/-- The walk of `remapOptionValues` reaches an option: `Reached r b options key v` when the
loop over `options` under the name `b`, or a recursive call it makes for the map stored for
one of its options, visits an entry of value `v` whose dotted key (`optKey`) is `key`. -/
inductive Reached (r : RulesBuilder) : String → OptMap → String → Value → Prop where
  | here {b : String} {options : OptMap} {o : String} {v : Value} :
      (o, v) ∈ options → Reached r b options (b ++ "." ++ o) v
  | inside {b : String} {options : OptMap} {o : String} {v : Value} {m : OptMap}
      {key : String} {w : Value} :
      (o, v) ∈ options → pickValue r (b ++ "." ++ o) v = .ok (some (.map m)) →
      Reached r (b ++ "." ++ o) m key w → Reached r b options key w

/-- The value of an option flagged for flattening is not a list, or is a list with more than
one element (lines 279 to 285 of `remapOptionValues`). -/
def notFlattenable : Value → Bool
  | .list slc => decide (slc.length > 1)
  | _ => true

/-- A behavior whose nested map holds an option flagged for flattening. -/
def flattenNested : RulesBuilder :=
  { schemaReader := bareReader "default", typeMappings := [], nameMappings := [],
    shouldFlatten := fun k => k == "b.o.p" }

/-- Options of a behavior `b`: a map under `o`, and a list holding a map under `l`. -/
def nestedOptions : OptMap :=
  [("o", .map [("p", .list [.str "x"])]), ("l", .list [.map [("p", .list [.str "x"])]])]

/-- An option bag with a nested map, `nil` values, and a list holding a map, a `nil` and a
string. -/
def snakeOptions : OptMap :=
  [("cache_key", .map [("cache_key", .str "X"), ("n", .null)]), ("drop", .null),
   ("l", .list [.map [("cache_key", .int 1)], .null, .str "s"])]

/-- The loop of `remapOptionValues` run with a bound on the number of loop turns and
recursive calls it may make: `none` when the bound is reached before the loop has returned
or panicked. -/
def remapLoopWithin (r : RulesBuilder) : Nat → String → OptMap → OptMap → Option (MayPanic OptMap)
  | 0, _, _, _ => none
  | _ + 1, _, [], newRom => some (.ok newRom)
  | fuel + 1, behaviorName, (optionName, v) :: rest, newRom =>
    match pickValue r (behaviorName ++ "." ++ optionName) v with
    | .error f => some (.error f)
    | .ok none => remapLoopWithin r fuel behaviorName rest newRom
    | .ok (some (.map m)) =>
      match remapLoopWithin r fuel (behaviorName ++ "." ++ optionName) m [] with
      | none => none
      | some (.error f) => some (.error f)
      | some (.ok m') =>
        remapLoopWithin r fuel behaviorName rest
          (OptMap.set (OptMap.set newRom optionName (.map m)) optionName (.map m'))
    | .ok (some picked) =>
      remapLoopWithin r fuel behaviorName rest (OptMap.set newRom optionName picked)

/-- A builder whose table maps the value "x" of `b.o` to a map whose option `o` holds "y",
and the value "y" of `b.o.o` to a map in turn. -/
def mapTwice : RulesBuilder :=
  { schemaReader := bareReader "default"
    typeMappings := [("b.o.x", .map [("o", .str "y")]), ("b.o.o.y", .map [("o", .str "x")])]
    nameMappings := []
    shouldFlatten := fun _ => false }

/-! ## Logging of the vendored client (`edgegrid/log.go`) -/

namespace Edgegrid

/-- Stands for `strings.Trim(s, "\n")`: the string without its leading and its trailing
newlines. -/
def trimNewlines (s : String) : String :=
  ⟨((s.data.dropWhile (fun c => c == '\n')).reverse.dropWhile (fun c => c == '\n')).reverse⟩

/-- The pieces of a text between its newlines, the first piece apart: `splitAfter line cs` is
the split of the text `line` followed by `cs`, where `line` holds no newline. -/
def splitAfter (line : List Char) : List Char → List (List Char)
  | [] => [line]
  | c :: cs => if c = '\n' then line :: splitAfter [] cs else splitAfter (line ++ [c]) cs

/-- Stands for `strings.Split(s, "\n")`: the substrings of `s` between its newlines; the
empty string gives one empty substring. -/
def splitNewlines (s : String) : List String :=
  (splitAfter [] s.data).map String.mk

/-- The function `LogMultiline`, with the function `f` given by what a call of it does to
the state of the log. -/
def LogMultiline (f : σ → String → σ) (log : σ) (args : List String) : σ :=
  args.foldl (fun log str => (splitNewlines (trimNewlines str)).foldl f log) log

/-- The lines `LogMultiline` passes to `f` for one argument. -/
def linesOf (str : String) : List String := splitNewlines (trimNewlines str)

/-- A function `f` that records the string it is called with. -/
def record (log : List String) (str : String) : List String := log ++ [str]

end Edgegrid

/-! ## Lemmas on the statements of `Build` -/

theorem bind_eq_ok {ε α β : Type} {x : Except ε α} {f : α → Except ε β} {b : β} :
    (x >>= f) = .ok b ↔ ∃ a, x = .ok a ∧ f a = .ok b := by
  cases x with
  | error e => simp [bind, Except.bind]
  | ok a => simp [bind, Except.bind]

theorem bind_eq_error {ε α β : Type} {x : Except ε α} {f : α → Except ε β} {e : ε} :
    (x >>= f) = .error e ↔ x = .error e ∨ ∃ a, x = .ok a ∧ f a = .error e := by
  cases x with
  | error e => simp [bind, Except.bind]
  | ok a => simp [bind, Except.bind]

theorem ok_bind {ε α β : Type} (a : α) (f : α → Except ε β) :
    ((Except.ok a : Except ε α) >>= f) = f a := rfl

theorem error_bind {ε α β : Type} (e : ε) (f : α → Except ε β) :
    ((Except.error e : Except ε α) >>= f) = .error e := rfl

theorem forbid_eq_ok {c : Bool} {s : Sentinel} {f : String} {u : Unit} :
    forbid c s f = .ok u ↔ c = false := by
  cases c <;> simp [forbid]

theorem forbid_eq_error {c : Bool} {s : Sentinel} {f : String} {x : Failure} :
    forbid c s f = .error x ↔ c = true ∧ x = .err (.role s f) := by
  cases c <;> simp [forbid, eq_comm]

theorem unlessNotFound_eq_ok {e : Option ReaderError} {u : Unit} :
    unlessNotFound e = .ok u ↔ notHard e = true := by
  unfold unlessNotFound notHard
  cases e with
  | none => simp
  | some e => cases h : e.isNotFound <;> simp [h]

theorem unlessNotFound_eq_error {e : Option ReaderError} {x : Failure} :
    unlessNotFound e = .error x ↔ ∃ re, e = some re ∧ re.isNotFound = false ∧ x = .err (.reader re) := by
  cases e with
  | none => simp [unlessNotFound]
  | some e =>
    cases h : e.isNotFound
    · simp only [unlessNotFound, h]
      constructor
      · intro hx
        exact ⟨e, rfl, h, by cases hx; rfl⟩
      · rintro ⟨re, hre, _, hx⟩
        cases hre
        rw [hx]
        rfl
    · simp only [unlessNotFound, h]
      constructor
      · intro hx; cases hx
      · rintro ⟨re, hre, hf, _⟩
        cases hre
        rw [h] at hf
        cases hf

theorem failOn_eq_ok {e : Option ReaderError} {u : Unit} : failOn e = .ok u ↔ e = none := by
  cases e <;> simp [failOn]

theorem failOn_eq_error {e : Option ReaderError} {x : Failure} :
    failOn e = .error x ↔ ∃ re, e = some re ∧ x = .err (.reader re) := by
  cases e <;> simp [failOn, eq_comm]

theorem unlessTfNotFound_eq_ok {e : Option BuildError} {u : Unit} :
    unlessTfNotFound e = .ok u ↔ ∀ be, e = some be → be.isTfNotFound = true := by
  unfold unlessTfNotFound
  cases e with
  | none => simp
  | some e => cases h : e.isTfNotFound <;> simp [h]

theorem unlessTfNotFound_eq_error {e : Option BuildError} {x : Failure} :
    unlessTfNotFound e = .error x ↔ ∃ be, e = some be ∧ be.isTfNotFound = false ∧ x = .err be := by
  cases e with
  | none => simp [unlessTfNotFound]
  | some e =>
    cases h : e.isTfNotFound
    · simp only [unlessTfNotFound, h]
      constructor
      · intro hx
        exact ⟨e, rfl, h, by cases hx; rfl⟩
      · rintro ⟨be, hbe, _, hx⟩
        cases hbe
        rw [hx]
        rfl
    · simp only [unlessTfNotFound, h]
      constructor
      · intro hx; cases hx
      · rintro ⟨be, hbe, hf, _⟩
        cases hbe
        rw [h] at hf
        cases hf

theorem unwind_eq_ok {x : MayPanic α} {a : α} : x.unwind = .ok a ↔ x = .ok a := by
  cases x <;> simp [MayPanic.unwind]

theorem unwind_eq_error {x : MayPanic α} {f : Failure} :
    x.unwind = .error f ↔ ∃ p, x = .error p ∧ f = .panic p := by
  cases x <;> simp [MayPanic.unwind, eq_comm]

theorem buildRuleBehaviorsState_error {lib : Lib} {r : RulesBuilder} {items : List RuleItem}
    {f : Failure} (h : buildRuleBehaviorsState lib r items = .error f) : ∃ p, f = .panic p := by
  induction items with
  | nil => simp [buildRuleBehaviorsState] at h
  | cons item rest ih =>
    simp only [buildRuleBehaviorsState, bind_eq_error, unwind_eq_error] at h
    rcases h with ⟨p, _, hp⟩ | ⟨_, _, h⟩
    · exact ⟨p, hp⟩
    · rcases h with h | ⟨_, _, h⟩
      · exact ih h
      · cases h

theorem buildRuleBehaviors_error {lib : Lib} {r : RulesBuilder} {items : List RuleItem}
    {f : Failure} (h : buildRuleBehaviors lib r items = .error f) : ∃ p, f = .panic p := by
  unfold buildRuleBehaviors at h
  cases hs : buildRuleBehaviorsState lib r items with
  | error f' =>
    rw [hs] at h
    simp only [Except.map] at h
    cases h
    exact buildRuleBehaviorsState_error hs
  | ok a => rw [hs] at h; simp [Except.map] at h

theorem ruleCriteria_error {lib : Lib} {r : RulesBuilder} {f : Failure}
    (h : ruleCriteria lib r = .error f) : ∃ p, f = .panic p := by
  unfold ruleCriteria at h
  split at h
  · cases h
  · cases hb : buildRuleBehaviors lib r ‹_› with
    | error f' =>
      rw [hb] at h; simp only [Except.map] at h; cases h
      exact buildRuleBehaviors_error hb
    | ok a => rw [hb] at h; simp [Except.map] at h

theorem ruleBehaviors_error {lib : Lib} {r : RulesBuilder} {f : Failure}
    (h : ruleBehaviors lib r = .error f) : ∃ p, f = .panic p := by
  unfold ruleBehaviors at h
  split at h
  · cases h
  · cases hb : buildRuleBehaviors lib r ‹_› with
    | error f' =>
      rw [hb] at h; simp only [Except.map] at h; cases h
      exact buildRuleBehaviors_error hb
    | ok a => rw [hb] at h; simp [Except.map] at h

theorem ruleCriteria_snd {lib : Lib} {r : RulesBuilder} {c : Got (List RuleBehavior)}
    (h : ruleCriteria lib r = .ok c) : c.2 = r.schemaReader.criteriaList.2 := by
  unfold ruleCriteria at h
  split at h
  · rename_i he; cases h; rw [he]
  · rename_i he
    cases hb : buildRuleBehaviors lib r ‹_› with
    | error f' => rw [hb] at h; simp [Except.map] at h
    | ok a => rw [hb] at h; simp only [Except.map] at h; cases h; rw [he]

theorem ruleVariables_error {r : RulesBuilder} {f : Failure} (h : ruleVariables r = .error f) :
    (∃ p, f = .panic p) ∨
    ∃ re, r.schemaReader.variablesList.2 = some re ∧ re.isNotFound = false ∧ f = .err (.reader re) := by
  unfold ruleVariables at h
  split at h
  · rename_i err he
    split at h
    · cases h
    · cases h
      right
      exact ⟨err, by rw [he], by simpa using ‹¬ err.isNotFound = true›, rfl⟩
  · left
    rw [unwind_eq_error] at h
    obtain ⟨p, _, hp⟩ := h
    exact ⟨p, hp⟩

theorem convertVariables_length {l : List OptMap} {vs : List RuleVariable}
    (h : convertVariables l = .ok vs) : vs.length = l.length := by
  induction l generalizing vs with
  | nil => simp [convertVariables] at h; subst h; rfl
  | cons e rest ih =>
    simp only [convertVariables, bind_eq_ok] at h
    obtain ⟨_, _, _, _, _, _, _, _, _, _, vs', hvs, h⟩ := h
    cases h
    simp [ih hvs]

theorem ruleVariables_ok {r : RulesBuilder} {vs : List RuleVariable} (h : ruleVariables r = .ok vs) :
    (r.schemaReader.variablesList.absent = true ∧ vs = []) ∨
    (r.schemaReader.variablesList.2 = none ∧ vs.length = r.schemaReader.variablesList.1.length) := by
  unfold ruleVariables at h
  split at h
  · rename_i err he
    split at h
    · cases h
      left
      refine ⟨?_, rfl⟩
      simp only [Got.absent, he]
      assumption
    · cases h
  · rename_i l he
    right
    rw [unwind_eq_ok] at h
    rw [he]
    exact ⟨rfl, convertVariables_length h⟩

theorem forbid_false (s : Sentinel) (f : String) : forbid false s f = .ok () := rfl

theorem forbid_true (s : Sentinel) (f : String) :
    forbid true s f = .error (.err (.role s f)) := rfl

theorem unlessNotFound_of_notHard {e : Option ReaderError} (h : notHard e = true) :
    unlessNotFound e = .ok () := unlessNotFound_eq_ok.mpr h

theorem Build_ok_inv {lib : Lib} {r : RulesBuilder} {doc : Rules} (h : Build lib r = .ok doc) :
    (ruleName r).2 = none ∧
    ∃ vs c b, ruleVariables r = .ok vs ∧ ruleCriteria lib r = .ok c ∧ ruleBehaviors lib r = .ok b ∧
      ((ruleName r).1 != defaultRule && decide (vs.length > 0)) = false ∧
      ((ruleName r).1 == defaultRule && (ruleCriteriaMustSatisfy r).2.isNone) = false ∧
      ((ruleName r).1 != defaultRule && (ruleIsSecure r).2.isNone) = false ∧
      ((ruleName r).1 != defaultRule && (ruleAdvancedOverride r).2.isNone) = false ∧
      ((ruleName r).1 == defaultRule && (ruleCriteriaLocked r).2.isNone) = false ∧
      ((ruleName r).1 != defaultRule && (ruleCustomOverride r).2.isNone) = false ∧
      ((ruleName r).1 == defaultRule && c.2.isNone) = false ∧
      notHard (ruleCriteriaMustSatisfy r).2 = true ∧ notHard (ruleIsSecure r).2 = true ∧
      notHard (ruleAdvancedOverride r).2 = true ∧ notHard (ruleComments r).2 = true ∧
      notHard (ruleCriteriaLocked r).2 = true ∧ notHard (ruleCustomOverride r).2 = true ∧
      notHard (ruleUUID r).2 = true ∧ notHard (ruleTemplateUUID r).2 = true ∧
      notHard (ruleTemplateLink r).2 = true ∧ notHard c.2 = true ∧ notHard b.2 = true ∧
      (∀ be, (ruleChildren lib r).2 = some be → be.isTfNotFound = true) ∧
      doc = Rules.mk (ruleAdvancedOverride r).1 b.1 (ruleChildren lib r).1 (ruleComments r).1 c.1
        (ruleCriteriaLocked r).1 (ruleCustomOverride r).1 (ruleName r).1 (ruleIsSecure r).1
        (ruleUUID r).1 (ruleTemplateUUID r).1 (ruleTemplateLink r).1 vs
        (ruleCriteriaMustSatisfy r).1 := by
  unfold Build at h
  simp only [bind_eq_ok, forbid_eq_ok, unlessNotFound_eq_ok, failOn_eq_ok,
    unlessTfNotFound_eq_ok] at h
  obtain ⟨_, h0, vs, hv, _, h1, _, h2, _, h3, _, h4, _, h5, _, h6, _, h7, _, h8, _, h9, _, h10,
    _, h11, _, h12, _, h13, _, h14, _, h15, c, hc, _, h16, _, h17, b, hb, _, h18, _, h19, h20⟩ := h
  refine ⟨h0, vs, c, b, hv, hc, hb, h1, h2, h4, h6, h9, h11, h16, h3, h5, h7, h8, h10, h12, h13,
    h14, h15, h17, h18, h19, ?_⟩
  simp only [pure, Except.pure, Except.ok.injEq] at h20
  exact h20.symm

/-- C1 (as amended): for a rule named "default" in which criterion, criteria_locked or
criteria_must_satisfy is set, `Build` returns no rule document; when moreover `ruleVariables`
succeeds, no getter read before the criteria fails with an error other than not-found and
building the criteria does not panic, the error wraps `ErrNotForDefault`. -/
theorem build_default_rejects_criteria (lib : Lib) (r : RulesBuilder)
    (hname : ruleName r = ("default", none))
    (hset : r.schemaReader.criteriaList.isSet = true ∨ (ruleCriteriaLocked r).isSet = true ∨
      (ruleCriteriaMustSatisfy r).isSet = true) :
    (∀ doc, Build lib r ≠ .ok doc) ∧
    ((∃ vs, ruleVariables r = .ok vs) → (ruleCriteriaMustSatisfy r).soft = true →
      (ruleIsSecure r).soft = true → (ruleAdvancedOverride r).soft = true →
      (ruleComments r).soft = true → (ruleCriteriaLocked r).soft = true →
      (ruleCustomOverride r).soft = true → (ruleUUID r).soft = true →
      (ruleTemplateUUID r).soft = true → (ruleTemplateLink r).soft = true →
      (∃ c, ruleCriteria lib r = .ok c) →
      ∃ field, Build lib r = .error (.err (.role .ErrNotForDefault field))) := by
  have hn1 : (ruleName r).1 = defaultRule := by rw [hname]; rfl
  have hn2 : (ruleName r).2 = none := by rw [hname]
  constructor
  · intro doc h
    obtain ⟨_, vs, c, b, hv, hc, hb, _, h2, _, _, h9, _, h16, _⟩ := Build_ok_inv h
    simp only [hn1, beq_self_eq_true, Bool.true_and] at h2 h9 h16
    rw [ruleCriteria_snd hc] at h16
    simp only [Got.isSet] at hset
    rcases hset with hs | hs | hs
    · rw [h16] at hs; cases hs
    · rw [h9] at hs; cases hs
    · rw [h2] at hs; cases hs
  · rintro ⟨vs, hv⟩ s1 s2 s3 s4 s5 s6 s7 s8 s9 ⟨c, hc⟩
    simp only [Got.soft] at s1 s2 s3 s4 s5 s6 s7 s8 s9
    have hcs := ruleCriteria_snd hc
    unfold Build
    simp only [hn1, hn2, hv, hc, failOn, ok_bind, bne_self_eq_false, Bool.false_and, forbid_false,
      beq_self_eq_true, Bool.true_and, unlessNotFound_of_notHard s1, unlessNotFound_of_notHard s2,
      unlessNotFound_of_notHard s3, unlessNotFound_of_notHard s4, unlessNotFound_of_notHard s5,
      unlessNotFound_of_notHard s6, unlessNotFound_of_notHard s7, unlessNotFound_of_notHard s8,
      unlessNotFound_of_notHard s9]
    cases h1 : (ruleCriteriaMustSatisfy r).2.isNone
    · simp only [forbid_false, ok_bind]
      cases h2 : (ruleCriteriaLocked r).2.isNone
      · simp only [forbid_false, ok_bind]
        have h3 : c.2.isNone = true := by
          rw [hcs]
          simp only [Got.isSet] at hset
          rcases hset with hs | hs | hs
          · exact hs
          · rw [h2] at hs; cases hs
          · rw [h1] at hs; cases hs
        simp only [h3, forbid_true, error_bind]
        exact ⟨_, rfl⟩
      · simp only [forbid_true, error_bind]
        exact ⟨_, rfl⟩
    · simp only [forbid_true, error_bind]
      exact ⟨_, rfl⟩

theorem ruleVariables_ne_role {r : RulesBuilder} {s : Sentinel} {f : String} :
    ruleVariables r = .error (.err (.role s f)) ↔ False := by
  constructor
  · intro h
    rcases ruleVariables_error h with ⟨p, hp⟩ | ⟨re, _, _, hre⟩
    · cases hp
    · cases hre
  · exact False.elim

theorem ruleCriteria_ne_err {lib : Lib} {r : RulesBuilder} {e : BuildError} :
    ruleCriteria lib r = .error (.err e) ↔ False := by
  constructor
  · intro h
    obtain ⟨p, hp⟩ := ruleCriteria_error h
    cases hp
  · exact False.elim

theorem ruleBehaviors_ne_err {lib : Lib} {r : RulesBuilder} {e : BuildError} :
    ruleBehaviors lib r = .error (.err e) ↔ False := by
  constructor
  · intro h
    obtain ⟨p, hp⟩ := ruleBehaviors_error h
    cases hp
  · exact False.elim

theorem decodeChildren_error {lib : Lib} {l : List String} {e : BuildError}
    (h : decodeChildren lib l = .error e) :
    ∃ s ∈ l, ∃ t, lib.unmarshal s = .error t ∧ e = .decode t := by
  induction l with
  | nil => simp [decodeChildren] at h
  | cons s rest ih =>
    simp only [decodeChildren] at h
    split at h
    · rename_i t ht
      cases h
      exact ⟨s, List.mem_cons_self _ _, t, ht, rfl⟩
    · split at h
      · rename_i e' he
        cases h
        obtain ⟨s', hs', t, ht, hte⟩ := ih he
        exact ⟨s', List.mem_cons_of_mem _ hs', t, ht, hte⟩
      · cases h

theorem ruleChildren_ne_role {lib : Lib} {r : RulesBuilder} {s : Sentinel} {f : String} :
    (ruleChildren lib r).2 = some (.role s f) ↔ False := by
  constructor
  · intro h
    unfold ruleChildren at h
    split at h
    · split at h
      · cases h
      · cases h
    · split at h
      · rename_i e he
        obtain ⟨_, _, t, _, hte⟩ := decodeChildren_error he
        simp only [Option.some.injEq] at h
        rw [hte] at h
        cases h
      · cases h
  · exact False.elim

/-- C3: a role error returned by `Build` is `sentinel: field` for one of the seven
fields, with the sentinel that belongs to the role of the rule, and the field named is
set in the configuration (for `variable`: the list is read and not empty). -/
theorem build_role_error_names_field (lib : Lib) (r : RulesBuilder) (text : Sentinel → String)
    (e : BuildError) (s : Sentinel)
    (h : Build lib r = .error (.err e)) (hw : e.wraps s = true) :
    ∃ field, e = .role s field ∧ e.message text = text s ++ ": " ++ field ∧
      ((s = .ErrNotForDefault ∧ (ruleName r).1 = "default" ∧
          ((field = "criteria_must_satisfy" ∧ (ruleCriteriaMustSatisfy r).isSet = true) ∨
           (field = "criteria_locked" ∧ (ruleCriteriaLocked r).isSet = true) ∨
           (field = "criterion" ∧ r.schemaReader.criteriaList.isSet = true))) ∨
       (s = .ErrOnlyForDefault ∧ (ruleName r).1 ≠ "default" ∧
          ((field = "variable" ∧ r.schemaReader.variablesList.isSet = true ∧
              r.schemaReader.variablesList.1 ≠ []) ∨
           (field = "is_secure" ∧ (ruleIsSecure r).isSet = true) ∨
           (field = "advanced_override" ∧ (ruleAdvancedOverride r).isSet = true) ∨
           (field = "custom_override" ∧ (ruleCustomOverride r).isSet = true)))) := by
  obtain ⟨f, rfl⟩ : ∃ f, e = .role s f := by
    cases e with
    | reader _ => simp [BuildError.wraps] at hw
    | decode _ => simp [BuildError.wraps] at hw
    | role s' f =>
      simp only [BuildError.wraps, decide_eq_true_eq] at hw
      exact ⟨f, by rw [hw]⟩
  refine ⟨f, rfl, rfl, ?_⟩
  unfold Build at h
  simp only [bind_eq_error, forbid_eq_error, unlessNotFound_eq_error, failOn_eq_error,
    unlessTfNotFound_eq_error, forbid_eq_ok, unlessNotFound_eq_ok, failOn_eq_ok,
    unlessTfNotFound_eq_ok, ruleVariables_ne_role, ruleCriteria_ne_err, ruleBehaviors_ne_err,
    Failure.err.injEq, reduceCtorEq, and_false, exists_false, false_or, or_false,
    BuildError.role.injEq, exists_const, false_and, Bool.and_eq_true, bne_iff_ne, ne_eq,
    beq_iff_eq, decide_eq_true_eq] at h
  simp only [defaultRule] at h
  simp only [Got.isSet]
  rcases h with ⟨_, vs, hv, ⟨hc, hs, hf⟩ | ⟨_, ⟨hc, hs, hf⟩ | ⟨_, _, ⟨hc, hs, hf⟩ |
    ⟨_, _, ⟨hc, hs, hf⟩ | ⟨_, _, _, ⟨hc, hs, hf⟩ | ⟨_, _, ⟨hc, hs, hf⟩ |
    ⟨_, _, _, _, _, c, hcr, ⟨hc, hs, hf⟩ | ⟨_, _, b, _, _, ⟨be, hbe, _, hrole⟩ | ⟨_, hpure⟩⟩⟩⟩⟩⟩⟩⟩⟩
  · right
    refine ⟨hs, hc.1, Or.inl ⟨hf, ?_⟩⟩
    rcases ruleVariables_ok hv with ⟨_, hnil⟩ | ⟨hnone, hlen⟩
    · rw [hnil] at hc; simp at hc
    · refine ⟨by rw [hnone]; rfl, ?_⟩
      intro hnil
      rw [hnil] at hlen
      have := hc.2
      simp only [List.length_nil] at hlen
      omega
  · left
    exact ⟨hs, hc.1, Or.inl ⟨hf, hc.2⟩⟩
  · right
    exact ⟨hs, hc.1, Or.inr (Or.inl ⟨hf, hc.2⟩)⟩
  · right
    exact ⟨hs, hc.1, Or.inr (Or.inr (Or.inl ⟨hf, hc.2⟩))⟩
  · left
    exact ⟨hs, hc.1, Or.inr (Or.inl ⟨hf, hc.2⟩)⟩
  · right
    exact ⟨hs, hc.1, Or.inr (Or.inr (Or.inr ⟨hf, hc.2⟩))⟩
  · left
    refine ⟨hs, hc.1, Or.inr (Or.inr ⟨hf, ?_⟩)⟩
    rw [← ruleCriteria_snd hcr]
    exact hc.2
  · rw [← hrole] at hbe
    exact (ruleChildren_ne_role.mp hbe).elim
  · cases hpure

/-- C1 (witness): the default rule with `criteria_locked` set is refused with `ErrNotForDefault`. -/
theorem build_default_rejects_criteria_witness :
    (∀ doc, Build plainLib lockedDefault ≠ .ok doc) ∧
    ∃ field, Build plainLib lockedDefault = .error (.err (.role .ErrNotForDefault field)) :=
  have h := build_default_rejects_criteria plainLib lockedDefault rfl (Or.inr (Or.inl rfl))
  ⟨h.1, h.2 ⟨[], rfl⟩ rfl rfl rfl rfl rfl rfl rfl rfl rfl ⟨_, rfl⟩⟩

/-- C1 (counterexample): for the default rule with `criteria_locked` set, `Build` returns the
reader's error when the variables, or `is_secure`, cannot be read, and with a criterion set
it panics when the criterion's `locked` entry is not a boolean; none of the three is an error
wrapping `ErrNotForDefault`. -/
theorem build_default_rejects_criteria_counterexample :
    (ruleName lockedDefaultBrokenVariables = ("default", none) ∧
      (ruleCriteriaLocked lockedDefaultBrokenVariables).isSet = true ∧
      Build plainLib lockedDefaultBrokenVariables = .error (.err (.reader errBroken))) ∧
    (ruleName lockedDefaultBrokenSecure = ("default", none) ∧
      (ruleCriteriaLocked lockedDefaultBrokenSecure).isSet = true ∧
      Build plainLib lockedDefaultBrokenSecure = .error (.err (.reader errBroken))) ∧
    (ruleName defaultWithBadCriterion = ("default", none) ∧
      defaultWithBadCriterion.schemaReader.criteriaList.isSet = true ∧
      Build plainLib defaultWithBadCriterion = .error (.panic .typeAssertion)) ∧
    (BuildError.reader errBroken).wraps .ErrNotForDefault = false :=
  ⟨⟨rfl, rfl, rfl⟩, ⟨rfl, rfl, rfl⟩, ⟨rfl, rfl, rfl⟩, rfl⟩

/-- C2 (as amended): for a rule not named "default" in which the variables list is read and
not empty, or is_secure, advanced_override or custom_override is set, `Build` returns no rule
document; when moreover `ruleVariables` succeeds and no getter read before custom_override
fails with an error other than not-found, the error wraps `ErrOnlyForDefault`. -/
theorem build_nondefault_rejects_root_fields (lib : Lib) (r : RulesBuilder) (n : String)
    (hname : ruleName r = (n, none)) (hn : n ≠ "default")
    (hset : (r.schemaReader.variablesList.isSet = true ∧ r.schemaReader.variablesList.1 ≠ []) ∨
      (ruleIsSecure r).isSet = true ∨ (ruleAdvancedOverride r).isSet = true ∨
      (ruleCustomOverride r).isSet = true) :
    (∀ doc, Build lib r ≠ .ok doc) ∧
    ((∃ vs, ruleVariables r = .ok vs) → (ruleCriteriaMustSatisfy r).soft = true →
      (ruleIsSecure r).soft = true → (ruleAdvancedOverride r).soft = true →
      (ruleComments r).soft = true → (ruleCriteriaLocked r).soft = true →
      ∃ field, Build lib r = .error (.err (.role .ErrOnlyForDefault field))) := by
  have hn1 : (ruleName r).1 = n := by rw [hname]
  have hn2 : (ruleName r).2 = none := by rw [hname]
  have hne : (n != defaultRule) = true := by simpa [defaultRule] using hn
  have heq : (n == defaultRule) = false := by simpa [defaultRule] using hn
  have hvars : ∀ vs, ruleVariables r = .ok vs → decide (vs.length > 0) = false →
      ¬ (r.schemaReader.variablesList.isSet = true ∧ r.schemaReader.variablesList.1 ≠ []) := by
    intro vs hv hlen ⟨hs, hnil⟩
    simp only [Got.isSet] at hs
    rcases ruleVariables_ok hv with ⟨ha, _⟩ | ⟨_, hl⟩
    · simp only [Got.absent] at ha
      split at ha
      · rename_i he; rw [he] at hs; cases hs
      · cases ha
    · simp only [gt_iff_lt, decide_eq_false_iff_not, not_lt, Nat.le_zero_eq] at hlen
      rw [hlen] at hl
      exact hnil (List.length_eq_zero.mp hl.symm)
  constructor
  · intro doc h
    obtain ⟨_, vs, c, b, hv, hc, hb, h1, _, h4, h6, _, h11, _⟩ := Build_ok_inv h
    simp only [hn1, hne, Bool.true_and] at h1 h4 h6 h11
    simp only [Got.isSet] at hset hvars
    rcases hset with hs | hs | hs | hs
    · exact hvars vs hv h1 hs
    · rw [h4] at hs; cases hs
    · rw [h6] at hs; cases hs
    · rw [h11] at hs; cases hs
  · rintro ⟨vs, hv⟩ s1 s2 s3 s4 s5
    simp only [Got.soft] at s1 s2 s3 s4 s5
    unfold Build
    simp only [hn1, hn2, hv, failOn, ok_bind, hne, heq, Bool.false_and, forbid_false,
      Bool.true_and, unlessNotFound_of_notHard s1, unlessNotFound_of_notHard s2,
      unlessNotFound_of_notHard s3, unlessNotFound_of_notHard s4, unlessNotFound_of_notHard s5]
    cases h0 : decide (vs.length > 0)
    · simp only [forbid_false, ok_bind]
      cases h1 : (ruleIsSecure r).2.isNone
      · simp only [forbid_false, ok_bind]
        cases h2 : (ruleAdvancedOverride r).2.isNone
        · simp only [forbid_false, ok_bind]
          have h3 : (ruleCustomOverride r).2.isNone = true := by
            simp only [Got.isSet] at hset hvars
            rcases hset with hs | hs | hs | hs
            · exact (hvars vs hv h0 hs).elim
            · rw [h1] at hs; cases hs
            · rw [h2] at hs; cases hs
            · exact hs
          simp only [h3, forbid_true, error_bind]
          exact ⟨_, rfl⟩
        · simp only [forbid_true, error_bind]
          exact ⟨_, rfl⟩
      · simp only [forbid_true, error_bind]
        exact ⟨_, rfl⟩
    · simp only [forbid_true, error_bind]
      exact ⟨_, rfl⟩

/-- C2 (witness): a rule named "caching" with `is_secure` set is refused with `ErrOnlyForDefault`. -/
theorem build_nondefault_rejects_root_fields_witness :
    (∀ doc, Build plainLib secureChild ≠ .ok doc) ∧
    ∃ field, Build plainLib secureChild = .error (.err (.role .ErrOnlyForDefault field)) :=
  have h := build_nondefault_rejects_root_fields plainLib secureChild "caching" rfl (by decide)
    (Or.inr (Or.inl rfl))
  ⟨h.1, h.2 ⟨[], rfl⟩ rfl rfl rfl rfl rfl⟩

/-- C2 (counterexample): a rule named "caching" whose variables list is set but empty is
built without error; with `is_secure` set, `Build` returns the reader's error when
`criteria_must_satisfy` cannot be read, and panics on a variable without a name. -/
theorem build_nondefault_rejects_root_fields_counterexample :
    (ruleName childWithNoVariables = ("caching", none) ∧
      childWithNoVariables.schemaReader.variablesList.isSet = true ∧
      Build plainLib childWithNoVariables =
        .ok (Rules.mk "" [] [] "" [] false none "caching" false "" "" "" [] "")) ∧
    (ruleName secureChildBrokenPolicy = ("caching", none) ∧
      (ruleIsSecure secureChildBrokenPolicy).isSet = true ∧
      Build plainLib secureChildBrokenPolicy = .error (.err (.reader errBroken)) ∧
      (BuildError.reader errBroken).wraps .ErrOnlyForDefault = false) ∧
    (ruleName secureChildBadVariable = ("caching", none) ∧
      (ruleIsSecure secureChildBadVariable).isSet = true ∧
      Build plainLib secureChildBadVariable = .error (.panic .typeAssertion)) :=
  ⟨⟨rfl, rfl, rfl⟩, ⟨rfl, rfl, rfl, rfl⟩, ⟨rfl, rfl, rfl⟩⟩

/-- C3 (witness): the error for `lockedDefault` reads `<ErrNotForDefault>: criteria_locked`,
and `criteria_locked` is set there. -/
theorem build_role_error_names_field_witness :
    ∃ field, BuildError.role .ErrNotForDefault "criteria_locked" = .role .ErrNotForDefault field ∧
      (BuildError.role .ErrNotForDefault "criteria_locked").message
          (fun s => if s = .ErrNotForDefault then "not for default" else "only for default")
        = "not for default" ++ ": " ++ field ∧
      ((Sentinel.ErrNotForDefault = .ErrNotForDefault ∧ (ruleName lockedDefault).1 = "default" ∧
          ((field = "criteria_must_satisfy" ∧ (ruleCriteriaMustSatisfy lockedDefault).isSet = true) ∨
           (field = "criteria_locked" ∧ (ruleCriteriaLocked lockedDefault).isSet = true) ∨
           (field = "criterion" ∧ lockedDefault.schemaReader.criteriaList.isSet = true))) ∨
       (Sentinel.ErrNotForDefault = .ErrOnlyForDefault ∧ (ruleName lockedDefault).1 ≠ "default" ∧
          ((field = "variable" ∧ lockedDefault.schemaReader.variablesList.isSet = true ∧
              lockedDefault.schemaReader.variablesList.1 ≠ []) ∨
           (field = "is_secure" ∧ (ruleIsSecure lockedDefault).isSet = true) ∨
           (field = "advanced_override" ∧ (ruleAdvancedOverride lockedDefault).isSet = true) ∨
           (field = "custom_override" ∧ (ruleCustomOverride lockedDefault).isSet = true)))) :=
  build_role_error_names_field plainLib lockedDefault
    (fun s => if s = .ErrNotForDefault then "not for default" else "only for default")
    (.role .ErrNotForDefault "criteria_locked") .ErrNotForDefault rfl rfl

/-! ## Lemmas on the loop of `remapOptionValues` -/

theorem remapLoop_nil (r : RulesBuilder) (b : String) (newRom : OptMap) :
    remapLoop r b [] newRom = .ok newRom := by
  rw [remapLoop]

theorem remapLoop_cons_error {r : RulesBuilder} {b o : String} {v : Value} {p : Panic}
    (h : pickValue r (b ++ "." ++ o) v = .error p) (rest newRom : OptMap) :
    remapLoop r b ((o, v) :: rest) newRom = .error p := by
  rw [remapLoop]
  split
  · rename_i f hf; rw [h] at hf; cases hf; rfl
  · rename_i hf; rw [h] at hf; cases hf
  · rename_i hf; rw [h] at hf; cases hf
  · rename_i hf; rw [h] at hf; cases hf

theorem remapLoop_cons_none {r : RulesBuilder} {b o : String} {v : Value}
    (h : pickValue r (b ++ "." ++ o) v = .ok none) (rest newRom : OptMap) :
    remapLoop r b ((o, v) :: rest) newRom = remapLoop r b rest newRom := by
  rw [remapLoop]
  split
  · rename_i hf; rw [h] at hf; cases hf
  · rfl
  · rename_i hf; rw [h] at hf; cases hf
  · rename_i hf; rw [h] at hf; cases hf

theorem remapLoop_cons_map {r : RulesBuilder} {b o : String} {v : Value} {m : OptMap}
    (h : pickValue r (b ++ "." ++ o) v = .ok (some (.map m))) (rest newRom : OptMap) :
    remapLoop r b ((o, v) :: rest) newRom =
      match remapLoop r (b ++ "." ++ o) m [] with
      | .error f => .error f
      | .ok m' => remapLoop r b rest (OptMap.set (OptMap.set newRom o (.map m)) o (.map m')) := by
  rw [remapLoop]
  split
  · rename_i hf; rw [h] at hf; cases hf
  · rename_i hf; rw [h] at hf; cases hf
  · rename_i hf; rw [h] at hf; cases hf; rfl
  · rename_i picked hnot hf
    rw [h] at hf; cases hf
    exact (hnot m rfl).elim

theorem remapLoop_cons_plain {r : RulesBuilder} {b o : String} {v picked : Value}
    (h : pickValue r (b ++ "." ++ o) v = .ok (some picked)) (hp : picked.isMap = false)
    (rest newRom : OptMap) :
    remapLoop r b ((o, v) :: rest) newRom = remapLoop r b rest (OptMap.set newRom o picked) := by
  rw [remapLoop]
  split
  · rename_i hf; rw [h] at hf; cases hf
  · rename_i hf; rw [h] at hf; cases hf
  · rename_i hf; rw [h] at hf; cases hf; simp [Value.isMap] at hp
  · rename_i hf; rw [h] at hf; cases hf; rfl

theorem isMap_false_of_ne {v : Value} (h : ∀ m, v = .map m → False) : v.isMap = false := by
  cases v <;> first | rfl | exact (h _ rfl).elim

/-- The loop reads `typeMappings` and `shouldFlatten` of the builder, nothing else. -/
theorem remapLoop_congr (r r' : RulesBuilder) (ht : r'.typeMappings = r.typeMappings)
    (hf : r'.shouldFlatten = r.shouldFlatten) (b : String) (options newRom : OptMap) :
    remapLoop r' b options newRom = remapLoop r b options newRom := by
  have hpick : ∀ k v, pickValue r' k v = pickValue r k v := by
    intro k v; simp only [pickValue, ht, hf]
  induction b, options, newRom using remapLoop.induct r with
  | case1 b newRom => rw [remapLoop_nil, remapLoop_nil]
  | case2 b newRom o v rest f h =>
    rw [remapLoop_cons_error h, remapLoop_cons_error ((hpick _ _).trans h)]
  | case3 b newRom o v rest h ih =>
    rw [remapLoop_cons_none h, remapLoop_cons_none ((hpick _ _).trans h), ih]
  | case4 b newRom o v rest m h f hrec ih =>
    rw [remapLoop_cons_map h, remapLoop_cons_map ((hpick _ _).trans h), ih, hrec]
  | case5 b newRom o v rest m h m' hrec ih1 ih2 =>
    rw [remapLoop_cons_map h, remapLoop_cons_map ((hpick _ _).trans h), ih1, hrec]
    exact ih2
  | case6 b newRom o v rest picked hnot h ih =>
    have hp := isMap_false_of_ne hnot
    rw [remapLoop_cons_plain h hp, remapLoop_cons_plain ((hpick _ _).trans h) hp, ih]

theorem mappedName_congr (lib : Lib) (r r' : RulesBuilder)
    (hn : r'.nameMappings = r.nameMappings) (k : String) :
    mappedName lib r' k = mappedName lib r k := by
  simp only [mappedName, hn]

/-- The key rewriting reads `nameMappings` of the builder, nothing else. -/
theorem camelLoop_congr (lib : Lib) (r r' : RulesBuilder)
    (hn : r'.nameMappings = r.nameMappings) (old newMap : OptMap) :
    camelLoop lib r' old newMap = camelLoop lib r old newMap := by
  apply camelLoop.induct lib r
    (fun v => camelValue lib r' v = camelValue lib r v)
    (fun l => camelSlice lib r' l = camelSlice lib r l)
    (fun old newMap => camelLoop lib r' old newMap = camelLoop lib r old newMap)
  · intro mapValue ih
    simp only [camelValue, ih]
  · intro sliceValue ih
    simp only [camelValue, ih]
  · intro v h1 h2
    cases v with
    | map m => exact (h1 m rfl).elim
    | list l => exact (h2 l rfl).elim
    | _ => simp only [camelValue]
  · simp only [camelSlice]
  · intro mapValue rest ih1 ih2
    simp only [camelSlice, ih1, ih2]
  · intro value rest h ih
    cases value with
    | map m => exact (h m rfl).elim
    | _ => simp only [camelSlice, ih]
  · intro newMap
    simp only [camelLoop]
  · intro k rest newMap ih
    simp only [camelLoop, ih]
  · intro k v rest newMap h ih1 ih2
    cases v with
    | null => exact (h rfl).elim
    | _ => simp only [camelLoop, ih1, mappedName_congr lib r r' hn, ih2]

theorem buildRuleBehaviors_withReader (lib : Lib) (r : RulesBuilder) (s : RulesSchemaReader)
    (items : List RuleItem) :
    buildRuleBehaviors lib (r.withReader s) items = buildRuleBehaviors lib r items := by
  have hstep : ∀ item, buildRuleBehavior lib (r.withReader s) item = buildRuleBehavior lib r item := by
    intro item
    have h1 : ∀ k, mappedName lib (r.withReader s) k = mappedName lib r k :=
      fun k => mappedName_congr lib r (r.withReader s) rfl k
    have h2 : ∀ m, mapKeysToCamelCase lib (r.withReader s) m = mapKeysToCamelCase lib r m :=
      fun m => camelLoop_congr lib r (r.withReader s) rfl m []
    have h3 : ∀ b m, remapOptionValues (r.withReader s) b m = remapOptionValues r b m :=
      fun b m => remapLoop_congr r (r.withReader s) rfl rfl b m []
    simp only [buildRuleBehavior, h1, h2, h3]
  have hstate : buildRuleBehaviorsState lib (r.withReader s) items
      = buildRuleBehaviorsState lib r items := by
    induction items with
    | nil => rfl
    | cons item rest ih => simp only [buildRuleBehaviorsState, hstep, ih]
  simp only [buildRuleBehaviors, hstate]

theorem forbid_of_false {c : Bool} (h : c = false) (s : Sentinel) (f : String) :
    forbid c s f = .ok () := by
  rw [h]; rfl

theorem isNone_false_of_absent {g : Got α} (h : g.absent = true) : g.2.isNone = false := by
  unfold Got.absent at h
  split at h
  · rename_i e he; rw [he]; rfl
  · cases h

theorem notHard_of_absent {g : Got α} (h : g.absent = true) : notHard g.2 = true := by
  unfold Got.absent at h
  unfold notHard
  split at h
  · exact h
  · cases h

/-- C4: when the name getter returns `n` and every other getter reports not-found, `Build`
succeeds, and the document has the name `n`, no variables and no children. -/
theorem build_absent_optionals (lib : Lib) (r : RulesBuilder) (n : String)
    (hname : ruleName r = (n, none))
    (h1 : r.schemaReader.variablesList.absent = true)
    (h2 : (ruleCriteriaMustSatisfy r).absent = true)
    (h3 : (ruleIsSecure r).absent = true)
    (h4 : (ruleAdvancedOverride r).absent = true)
    (h5 : (ruleComments r).absent = true)
    (h6 : (ruleCriteriaLocked r).absent = true)
    (h7 : (ruleCustomOverride r).absent = true)
    (h8 : (ruleUUID r).absent = true)
    (h9 : (ruleTemplateUUID r).absent = true)
    (h10 : (ruleTemplateLink r).absent = true)
    (h11 : r.schemaReader.criteriaList.absent = true)
    (h12 : r.schemaReader.behaviorsList.absent = true)
    (h13 : r.schemaReader.childrenList.absent = true) :
    ∃ doc, Build lib r = .ok doc ∧ doc.Name = n ∧ doc.Variables = [] ∧ doc.Children = [] := by
  have hn1 : (ruleName r).1 = n := by rw [hname]
  have hn2 : (ruleName r).2 = none := by rw [hname]
  have hv : ruleVariables r = .ok [] := by
    unfold ruleVariables
    unfold Got.absent at h1
    split
    · rename_i e he; rw [he] at h1; simp only at h1; simp [h1]
    · rename_i he; rw [he] at h1; cases h1
  have hc : ruleCriteria lib r = .ok ([], r.schemaReader.criteriaList.2) := by
    unfold ruleCriteria
    unfold Got.absent at h11
    split
    · rename_i e he; rw [he]
    · rename_i he; rw [he] at h11; cases h11
  have hb : ruleBehaviors lib r = .ok ([], r.schemaReader.behaviorsList.2) := by
    unfold ruleBehaviors
    unfold Got.absent at h12
    split
    · rename_i e he; rw [he]
    · rename_i he; rw [he] at h12; cases h12
  have hch : ruleChildren lib r = ([], none) := by
    unfold ruleChildren
    unfold Got.absent at h13
    split
    · rename_i e he; rw [he] at h13; simp only at h13; simp [h13]
    · rename_i he; rw [he] at h13; cases h13
  refine ⟨Rules.mk (ruleAdvancedOverride r).1 [] [] (ruleComments r).1 []
    (ruleCriteriaLocked r).1 (ruleCustomOverride r).1 n (ruleIsSecure r).1 (ruleUUID r).1
    (ruleTemplateUUID r).1 (ruleTemplateLink r).1 [] (ruleCriteriaMustSatisfy r).1, ?_, rfl, rfl, rfl⟩
  unfold Build
  simp only [hn1, hn2, hv, hc, hb, hch, failOn, ok_bind, List.length_nil, gt_iff_lt,
    Nat.lt_irrefl, decide_False, Bool.and_false, forbid_false,
    isNone_false_of_absent h2, isNone_false_of_absent h3, isNone_false_of_absent h4,
    isNone_false_of_absent h6, isNone_false_of_absent h7, isNone_false_of_absent h11,
    unlessNotFound_of_notHard (notHard_of_absent h2),
    unlessNotFound_of_notHard (notHard_of_absent h3),
    unlessNotFound_of_notHard (notHard_of_absent h4),
    unlessNotFound_of_notHard (notHard_of_absent h5),
    unlessNotFound_of_notHard (notHard_of_absent h6),
    unlessNotFound_of_notHard (notHard_of_absent h7),
    unlessNotFound_of_notHard (notHard_of_absent h8),
    unlessNotFound_of_notHard (notHard_of_absent h9),
    unlessNotFound_of_notHard (notHard_of_absent h10),
    unlessNotFound_of_notHard (notHard_of_absent h11),
    unlessNotFound_of_notHard (notHard_of_absent h12), unlessTfNotFound]
  rfl

/-- C4 (witness): the bare rule "caching" builds to a document named "caching" without
variables and children; so does the bare default rule. -/
theorem build_absent_optionals_witness :
    (∃ doc, Build plainLib (plainBuilder (bareReader "caching")) = .ok doc ∧
      doc.Name = "caching" ∧ doc.Variables = [] ∧ doc.Children = []) ∧
    (∃ doc, Build plainLib (plainBuilder (bareReader "default")) = .ok doc ∧
      doc.Name = "default" ∧ doc.Variables = [] ∧ doc.Children = []) :=
  ⟨build_absent_optionals plainLib (plainBuilder (bareReader "caching")) "caching"
      rfl rfl rfl rfl rfl rfl rfl rfl rfl rfl rfl rfl rfl rfl,
   build_absent_optionals plainLib (plainBuilder (bareReader "default")) "default"
      rfl rfl rfl rfl rfl rfl rfl rfl rfl rfl rfl rfl rfl rfl⟩

theorem decodeChildren_first_failure {lib : Lib} {l : List String}
    (h : ∃ s ∈ l, ∃ t, lib.unmarshal s = .error t) :
    ∃ pre s post t, l = pre ++ s :: post ∧ (∀ x ∈ pre, ∃ c, lib.unmarshal x = .ok c) ∧
      lib.unmarshal s = .error t ∧ decodeChildren lib l = .error (.decode t) := by
  induction l with
  | nil => obtain ⟨s, hs, _⟩ := h; cases hs
  | cons x rest ih =>
    cases hx : lib.unmarshal x with
    | error t =>
      refine ⟨[], x, rest, t, rfl, ?_, hx, ?_⟩
      · intro y hy; cases hy
      · simp only [decodeChildren, hx]
    | ok c =>
      have hrest : ∃ s ∈ rest, ∃ t, lib.unmarshal s = .error t := by
        obtain ⟨s, hs, t, ht⟩ := h
        rcases List.mem_cons.mp hs with rfl | hs'
        · rw [hx] at ht; cases ht
        · exact ⟨s, hs', t, ht⟩
      obtain ⟨pre, s, post, t, hl, hpre, hs, hd⟩ := ih hrest
      refine ⟨x :: pre, s, post, t, by rw [hl]; rfl, ?_, hs, ?_⟩
      · intro y hy
        rcases List.mem_cons.mp hy with rfl | hy'
        · exact ⟨c, hx⟩
        · exact hpre y hy'
      · simp only [decodeChildren, hx, hd]

/-- C10: when some entry of the children list does not decode, `ruleChildren` returns the
decoder's error for the first such entry and no children, also when the entries before it
decoded; `Build` then returns no rule document, and it returns that error whenever the same
configuration with the children list emptied builds. -/
theorem children_decode_failure (lib : Lib) (r : RulesBuilder)
    (hread : r.schemaReader.childrenList.2 = none)
    (hbad : ∃ s ∈ r.schemaReader.childrenList.1, ∃ t, lib.unmarshal s = .error t) :
    ∃ pre s post t, r.schemaReader.childrenList.1 = pre ++ s :: post ∧
      (∀ x ∈ pre, ∃ c, lib.unmarshal x = .ok c) ∧ lib.unmarshal s = .error t ∧
      ruleChildren lib r = ([], some (.decode t)) ∧
      (∀ doc, Build lib r ≠ .ok doc) ∧
      ((∃ doc, Build lib (r.withReader { r.schemaReader with childrenList := ([], none) })
          = .ok doc) →
        Build lib r = .error (.err (.decode t))) := by
  obtain ⟨pre, s, post, t, hl, hpre, hs, hd⟩ := decodeChildren_first_failure hbad
  have hch : ruleChildren lib r = ([], some (.decode t)) := by
    have hpair : r.schemaReader.childrenList = (r.schemaReader.childrenList.1, none) := by
      rw [← hread]
    unfold ruleChildren
    rw [hpair]
    simp only [hd]
  refine ⟨pre, s, post, t, hl, hpre, hs, hch, ?_, ?_⟩
  · intro doc h
    obtain ⟨_, _, _, _, _, _, _, _, _, _, _, _, _, _, _, _, _, _, _, _, _, _, _, _, _, hc, _⟩ :=
      Build_ok_inv h
    have := hc (.decode t) (by rw [hch])
    cases this
  · rintro ⟨doc, h⟩
    obtain ⟨h0, vs, c, b, hv, hc, hb, c1, c2, c3, c4, c5, c6, c7, s1, s2, s3, s4, s5, s6, s7,
      s8, s9, s10, s11, _, _⟩ := Build_ok_inv h
    have hc' : ruleCriteria lib r = .ok c := by
      have e : ruleCriteria lib (r.withReader { r.schemaReader with childrenList := ([], none) })
          = ruleCriteria lib r := by
        simp only [ruleCriteria, buildRuleBehaviors_withReader]
        rfl
      rw [← e]; exact hc
    have hb' : ruleBehaviors lib r = .ok b := by
      have e : ruleBehaviors lib (r.withReader { r.schemaReader with childrenList := ([], none) })
          = ruleBehaviors lib r := by
        simp only [ruleBehaviors, buildRuleBehaviors_withReader]
        rfl
      rw [← e]; exact hb
    have hv' : ruleVariables r = .ok vs := hv
    have h0' : (ruleName r).2 = none := h0
    have c1' : ((ruleName r).1 != defaultRule && decide (vs.length > 0)) = false := c1
    have c2' : ((ruleName r).1 == defaultRule && (ruleCriteriaMustSatisfy r).2.isNone) = false := c2
    have c3' : ((ruleName r).1 != defaultRule && (ruleIsSecure r).2.isNone) = false := c3
    have c4' : ((ruleName r).1 != defaultRule && (ruleAdvancedOverride r).2.isNone) = false := c4
    have c5' : ((ruleName r).1 == defaultRule && (ruleCriteriaLocked r).2.isNone) = false := c5
    have c6' : ((ruleName r).1 != defaultRule && (ruleCustomOverride r).2.isNone) = false := c6
    have c7' : ((ruleName r).1 == defaultRule && c.2.isNone) = false := c7
    have s1' : notHard (ruleCriteriaMustSatisfy r).2 = true := s1
    have s2' : notHard (ruleIsSecure r).2 = true := s2
    have s3' : notHard (ruleAdvancedOverride r).2 = true := s3
    have s4' : notHard (ruleComments r).2 = true := s4
    have s5' : notHard (ruleCriteriaLocked r).2 = true := s5
    have s6' : notHard (ruleCustomOverride r).2 = true := s6
    have s7' : notHard (ruleUUID r).2 = true := s7
    have s8' : notHard (ruleTemplateUUID r).2 = true := s8
    have s9' : notHard (ruleTemplateLink r).2 = true := s9
    unfold Build
    simp only [h0', hv', hc', hb', failOn, ok_bind, forbid_of_false c1', forbid_of_false c2',
      forbid_of_false c3', forbid_of_false c4', forbid_of_false c5', forbid_of_false c6',
      forbid_of_false c7', unlessNotFound_of_notHard s1', unlessNotFound_of_notHard s2',
      unlessNotFound_of_notHard s3', unlessNotFound_of_notHard s4',
      unlessNotFound_of_notHard s5', unlessNotFound_of_notHard s6',
      unlessNotFound_of_notHard s7', unlessNotFound_of_notHard s8',
      unlessNotFound_of_notHard s9', unlessNotFound_of_notHard s10,
      unlessNotFound_of_notHard s11, hch, unlessTfNotFound, BuildError.isTfNotFound]
    rfl

/-- C10 (witness): of two children the first decodes and the second does not; `ruleChildren`
returns the decoder's error and no children, and `Build` returns that error. -/
theorem children_decode_failure_witness :
    (∃ doc, Build strictLib (childWithBrokenChild.withReader
        { childWithBrokenChild.schemaReader with childrenList := ([], none) }) = .ok doc) ∧
    ∃ pre s post t, childWithBrokenChild.schemaReader.childrenList.1 = pre ++ s :: post ∧
      (∀ x ∈ pre, ∃ c, strictLib.unmarshal x = .ok c) ∧ strictLib.unmarshal s = .error t ∧
      ruleChildren strictLib childWithBrokenChild = ([], some (.decode t)) ∧
      (∀ doc, Build strictLib childWithBrokenChild ≠ .ok doc) ∧
      ((∃ doc, Build strictLib (childWithBrokenChild.withReader
          { childWithBrokenChild.schemaReader with childrenList := ([], none) }) = .ok doc) →
        Build strictLib childWithBrokenChild = .error (.err (.decode t))) :=
  ⟨⟨_, rfl⟩, children_decode_failure strictLib childWithBrokenChild rfl
    ⟨"\x7b", by decide, "invalid character", rfl⟩⟩

/-! ## Lemmas on Go maps -/

theorem get_set_self (m : List (String × α)) (k : String) (v : α) :
    OptMap.get (OptMap.set m k v) k = some v := by
  induction m with
  | nil => simp [OptMap.set, OptMap.get]
  | cons e rest ih =>
    obtain ⟨k', v'⟩ := e
    by_cases h : k' = k
    · simp [OptMap.set, OptMap.get, h]
    · simp [OptMap.set, OptMap.get, h, ih]

theorem get_set_ne (m : List (String × α)) {k k' : String} (v : α) (h : k' ≠ k) :
    OptMap.get (OptMap.set m k v) k' = OptMap.get m k' := by
  induction m with
  | nil => simp [OptMap.set, OptMap.get, Ne.symm h]
  | cons e rest ih =>
    obtain ⟨k₀, v₀⟩ := e
    by_cases h0 : k₀ = k
    · subst h0
      simp [OptMap.set, OptMap.get, Ne.symm h]
    · by_cases h1 : k₀ = k'
      · subst h1
        simp [OptMap.set, OptMap.get, h0]
      · simp [OptMap.set, OptMap.get, h0, h1, ih]

theorem set_set (m : List (String × α)) (k : String) (v w : α) :
    OptMap.set (OptMap.set m k v) k w = OptMap.set m k w := by
  induction m with
  | nil => simp [OptMap.set]
  | cons e rest ih =>
    obtain ⟨k', v'⟩ := e
    by_cases h : k' = k
    · simp [OptMap.set, h]
    · simp [OptMap.set, h, ih]

theorem set_of_not_mem (m : List (String × α)) {k : String} (v : α)
    (h : k ∉ OptMap.keys m) : OptMap.set m k v = m ++ [(k, v)] := by
  induction m with
  | nil => rfl
  | cons e rest ih =>
    obtain ⟨k', v'⟩ := e
    simp only [OptMap.keys, List.map_cons, List.mem_cons, not_or] at h
    have h1 : ¬ k' = k := fun hk => h.1 hk.symm
    simp only [OptMap.set, h1, if_false, List.cons_append, List.cons.injEq, true_and]
    exact ih h.2

theorem keys_set (m : List (String × α)) (k : String) (v : α) :
    ∀ k', k' ∈ OptMap.keys (OptMap.set m k v) ↔ k' = k ∨ k' ∈ OptMap.keys m := by
  intro k'
  induction m with
  | nil => simp [OptMap.set, OptMap.keys]
  | cons e rest ih =>
    obtain ⟨k₀, v₀⟩ := e
    by_cases h : k₀ = k
    · subst h
      simp [OptMap.set, OptMap.keys]
    · simp only [OptMap.set, h, if_false, OptMap.keys, List.map_cons, List.mem_cons]
      simp only [OptMap.keys] at ih
      rw [ih]
      tauto

/-! ## The value stored for one option -/

theorem pickValue_flat_one {r : RulesBuilder} {k : String} (h : r.shouldFlatten k = true)
    (x : Value) : pickValue r k (.list [x]) = .ok (some x) := by
  simp [pickValue, h]

theorem pickValue_flat_none {r : RulesBuilder} {k : String} (h : r.shouldFlatten k = true) :
    pickValue r k (.list []) = .ok none := by
  simp [pickValue, h]

theorem pickValue_flat_many {r : RulesBuilder} {k : String} (h : r.shouldFlatten k = true)
    {xs : List Value} (hlen : 2 ≤ xs.length) :
    pickValue r k (.list xs) = .error (.explicit ("expected object type has len()>1: " ++ k)) := by
  have h1 : xs.length > 1 := hlen
  simp [pickValue, h, h1]

theorem pickValue_plain {r : RulesBuilder} {k : String} {v : Value}
    (h : r.shouldFlatten k = false)
    (ht : OptMap.get r.typeMappings (k ++ "." ++ v.fmtV) = none) :
    pickValue r k v = .ok (some v) := by
  simp [pickValue, h, ht]

theorem pickValue_mapped {r : RulesBuilder} {k : String} {v t : Value}
    (h : r.shouldFlatten k = false)
    (ht : OptMap.get r.typeMappings (k ++ "." ++ v.fmtV) = some t) :
    pickValue r k v = .ok (some t) := by
  simp [pickValue, h, ht]

/-- The flattening branch does not read `typeMappings`. -/
theorem pickValue_flat_congr {r r' : RulesBuilder} {k : String}
    (hf : r'.shouldFlatten = r.shouldFlatten) (h : r.shouldFlatten k = true) (v : Value) :
    pickValue r' k v = pickValue r k v := by
  simp [pickValue, hf, h]

/-! ## The loop of `remapOptionValues`, entry by entry -/

theorem remapLoop_append (r : RulesBuilder) (b : String) (l1 l2 newRom : OptMap) :
    remapLoop r b (l1 ++ l2) newRom = (remapLoop r b l1 newRom >>= remapLoop r b l2) := by
  induction l1 generalizing newRom with
  | nil => rw [remapLoop_nil]; rfl
  | cons e rest ih =>
    obtain ⟨o, v⟩ := e
    rw [List.cons_append]
    cases hp : pickValue r (b ++ "." ++ o) v with
    | error p => rw [remapLoop_cons_error hp, remapLoop_cons_error hp]; rfl
    | ok picked =>
      cases picked with
      | none => rw [remapLoop_cons_none hp, remapLoop_cons_none hp, ih]
      | some x =>
        cases hx : x.isMap with
        | false => rw [remapLoop_cons_plain hp hx, remapLoop_cons_plain hp hx, ih]
        | true =>
          cases x with
          | map m =>
            rw [remapLoop_cons_map hp, remapLoop_cons_map hp]
            cases remapLoop r (b ++ "." ++ o) m [] with
            | error f => rfl
            | ok m' => exact ih _
          | _ => simp [Value.isMap] at hx

/-- An option that is not visited keeps what `newRom` holds for it. -/
theorem remapLoop_frame (r : RulesBuilder) {b : String} {options newRom out : OptMap}
    (h : remapLoop r b options newRom = .ok out) {k : String} (hk : k ∉ OptMap.keys options) :
    OptMap.get out k = OptMap.get newRom k := by
  induction options generalizing newRom with
  | nil => rw [remapLoop_nil] at h; cases h; rfl
  | cons e rest ih =>
    obtain ⟨o, v⟩ := e
    simp only [OptMap.keys, List.map_cons, List.mem_cons, not_or] at hk
    have hrest : k ∉ OptMap.keys rest := hk.2
    cases hp : pickValue r (b ++ "." ++ o) v with
    | error p => rw [remapLoop_cons_error hp] at h; cases h
    | ok picked =>
      cases picked with
      | none => rw [remapLoop_cons_none hp] at h; exact ih h hrest
      | some x =>
        cases hx : x.isMap with
        | false =>
          rw [remapLoop_cons_plain hp hx] at h
          rw [ih h hrest, get_set_ne _ _ hk.1]
        | true =>
          cases x with
          | map m =>
            rw [remapLoop_cons_map hp] at h
            cases hm : remapLoop r (b ++ "." ++ o) m [] with
            | error f => rw [hm] at h; cases h
            | ok m' =>
              rw [hm] at h
              rw [ih h hrest, get_set_ne _ _ hk.1, get_set_ne _ _ hk.1]
          | _ => simp [Value.isMap] at hx

theorem remapOptionValues_single_plain {r : RulesBuilder} {b o : String} {v picked : Value}
    (h : pickValue r (b ++ "." ++ o) v = .ok (some picked)) (hp : picked.isMap = false) :
    remapOptionValues r b [(o, v)] = .ok [(o, picked)] := by
  unfold remapOptionValues
  rw [remapLoop_cons_plain h hp, remapLoop_nil]
  rfl

theorem remapOptionValues_single_map {r : RulesBuilder} {b o : String} {v : Value} {m : OptMap}
    (h : pickValue r (b ++ "." ++ o) v = .ok (some (.map m))) :
    remapOptionValues r b [(o, v)] =
      (remapOptionValues r (b ++ "." ++ o) m).map (fun m' => [(o, .map m')]) := by
  unfold remapOptionValues
  rw [remapLoop_cons_map h]
  cases remapLoop r (b ++ "." ++ o) m [] with
  | error f => rfl
  | ok m' =>
    simp only [remapLoop_nil, Except.map]
    simp [OptMap.set]

theorem remapOptionValues_single_none {r : RulesBuilder} {b o : String} {v : Value}
    (h : pickValue r (b ++ "." ++ o) v = .ok none) :
    remapOptionValues r b [(o, v)] = .ok [] := by
  unfold remapOptionValues
  rw [remapLoop_cons_none h, remapLoop_nil]

theorem not_mem_keys_post {options pre post : OptMap} {o : String} {v : Value}
    (hnd : (OptMap.keys options).Nodup) (h : options = pre ++ (o, v) :: post) :
    o ∉ OptMap.keys post := by
  subst h
  simp only [OptMap.keys, List.map_append, List.map_cons] at hnd
  have h2 := (List.nodup_append.mp hnd).2.1
  exact (List.nodup_cons.mp h2).1

/-- What the output holds for an option whose stored value is not a map. -/
theorem remap_get_plain {r : RulesBuilder} {b o : String} {v picked : Value}
    {options out : OptMap} (hnd : (OptMap.keys options).Nodup) (hmem : (o, v) ∈ options)
    (h : remapOptionValues r b options = .ok out)
    (hp : pickValue r (b ++ "." ++ o) v = .ok (some picked)) (hplain : picked.isMap = false) :
    OptMap.get out o = some picked := by
  obtain ⟨pre, post, hsplit⟩ := List.append_of_mem hmem
  have hk := not_mem_keys_post hnd hsplit
  unfold remapOptionValues at h
  rw [hsplit, remapLoop_append, bind_eq_ok] at h
  obtain ⟨acc, _, h2⟩ := h
  rw [remapLoop_cons_plain hp hplain] at h2
  rw [remapLoop_frame r h2 hk, get_set_self]

/-- What the output holds for an option whose stored value is a map. -/
theorem remap_get_map {r : RulesBuilder} {b o : String} {v : Value} {m : OptMap}
    {options out : OptMap} (hnd : (OptMap.keys options).Nodup) (hmem : (o, v) ∈ options)
    (h : remapOptionValues r b options = .ok out)
    (hp : pickValue r (b ++ "." ++ o) v = .ok (some (.map m))) :
    ∃ m', remapOptionValues r (b ++ "." ++ o) m = .ok m' ∧ OptMap.get out o = some (.map m') := by
  obtain ⟨pre, post, hsplit⟩ := List.append_of_mem hmem
  have hk := not_mem_keys_post hnd hsplit
  unfold remapOptionValues at h
  rw [hsplit, remapLoop_append, bind_eq_ok] at h
  obtain ⟨acc, _, h2⟩ := h
  rw [remapLoop_cons_map hp] at h2
  cases hm : remapLoop r (b ++ "." ++ o) m [] with
  | error f => rw [hm] at h2; cases h2
  | ok m' =>
    rw [hm] at h2
    refine ⟨m', hm, ?_⟩
    rw [remapLoop_frame r h2 hk, get_set_self]

/-- C5: an option flagged for flattening that holds the one-element list `[x]` is stored as
`x`; when `x` is a map, as that map remapped under the key of the option. -/
theorem remap_flattens_single (r : RulesBuilder) (b o : String) (x : Value)
    (hf : r.shouldFlatten (b ++ "." ++ o) = true) :
    (x.isMap = false → remapOptionValues r b [(o, .list [x])] = .ok [(o, x)]) ∧
    (∀ m, x = .map m →
      remapOptionValues r b [(o, .list [x])] =
        (remapOptionValues r (b ++ "." ++ o) m).map (fun m' => [(o, .map m')])) := by
  constructor
  · intro hx
    exact remapOptionValues_single_plain (pickValue_flat_one hf x) hx
  · intro m hm
    subst hm
    exact remapOptionValues_single_map (pickValue_flat_one hf _)

/-- C5 (witness): the option bag with `someOption` holding `["X"]`, flagged for flattening,
becomes the bag with `someOption` holding `"X"`. -/
theorem remap_flattens_single_witness :
    flattenSomeOption.shouldFlatten ("someBehavior" ++ "." ++ "someOption") = true ∧
    remapOptionValues flattenSomeOption "someBehavior" [("someOption", .list [.str "X"])]
      = .ok [("someOption", .str "X")] :=
  ⟨by decide,
   (remap_flattens_single flattenSomeOption "someBehavior" "someOption" (.str "X")
      (by decide)).1 rfl⟩

/-- C6: an option flagged for flattening that holds a list of two or more elements makes
`remapOptionValues` panic: no option bag holding it yields a result, and the panic is
"expected object type has len()>1: b.o" as soon as the options visited before it did not
panic. -/
theorem remap_flatten_many_panics (r : RulesBuilder) (b o : String) (xs : List Value)
    (hf : r.shouldFlatten (b ++ "." ++ o) = true) (hlen : 2 ≤ xs.length) :
    remapOptionValues r b [(o, .list xs)]
      = .error (.explicit ("expected object type has len()>1: " ++ (b ++ "." ++ o))) ∧
    (∀ options, (o, .list xs) ∈ options → ∀ out, remapOptionValues r b options ≠ .ok out) ∧
    (∀ pre post acc, remapOptionValues r b pre = .ok acc →
      remapOptionValues r b (pre ++ (o, .list xs) :: post)
        = .error (.explicit ("expected object type has len()>1: " ++ (b ++ "." ++ o)))) := by
  have hp := pickValue_flat_many hf hlen
  refine ⟨?_, ?_, ?_⟩
  · unfold remapOptionValues
    rw [remapLoop_cons_error hp]
  · intro options hmem out h
    obtain ⟨pre, post, hsplit⟩ := List.append_of_mem hmem
    unfold remapOptionValues at h
    rw [hsplit, remapLoop_append, bind_eq_ok] at h
    obtain ⟨acc, _, h2⟩ := h
    rw [remapLoop_cons_error hp] at h2
    cases h2
  · intro pre post acc hpre
    unfold remapOptionValues at hpre ⊢
    rw [remapLoop_append, hpre, ok_bind, remapLoop_cons_error hp]

/-- C6 (witness): `someOption` holding `["X", "Y"]`, flagged for flattening, panics. -/
theorem remap_flatten_many_panics_witness :
    remapOptionValues flattenSomeOption "someBehavior"
        [("someOption", .list [.str "X", .str "Y"])]
      = .error (.explicit "expected object type has len()>1: someBehavior.someOption") ∧
    (∀ out, remapOptionValues flattenSomeOption "someBehavior"
        [("other", .int 1), ("someOption", .list [.str "X", .str "Y"])] ≠ .ok out) :=
  have h := remap_flatten_many_panics flattenSomeOption "someBehavior" "someOption"
    [.str "X", .str "Y"] (by decide) (by decide)
  ⟨h.1, h.2.1 _ (by simp)⟩

/-- C7: an option that is not flagged for flattening, has no entry in `typeMappings` and
does not hold a map is kept as it is. -/
theorem remap_keeps_plain_option (r : RulesBuilder) (b o : String) (v : Value)
    (hf : r.shouldFlatten (b ++ "." ++ o) = false)
    (ht : OptMap.get r.typeMappings (b ++ "." ++ o ++ "." ++ v.fmtV) = none)
    (hv : v.isMap = false) :
    remapOptionValues r b [(o, v)] = .ok [(o, v)] ∧
    (∀ options out, (OptMap.keys options).Nodup → (o, v) ∈ options →
      remapOptionValues r b options = .ok out → OptMap.get out o = some v) := by
  have hp := pickValue_plain hf ht
  exact ⟨remapOptionValues_single_plain hp hv,
    fun options out hnd hmem h => remap_get_plain hnd hmem h hp hv⟩

/-- C7 (witness): an option `ttl` holding `"1d"`, not flagged and not in the table, is kept. -/
theorem remap_keeps_plain_option_witness :
    remapOptionValues flattenSomeOption "someBehavior" [("ttl", .str "1d")]
      = .ok [("ttl", .str "1d")] ∧
    (∀ options out, (OptMap.keys options).Nodup → ("ttl", Value.str "1d") ∈ options →
      remapOptionValues flattenSomeOption "someBehavior" options = .ok out →
      OptMap.get out "ttl" = some (.str "1d")) :=
  remap_keeps_plain_option flattenSomeOption "someBehavior" "ttl" (.str "1d")
    (by decide) rfl rfl

/-- C8 (as amended): for an option that is not flagged for flattening and whose key
"b.o.v" is in `typeMappings`, the output holds the mapped table value when that value is not
a map, and the mapped map remapped under "b.o" when it is one; for an option that is flagged
for flattening the stored value does not depend on `typeMappings`. -/
theorem remap_uses_type_mapping (r : RulesBuilder) (b o : String) (v t : Value)
    (hf : r.shouldFlatten (b ++ "." ++ o) = false)
    (ht : OptMap.get r.typeMappings (b ++ "." ++ o ++ "." ++ v.fmtV) = some t) :
    (t.isMap = false →
      remapOptionValues r b [(o, v)] = .ok [(o, t)] ∧
      ∀ options out, (OptMap.keys options).Nodup → (o, v) ∈ options →
        remapOptionValues r b options = .ok out → OptMap.get out o = some t) ∧
    (∀ m, t = .map m →
      remapOptionValues r b [(o, v)] =
        (remapOptionValues r (b ++ "." ++ o) m).map (fun m' => [(o, .map m')]) ∧
      ∀ options out, (OptMap.keys options).Nodup → (o, v) ∈ options →
        remapOptionValues r b options = .ok out →
        ∃ m', remapOptionValues r (b ++ "." ++ o) m = .ok m' ∧
          OptMap.get out o = some (.map m')) ∧
    (∀ (r' : RulesBuilder) (k : String) (w : Value), r'.shouldFlatten = r.shouldFlatten →
      r.shouldFlatten k = true → pickValue r' k w = pickValue r k w) := by
  have hp := pickValue_mapped hf ht
  refine ⟨?_, ?_, ?_⟩
  · intro hplain
    exact ⟨remapOptionValues_single_plain hp hplain,
      fun options out hnd hmem h => remap_get_plain hnd hmem h hp hplain⟩
  · intro m hm
    subst hm
    exact ⟨remapOptionValues_single_map hp,
      fun options out hnd hmem h => remap_get_map hnd hmem h hp⟩
  · intro r' k w hsame hflag
    exact pickValue_flat_congr hsame hflag w

/-- C8 (witness): the option `code` holding "408" is stored as the number 408. -/
theorem remap_uses_type_mapping_witness :
    remapOptionValues mapSomeCode "someBehavior" [("code", .str "408")]
      = .ok [("code", .int 408)] :=
  ((remap_uses_type_mapping mapSomeCode "someBehavior" "code" (.str "408") (.int 408)
      (by decide) rfl).1 rfl).1

/-- C8 (counterexample): `b.o` is not flagged for flattening and "b.o.x" is in the table,
yet the output value of `o` is not the mapped table value: the mapped map is remapped, and
its flagged entry `p` is flattened. -/
theorem remap_uses_type_mapping_counterexample :
    mapToFlattenedMap.shouldFlatten ("b" ++ "." ++ "o") = false ∧
    OptMap.get mapToFlattenedMap.typeMappings ("b" ++ "." ++ "o" ++ "." ++ (Value.str "x").fmtV)
      = some (.map [("p", .list [.str "q"])]) ∧
    remapOptionValues mapToFlattenedMap "b" [("o", .str "x")]
      = .ok [("o", .map [("p", .str "q")])] ∧
    Value.map [("p", .str "q")] ≠ Value.map [("p", .list [.str "q"])] := by
  refine ⟨by decide, rfl, ?_, by simp⟩
  have h1 : pickValue mapToFlattenedMap ("b" ++ "." ++ "o") (.str "x")
      = .ok (some (.map [("p", .list [.str "q"])])) := rfl
  have h2 : pickValue mapToFlattenedMap ("b" ++ "." ++ "o" ++ "." ++ "p") (.list [.str "q"])
      = .ok (some (.str "q")) := rfl
  rw [remapOptionValues_single_map h1, remapOptionValues_single_plain h2 rfl]
  rfl

/-! ## Option maps with unique keys are copied -/

theorem wellKeyed_set {acc : OptMap} {k : String} {v : Value}
    (ha : wellKeyed acc) (hv : wellKeyedValue v) : wellKeyed (OptMap.set acc k v) := by
  induction acc with
  | nil => simp [OptMap.set, wellKeyed, hv, OptMap.keys]
  | cons e rest ih =>
    obtain ⟨k', v'⟩ := e
    simp only [wellKeyed] at ha
    by_cases h : k' = k
    · subst h
      simp only [OptMap.set, if_true, wellKeyed]
      exact ⟨ha.1, hv, ha.2.2⟩
    · simp only [OptMap.set, h, if_false, wellKeyed]
      refine ⟨?_, ha.2.1, ih ha.2.2⟩
      intro hmem
      rcases (keys_set rest k v k').mp hmem with h1 | h1
      · exact h h1
      · exact ha.1 h1

theorem wellKeyed_camelLoop (lib : Lib) (r : RulesBuilder) (old newMap : OptMap) :
    wellKeyed newMap → wellKeyed (camelLoop lib r old newMap) := by
  apply camelLoop.induct lib r
    (fun v => wellKeyedValue (camelValue lib r v))
    (fun _ => True)
    (fun old newMap => wellKeyed newMap → wellKeyed (camelLoop lib r old newMap))
  · intro mapValue ih
    simp only [camelValue, wellKeyedValue]
    exact ih (by simp [wellKeyed])
  · intro sliceValue _
    simp only [camelValue, wellKeyedValue]
  · intro v h1 h2
    cases v with
    | map m => exact (h1 m rfl).elim
    | list l => exact (h2 l rfl).elim
    | _ => simp only [camelValue, wellKeyedValue]
  · trivial
  · intro _ _ _ _; trivial
  · intro _ _ _ _; trivial
  · intro newMap h
    simpa only [camelLoop] using h
  · intro k rest newMap ih h
    simp only [camelLoop]
    exact ih h
  · intro k v rest newMap hnull ih1 ih2 h
    have hstep : camelLoop lib r ((k, v) :: rest) newMap
        = camelLoop lib r rest (OptMap.set newMap (mappedName lib r k) (camelValue lib r v)) := by
      cases v with
      | null => exact (hnull rfl).elim
      | _ => simp only [camelLoop]
    rw [hstep]
    exact ih2 (wellKeyed_set h ih1)

theorem wellKeyed_mapKeysToCamelCase (lib : Lib) (r : RulesBuilder) (old : OptMap) :
    wellKeyed (mapKeysToCamelCase lib r old) :=
  wellKeyed_camelLoop lib r old [] (by simp [wellKeyed])

/-- With nothing to flatten and an empty table the loop copies a map with unique keys. -/
theorem remapLoop_copy (r : RulesBuilder) (hflat : ∀ k, r.shouldFlatten k = false)
    (htab : r.typeMappings = []) (b : String) (options newRom : OptMap) :
    wellKeyed options → (∀ k ∈ OptMap.keys options, k ∉ OptMap.keys newRom) →
    remapLoop r b options newRom = .ok (newRom ++ options) := by
  have hpick : ∀ k v, pickValue r k v = .ok (some v) := by
    intro k v
    exact pickValue_plain (hflat k) (by rw [htab]; rfl)
  induction b, options, newRom using remapLoop.induct r with
  | case1 b newRom => intro _ _; rw [remapLoop_nil, List.append_nil]
  | case2 b newRom o v rest f h => rw [hpick] at h; cases h
  | case3 b newRom o v rest h ih => rw [hpick] at h; cases h
  | case4 b newRom o v rest m h f hrec ih =>
    intro hw _
    rw [hpick] at h
    simp only [Except.ok.injEq, Option.some.injEq] at h
    subst h
    simp only [wellKeyed, wellKeyedValue] at hw
    rw [ih hw.2.1 (by intro k _; simp [OptMap.keys])] at hrec
    cases hrec
  | case5 b newRom o v rest m h m' hrec ih1 ih2 =>
    intro hw hdis
    rw [hpick] at h
    simp only [Except.ok.injEq, Option.some.injEq] at h
    subst h
    simp only [wellKeyed, wellKeyedValue] at hw
    rw [ih1 hw.2.1 (by intro k _; simp [OptMap.keys])] at hrec
    simp only [Except.ok.injEq, List.nil_append] at hrec
    subst hrec
    have ho : o ∉ OptMap.keys newRom := hdis o (by simp [OptMap.keys])
    have hstep := remapLoop_cons_map (hpick (b ++ "." ++ o) (.map m)) rest newRom
    rw [ih1 hw.2.1 (by intro k _; simp [OptMap.keys])] at hstep
    simp only [List.nil_append] at hstep
    rw [hstep, set_set, set_of_not_mem _ _ ho]
    rw [set_set, set_of_not_mem _ _ ho] at ih2
    rw [ih2 hw.2.2 ?_]
    · simp
    · intro k hk hmem
      simp only [OptMap.keys, List.map_append, List.map_cons, List.map_nil, List.mem_append,
        List.mem_singleton] at hmem
      rcases hmem with hmem | hmem
      · exact hdis k (by simp only [OptMap.keys, List.map_cons, List.mem_cons]; exact Or.inr hk) hmem
      · subst hmem; exact hw.1 hk
  | case6 b newRom o v rest picked hnot h ih =>
    intro hw hdis
    rw [hpick] at h
    simp only [Except.ok.injEq, Option.some.injEq] at h
    subst h
    simp only [wellKeyed] at hw
    have ho : o ∉ OptMap.keys newRom := hdis o (by simp [OptMap.keys])
    rw [remapLoop_cons_plain (hpick _ _) (isMap_false_of_ne hnot), set_of_not_mem _ _ ho]
    rw [set_of_not_mem _ _ ho] at ih
    rw [ih hw.2.2 ?_]
    · simp
    · intro k hk hmem
      simp only [OptMap.keys, List.map_append, List.map_cons, List.map_nil, List.mem_append,
        List.mem_singleton] at hmem
      rcases hmem with hmem | hmem
      · exact hdis k (by simp only [OptMap.keys, List.map_cons, List.mem_cons]; exact Or.inr hk) hmem
      · subst hmem; exact hw.1 hk

theorem camelLoop_cons_of_ne_null (lib : Lib) (r : RulesBuilder) (k : String) {v : Value}
    (hv : v ≠ .null) (rest newMap : OptMap) :
    camelLoop lib r ((k, v) :: rest) newMap
      = camelLoop lib r rest (OptMap.set newMap (mappedName lib r k) (camelValue lib r v)) := by
  cases v with
  | null => exact (hv rfl).elim
  | _ => simp only [camelLoop]

/-- Without `nil` values and with distinct converted keys the key rewriting is entry by entry. -/
theorem camelLoop_entrywise (lib : Lib) (r : RulesBuilder) (old newMap : OptMap)
    (hnull : ∀ e ∈ old, e.2 ≠ .null)
    (hnd : (old.map (fun e => mappedName lib r e.1)).Nodup)
    (hdis : ∀ e ∈ old, mappedName lib r e.1 ∉ OptMap.keys newMap) :
    camelLoop lib r old newMap
      = newMap ++ old.map (fun e => (mappedName lib r e.1, camelValue lib r e.2)) := by
  induction old generalizing newMap with
  | nil => simp [camelLoop]
  | cons e rest ih =>
    obtain ⟨k, v⟩ := e
    have hv : v ≠ .null := hnull (k, v) (List.mem_cons_self _ _)
    have hk : mappedName lib r k ∉ OptMap.keys newMap := hdis (k, v) (List.mem_cons_self _ _)
    simp only [List.map_cons, List.nodup_cons] at hnd
    rw [camelLoop_cons_of_ne_null lib r k hv, set_of_not_mem _ _ hk, ih]
    · simp
    · intro e he; exact hnull e (List.mem_cons_of_mem _ he)
    · exact hnd.2
    · intro e he hmem
      simp only [OptMap.keys, List.map_append, List.map_cons, List.map_nil, List.mem_append,
        List.mem_singleton] at hmem
      rcases hmem with hmem | hmem
      · exact hdis e (List.mem_cons_of_mem _ he) hmem
      · apply hnd.1
        rw [← hmem]
        exact List.mem_map_of_mem (fun e => mappedName lib r e.1) he

/-- C9 (as amended): when no option is flagged for flattening and the type-mapping table is
empty, `remapOptionValues` returns the output of `mapKeysToCamelCase` as it is; and when no
value of the bag is `nil` and the converted keys are distinct, that output has one entry per
input entry, under the converted key, with the value rewritten by the same key conversion. -/
theorem normalisation_changes_keys_only (lib : Lib) (r : RulesBuilder) (b : String)
    (options : OptMap) (hflat : ∀ k, r.shouldFlatten k = false) (htab : r.typeMappings = []) :
    remapOptionValues r b (mapKeysToCamelCase lib r options)
      = .ok (mapKeysToCamelCase lib r options) ∧
    ((∀ e ∈ options, e.2 ≠ .null) → (options.map (fun e => mappedName lib r e.1)).Nodup →
      remapOptionValues r b (mapKeysToCamelCase lib r options)
        = .ok (options.map (fun e => (mappedName lib r e.1, camelValue lib r e.2)))) := by
  have hcopy : remapOptionValues r b (mapKeysToCamelCase lib r options)
      = .ok (mapKeysToCamelCase lib r options) := by
    unfold remapOptionValues
    rw [remapLoop_copy r hflat htab b _ [] (wellKeyed_mapKeysToCamelCase lib r options)
      (by intro k _; simp [OptMap.keys])]
    rfl
  refine ⟨hcopy, ?_⟩
  intro hnull hnd
  rw [hcopy]
  unfold mapKeysToCamelCase
  rw [camelLoop_entrywise lib r options [] hnull hnd (by intro e _; simp [OptMap.keys])]
  rfl

/-- C9 (witness): with nothing to flatten and an empty table, the bag with `cache_key`
holding a map with `cache_key` inside comes out with both keys converted and the values kept. -/
theorem normalisation_changes_keys_only_witness :
    remapOptionValues (plainBuilder (bareReader "default")) "caching"
        (mapKeysToCamelCase snakeLib (plainBuilder (bareReader "default"))
          [("cache_key", .map [("cache_key", .str "X")]), ("ttl", .list [.int 1])])
      = .ok [("cacheKey", .map [("cacheKey", .str "X")]), ("ttl", .list [.int 1])] :=
  (normalisation_changes_keys_only snakeLib (plainBuilder (bareReader "default")) "caching"
    [("cache_key", .map [("cache_key", .str "X")]), ("ttl", .list [.int 1])]
    (fun _ => rfl) rfl).2 (by simp) (by decide)

/-- C9 (counterexample): the normalisation alters a flattened value (`["X"]` becomes `"X"`),
replaces a type-mapped value (`"408"` becomes 408), drops an entry whose value is `nil`, and
keeps one entry of two whose converted keys coincide. -/
theorem normalisation_changes_keys_only_counterexample :
    remapOptionValues flattenSomeOption "someBehavior"
        (mapKeysToCamelCase plainLib flattenSomeOption [("someOption", .list [.str "X"])])
      = .ok [("someOption", .str "X")] ∧
    remapOptionValues mapSomeCode "someBehavior"
        (mapKeysToCamelCase plainLib mapSomeCode [("code", .str "408")])
      = .ok [("code", .int 408)] ∧
    remapOptionValues (plainBuilder (bareReader "default")) "someBehavior"
        (mapKeysToCamelCase plainLib (plainBuilder (bareReader "default")) [("ttl", .null)])
      = .ok [] ∧
    remapOptionValues mergeNames "someBehavior"
        (mapKeysToCamelCase plainLib mergeNames [("a", .int 1), ("b", .int 2)])
      = .ok [("c", .int 2)] := by
  have e1 : mapKeysToCamelCase plainLib flattenSomeOption [("someOption", .list [.str "X"])]
      = [("someOption", .list [.str "X"])] := rfl
  have e2 : mapKeysToCamelCase plainLib mapSomeCode [("code", .str "408")]
      = [("code", .str "408")] := rfl
  have e3 : mapKeysToCamelCase plainLib (plainBuilder (bareReader "default")) [("ttl", .null)]
      = [] := rfl
  have e4 : mapKeysToCamelCase plainLib mergeNames [("a", .int 1), ("b", .int 2)]
      = [("c", .int 2)] := rfl
  have p1 : pickValue flattenSomeOption ("someBehavior" ++ "." ++ "someOption")
      (.list [.str "X"]) = .ok (some (.str "X")) := rfl
  have p2 : pickValue mapSomeCode ("someBehavior" ++ "." ++ "code") (.str "408")
      = .ok (some (.int 408)) := rfl
  have p4 : pickValue mergeNames ("someBehavior" ++ "." ++ "c") (.int 2)
      = .ok (some (.int 2)) := rfl
  rw [e1, e2, e3, e4]
  refine ⟨remapOptionValues_single_plain p1 rfl, remapOptionValues_single_plain p2 rfl, ?_,
    remapOptionValues_single_plain p4 rfl⟩
  unfold remapOptionValues
  rw [remapLoop_nil]

/-! ## Children -/

theorem decodeChildren_all_ok {lib : Lib} {l : List String}
    (h : ∀ s ∈ l, ∃ c, lib.unmarshal s = .ok c) :
    ∃ children, decodeChildren lib l = .ok children ∧
      List.Forall₂ (fun s child => ∃ c, lib.unmarshal s = .ok c ∧ child = c.Rules) l children := by
  induction l with
  | nil => exact ⟨[], rfl, List.Forall₂.nil⟩
  | cons s rest ih =>
    obtain ⟨c, hc⟩ := h s (List.mem_cons_self _ _)
    obtain ⟨children, hd, hall⟩ := ih (fun x hx => h x (List.mem_cons_of_mem _ hx))
    refine ⟨c.Rules :: children, ?_, List.Forall₂.cons ⟨c, hc, rfl⟩ hall⟩
    simp only [decodeChildren, hc, hd]

theorem forall₂_getElem? {α β : Type} {R : α → β → Prop} {l : List α} {l' : List β}
    (h : List.Forall₂ R l l') (i : Nat) (a : α) (ha : l[i]? = some a) :
    ∃ b, l'[i]? = some b ∧ R a b := by
  induction h generalizing i with
  | nil => simp at ha
  | cons hab _ ih =>
    cases i with
    | zero =>
      simp only [List.getElem?_cons_zero, Option.some.injEq] at ha
      subst ha
      exact ⟨_, by simp, hab⟩
    | succ j =>
      simp only [List.getElem?_cons_succ] at ha
      obtain ⟨b, hb, hr⟩ := ih j ha
      exact ⟨b, by simpa using hb, hr⟩

/-- C11: when every entry of the children list decodes, `ruleChildren` returns no error and
a list of the same length whose i-th element is the rule document decoded from the i-th
entry; when the children list is absent it returns the empty list and no error. -/
theorem children_decoded_in_order (lib : Lib) (r : RulesBuilder) :
    (r.schemaReader.childrenList.2 = none →
      (∀ s ∈ r.schemaReader.childrenList.1, ∃ c, lib.unmarshal s = .ok c) →
      (ruleChildren lib r).2 = none ∧
      (ruleChildren lib r).1.length = r.schemaReader.childrenList.1.length ∧
      ∀ (i : Nat) (s : String), r.schemaReader.childrenList.1[i]? = some s →
        ∃ c, lib.unmarshal s = .ok c ∧ (ruleChildren lib r).1[i]? = some c.Rules) ∧
    (r.schemaReader.childrenList.absent = true → ruleChildren lib r = ([], none)) := by
  constructor
  · intro hread hall
    obtain ⟨children, hd, hf⟩ := decodeChildren_all_ok hall
    have hpair : r.schemaReader.childrenList = (r.schemaReader.childrenList.1, none) := by
      rw [← hread]
    have hch : ruleChildren lib r = (children, none) := by
      unfold ruleChildren
      rw [hpair]
      simp only [hd]
    rw [hch]
    refine ⟨rfl, hf.length_eq.symm, ?_⟩
    intro i s hs
    obtain ⟨child, hchild, c, hc, hcr⟩ := forall₂_getElem? hf i s hs
    exact ⟨c, hc, by rw [hchild, hcr]⟩
  · intro habs
    unfold ruleChildren
    unfold Got.absent at habs
    split
    · rename_i e he; rw [he] at habs; simp only at habs; simp [habs]
    · rename_i he; rw [he] at habs; cases habs

/-- C11 (witness): the children `first` and `second` decode to the documents of these names,
in this order; the bare rule has no children. -/
theorem children_decoded_in_order_witness :
    ((ruleChildren namingLib childWithTwoChildren).2 = none ∧
      (ruleChildren namingLib childWithTwoChildren).1.length = 2 ∧
      ∀ (i : Nat) (s : String), childWithTwoChildren.schemaReader.childrenList.1[i]? = some s →
        ∃ c, namingLib.unmarshal s = .ok c ∧
          (ruleChildren namingLib childWithTwoChildren).1[i]? = some c.Rules) ∧
    ruleChildren namingLib (plainBuilder (bareReader "caching")) = ([], none) :=
  ⟨(children_decoded_in_order namingLib childWithTwoChildren).1 rfl
      (by
        intro s hs
        have h2 : s = "first" ∨ s = "second" := by
          simpa [childWithTwoChildren, plainBuilder, bareReader] using hs
        rcases h2 with rfl | rfl
        · exact ⟨_, rfl⟩
        · exact ⟨_, rfl⟩),
   (children_decoded_in_order namingLib (plainBuilder (bareReader "caching"))).2 rfl⟩

/-! ## The three reads of `buildRuleBehaviors` -/

theorem get_delete_self (m : List (String × α)) (k : String) :
    OptMap.get (OptMap.delete m k) k = none := by
  induction m with
  | nil => rfl
  | cons e rest ih =>
    obtain ⟨k', v'⟩ := e
    by_cases h : k' = k
    · simp only [OptMap.delete, List.filter, h, decide_True, Bool.not_true]
      exact ih
    · simp only [OptMap.delete, List.filter, h, decide_False, Bool.not_false, OptMap.get, if_false]
      exact ih

theorem get_delete_ne (m : List (String × α)) {k k' : String} (h : k' ≠ k) :
    OptMap.get (OptMap.delete m k) k' = OptMap.get m k' := by
  induction m with
  | nil => rfl
  | cons e rest ih =>
    obtain ⟨k₀, v₀⟩ := e
    by_cases h0 : k₀ = k
    · have h1 : ¬ k₀ = k' := fun hk => h (hk.symm.trans h0)
      simp only [OptMap.delete, List.filter, h0, decide_True, Bool.not_true, OptMap.get]
      rw [if_neg (fun hk => h hk.symm)]
      exact ih
    · simp only [OptMap.delete, List.filter, h0, decide_False, Bool.not_false, OptMap.get]
      by_cases h1 : k₀ = k'
      · simp only [h1, if_true]
      · simp only [h1, if_false]
        exact ih

theorem get_dropIfSet_ne (m : OptMap) {k k' : String} (h : k' ≠ k) :
    OptMap.get (dropIfSet m k) k' = OptMap.get m k' := by
  unfold dropIfSet
  split
  · rfl
  · rfl
  · exact get_delete_ne m h

theorem getFromMapAndDeleteOrDefault_eq (cast : Value → Option T) (m : OptMap) (k : String)
    (d : T) :
    getFromMapAndDeleteOrDefault cast m k d =
      if wellTyped cast m k = true then .ok (readOrDefault cast m k d, dropIfSet m k)
      else .error .typeAssertion := by
  unfold getFromMapAndDeleteOrDefault wellTyped readOrDefault dropIfSet
  cases hg : OptMap.get m k with
  | none => simp
  | some v =>
    cases v with
    | null => simp
    | _ =>
      simp only
      cases hc : cast _ with
      | none => simp
      | some t => simp

theorem wellTyped_dropIfSet_ne (cast : Value → Option T) (m : OptMap) {k k' : String}
    (h : k' ≠ k) : wellTyped cast (dropIfSet m k) k' = wellTyped cast m k' := by
  simp only [wellTyped, get_dropIfSet_ne m h]

theorem readOrDefault_dropIfSet_ne (cast : Value → Option T) (m : OptMap) {k k' : String}
    (h : k' ≠ k) (d : T) :
    readOrDefault cast (dropIfSet m k) k' d = readOrDefault cast m k' d := by
  simp only [readOrDefault, get_dropIfSet_ne m h]

/-- One turn of the loop when the three entries are of the asserted types: the behavior
holds the three values read, and the options of the map without these entries. -/
theorem buildRuleBehavior_eq (lib : Lib) (r : RulesBuilder) (item : RuleItem)
    (h1 : wellTyped asBool item.Item "locked" = true)
    (h2 : wellTyped asString item.Item "uuid" = true)
    (h3 : wellTyped asString item.Item "template_uuid" = true) :
    buildRuleBehavior lib r item =
      (remapOptionValues r (mappedName lib r item.Name)
          (mapKeysToCamelCase lib r (stripMeta item.Item))).map
        (fun options =>
          ({ Name := mappedName lib r item.Name
             Locked := readOrDefault asBool item.Item "locked" false
             UUID := readOrDefault asString item.Item "uuid" ""
             TemplateUuid := readOrDefault asString item.Item "template_uuid" ""
             Options := options },
           { item with Item := stripMeta item.Item })) := by
  have n1 : "uuid" ≠ "locked" := by decide
  have n2 : "template_uuid" ≠ "locked" := by decide
  have n3 : "template_uuid" ≠ "uuid" := by decide
  have h2' : wellTyped asString (dropIfSet item.Item "locked") "uuid" = true := by
    rw [wellTyped_dropIfSet_ne _ _ n1]; exact h2
  have h3' : wellTyped asString (dropIfSet (dropIfSet item.Item "locked") "uuid") "template_uuid"
      = true := by
    rw [wellTyped_dropIfSet_ne _ _ n3, wellTyped_dropIfSet_ne _ _ n2]; exact h3
  simp only [buildRuleBehavior, getFromMapAndDeleteOrDefault_eq, h1, h2', h3', if_true, ok_bind,
    readOrDefault_dropIfSet_ne _ _ n1, readOrDefault_dropIfSet_ne _ _ n2,
    readOrDefault_dropIfSet_ne _ _ n3, stripMeta]
  cases remapOptionValues r (mappedName lib r item.Name)
      (mapKeysToCamelCase lib r
        (dropIfSet (dropIfSet (dropIfSet item.Item "locked") "uuid") "template_uuid")) with
  | error p => rfl
  | ok options => rfl

/-- One turn of the loop when one of the three entries is not of the asserted type. -/
theorem buildRuleBehavior_ill_typed (lib : Lib) (r : RulesBuilder) (item : RuleItem)
    (h : wellTyped asBool item.Item "locked" = false ∨
      wellTyped asString item.Item "uuid" = false ∨
      wellTyped asString item.Item "template_uuid" = false) :
    buildRuleBehavior lib r item = .error .typeAssertion := by
  have n1 : "uuid" ≠ "locked" := by decide
  have n2 : "template_uuid" ≠ "locked" := by decide
  have n3 : "template_uuid" ≠ "uuid" := by decide
  simp only [buildRuleBehavior, getFromMapAndDeleteOrDefault_eq]
  cases h1 : wellTyped asBool item.Item "locked" with
  | false => rfl
  | true =>
    simp only [if_true, ok_bind, wellTyped_dropIfSet_ne _ _ n1]
    cases h2 : wellTyped asString item.Item "uuid" with
    | false => rfl
    | true =>
      simp only [if_true, ok_bind, wellTyped_dropIfSet_ne _ _ n3, wellTyped_dropIfSet_ne _ _ n2]
      cases h3 : wellTyped asString item.Item "template_uuid" with
      | false => rfl
      | true =>
        rw [h1, h2, h3] at h
        rcases h with h | h | h <;> cases h

/-! ## The list built by `buildRuleBehaviors` -/

theorem buildRuleBehavior_name {lib : Lib} {r : RulesBuilder} {item item' : RuleItem}
    {b : RuleBehavior} (h : buildRuleBehavior lib r item = .ok (b, item')) :
    b.Name = mappedName lib r item.Name := by
  simp only [buildRuleBehavior, bind_eq_ok] at h
  obtain ⟨_, _, _, _, _, _, _, _, h⟩ := h
  simp only [pure, Except.pure, Except.ok.injEq, Prod.mk.injEq] at h
  rw [← h.1]

theorem buildRuleBehaviorsState_ok {lib : Lib} {r : RulesBuilder} {items items' : List RuleItem}
    {bs : List RuleBehavior} (h : buildRuleBehaviorsState lib r items = .ok (bs, items')) :
    List.Forall₂ (fun item res => buildRuleBehavior lib r item = .ok res) items
      (List.zip bs items') ∧ bs.length = items.length ∧ items'.length = items.length := by
  induction items generalizing bs items' with
  | nil =>
    simp only [buildRuleBehaviorsState, Except.ok.injEq, Prod.mk.injEq] at h
    obtain ⟨rfl, rfl⟩ := h
    exact ⟨List.Forall₂.nil, rfl, rfl⟩
  | cons item rest ih =>
    simp only [buildRuleBehaviorsState, bind_eq_ok, unwind_eq_ok] at h
    obtain ⟨⟨b, item'⟩, hb, ⟨bs', rest'⟩, hrest, h⟩ := h
    simp only [pure, Except.pure, Except.ok.injEq, Prod.mk.injEq] at h
    obtain ⟨rfl, rfl⟩ := h
    obtain ⟨hf, h1, h2⟩ := ih hrest
    exact ⟨List.Forall₂.cons hb hf, by simp [h1], by simp [h2]⟩

theorem buildRuleBehaviorsState_total {lib : Lib} {r : RulesBuilder} {items : List RuleItem}
    (h : ∀ item ∈ items, ∃ res, buildRuleBehavior lib r item = .ok res) :
    ∃ res, buildRuleBehaviorsState lib r items = .ok res := by
  induction items with
  | nil => exact ⟨_, rfl⟩
  | cons item rest ih =>
    obtain ⟨⟨b, item'⟩, hb⟩ := h item (List.mem_cons_self _ _)
    obtain ⟨⟨bs, rest'⟩, hrest⟩ := ih (fun x hx => h x (List.mem_cons_of_mem _ hx))
    refine ⟨(b :: bs, item' :: rest'), ?_⟩
    simp only [buildRuleBehaviorsState, hb, MayPanic.unwind, ok_bind, hrest]
    rfl

theorem buildRuleBehaviors_eq_ok {lib : Lib} {r : RulesBuilder} {items : List RuleItem}
    {bs : List RuleBehavior} :
    buildRuleBehaviors lib r items = .ok bs ↔
      ∃ items', buildRuleBehaviorsState lib r items = .ok (bs, items') := by
  unfold buildRuleBehaviors
  cases hs : buildRuleBehaviorsState lib r items with
  | error f => simp [Except.map]
  | ok res =>
    obtain ⟨bs', items'⟩ := res
    simp only [Except.map, Except.ok.injEq, Prod.mk.injEq]
    constructor
    · intro h; exact ⟨items', h, rfl⟩
    · rintro ⟨_, h, _⟩; exact h

/-- C12 (as amended): `buildRuleBehaviors` never returns an error; when it returns, the list
has the length and the order of the items, and the i-th name is the lower camel case of the
i-th item's name, replaced by its entry in `nameMappings` when there is one; it returns
whenever the behavior of each item can be built without a panic. -/
theorem buildRuleBehaviors_shape (lib : Lib) (r : RulesBuilder) (items : List RuleItem) :
    (∀ e, buildRuleBehaviors lib r items ≠ .error (.err e)) ∧
    (∀ bs, buildRuleBehaviors lib r items = .ok bs →
      bs.length = items.length ∧
      ∀ (i : Nat) (item : RuleItem), items[i]? = some item →
        ∃ b, bs[i]? = some b ∧
          b.Name = (match OptMap.get r.nameMappings (lib.toLowerCamel item.Name) with
            | some name => name
            | none => lib.toLowerCamel item.Name) ∧
          ∃ item', buildRuleBehavior lib r item = .ok (b, item')) ∧
    ((∀ item ∈ items, ∃ res, buildRuleBehavior lib r item = .ok res) →
      ∃ bs, buildRuleBehaviors lib r items = .ok bs) := by
  refine ⟨?_, ?_, ?_⟩
  · intro e h
    obtain ⟨p, hp⟩ := buildRuleBehaviors_error h
    cases hp
  · intro bs h
    obtain ⟨items', hs⟩ := buildRuleBehaviors_eq_ok.mp h
    obtain ⟨hf, h1, h2⟩ := buildRuleBehaviorsState_ok hs
    refine ⟨h1, ?_⟩
    intro i item hi
    obtain ⟨⟨b, item'⟩, hz, hb⟩ := forall₂_getElem? hf i item hi
    have hbi : bs[i]? = some b := by
      rw [List.getElem?_zip_eq_some] at hz
      exact hz.1
    exact ⟨b, hbi, buildRuleBehavior_name hb, item', hb⟩
  · intro hall
    obtain ⟨⟨bs, items'⟩, hs⟩ := buildRuleBehaviorsState_total hall
    exact ⟨bs, buildRuleBehaviors_eq_ok.mpr ⟨items', hs⟩⟩

/-- C12 (counterexample): for a single item whose flattened option holds two elements
`buildRuleBehaviors` returns no list: it panics. -/
theorem buildRuleBehaviors_shape_counterexample :
    buildRuleBehaviors plainLib flattenSomeOption [twoElementItem]
      = .error (.panic (.explicit "expected object type has len()>1: someBehavior.someOption")) := by
  have hp : pickValue flattenSomeOption ("someBehavior" ++ "." ++ "someOption")
      (.list [.str "X", .str "Y"])
      = .error (.explicit "expected object type has len()>1: someBehavior.someOption") := rfl
  have hr : remapOptionValues flattenSomeOption "someBehavior"
      [("someOption", .list [.str "X", .str "Y"])]
      = .error (.explicit "expected object type has len()>1: someBehavior.someOption") := by
    unfold remapOptionValues
    rw [remapLoop_cons_error hp]
  have hb : buildRuleBehavior plainLib flattenSomeOption twoElementItem
      = .error (.explicit "expected object type has len()>1: someBehavior.someOption") := by
    rw [buildRuleBehavior_eq plainLib flattenSomeOption twoElementItem rfl rfl rfl]
    show Except.map _ (remapOptionValues flattenSomeOption "someBehavior"
      [("someOption", .list [.str "X", .str "Y"])]) = _
    rw [hr]
    rfl
  simp only [buildRuleBehaviors, buildRuleBehaviorsState, hb, MayPanic.unwind, error_bind,
    Except.map]

/-- C12 (witness): two items with plain options are built, in order, under their names. -/
theorem buildRuleBehaviors_shape_witness :
    ∃ bs, buildRuleBehaviors plainLib (plainBuilder (bareReader "default")) plainItems = .ok bs ∧
      bs.length = plainItems.length ∧
      ∀ (i : Nat) (item : RuleItem), plainItems[i]? = some item →
        ∃ b, bs[i]? = some b ∧
          b.Name = (match OptMap.get (plainBuilder (bareReader "default")).nameMappings
              (plainLib.toLowerCamel item.Name) with
            | some name => name
            | none => plainLib.toLowerCamel item.Name) ∧
          ∃ item', buildRuleBehavior plainLib (plainBuilder (bareReader "default")) item
            = .ok (b, item') := by
  have h := buildRuleBehaviors_shape plainLib (plainBuilder (bareReader "default")) plainItems
  have hall : ∀ item ∈ plainItems, ∃ res,
      buildRuleBehavior plainLib (plainBuilder (bareReader "default")) item = .ok res := by
    intro item hitem
    have hcopy : ∀ m, remapOptionValues (plainBuilder (bareReader "default"))
        (mappedName plainLib (plainBuilder (bareReader "default")) item.Name)
        (mapKeysToCamelCase plainLib (plainBuilder (bareReader "default")) m)
        = .ok (mapKeysToCamelCase plainLib (plainBuilder (bareReader "default")) m) := by
      intro m
      unfold remapOptionValues
      rw [remapLoop_copy _ (fun _ => rfl) rfl _ _ [] (wellKeyed_mapKeysToCamelCase _ _ m)
        (by intro k _; simp [OptMap.keys])]
      rfl
    have h2 : item = ⟨"caching", [("ttl", .str "1d")]⟩ ∨ item = ⟨"gzip", [("locked", .bool true)]⟩ := by
      simpa [plainItems] using hitem
    rcases h2 with rfl | rfl
    · rw [buildRuleBehavior_eq plainLib (plainBuilder (bareReader "default"))
        ⟨"caching", [("ttl", .str "1d")]⟩ rfl rfl rfl, hcopy]
      exact ⟨_, rfl⟩
    · rw [buildRuleBehavior_eq plainLib (plainBuilder (bareReader "default"))
        ⟨"gzip", [("locked", .bool true)]⟩ rfl rfl rfl, hcopy]
      exact ⟨_, rfl⟩
  obtain ⟨bs, hbs⟩ := h.2.2 hall
  exact ⟨bs, hbs, h.2.1 bs hbs⟩

/-! ## The entries that reach the options -/

theorem camelLoop_filter_notNull (lib : Lib) (r : RulesBuilder) (old newMap : OptMap) :
    camelLoop lib r (old.filter (fun e => e.2.notNull)) newMap = camelLoop lib r old newMap := by
  induction old generalizing newMap with
  | nil => rfl
  | cons e rest ih =>
    obtain ⟨k, v⟩ := e
    cases v with
    | null => simp only [List.filter, Value.notNull, camelLoop]; exact ih newMap
    | _ => simp only [List.filter, Value.notNull, camelLoop]; exact ih _

theorem keys_filter_nodup {m : OptMap} (p : String × Value → Bool)
    (h : (OptMap.keys m).Nodup) : (OptMap.keys (m.filter p)).Nodup := by
  unfold OptMap.keys at *
  exact h.sublist ((List.filter_sublist m).map Prod.fst)

theorem keys_dropIfSet_nodup {m : OptMap} (k : String) (h : (OptMap.keys m).Nodup) :
    (OptMap.keys (dropIfSet m k)).Nodup := by
  unfold dropIfSet
  split
  · exact h
  · exact h
  · exact keys_filter_nodup _ h

theorem get_eq_none_iff {m : List (String × α)} {k : String} :
    OptMap.get m k = none ↔ ∀ e ∈ m, e.1 ≠ k := by
  induction m with
  | nil => simp [OptMap.get]
  | cons e rest ih =>
    obtain ⟨k', v'⟩ := e
    by_cases h : k' = k
    · simp [OptMap.get, h]
    · simp [OptMap.get, h, ih]

theorem eq_of_get_of_nodup {m : List (String × α)} {k : String} {v : α}
    (hnd : (OptMap.keys m).Nodup) (hg : OptMap.get m k = some v) :
    ∀ e ∈ m, e.1 = k → e.2 = v := by
  induction m with
  | nil => intro e he; cases he
  | cons e0 rest ih =>
    obtain ⟨k0, v0⟩ := e0
    simp only [OptMap.keys, List.map_cons, List.nodup_cons] at hnd
    intro e he hk
    by_cases h0 : k0 = k
    · simp only [OptMap.get, h0, if_true, Option.some.injEq] at hg
      rcases List.mem_cons.mp he with rfl | he'
      · exact hg
      · exfalso
        apply hnd.1
        rw [h0, ← hk]
        exact List.mem_map_of_mem Prod.fst he'
    · simp only [OptMap.get, h0, if_false] at hg
      rcases List.mem_cons.mp he with rfl | he'
      · exact (h0 hk).elim
      · exact ih hnd.2 hg e he' hk

/-- Among the entries that are not `nil`, a read by `getFromMapAndDeleteOrDefault` leaves
what the deletion of the key leaves. -/
theorem filter_notNull_dropIfSet {m : OptMap} (k : String) (hnd : (OptMap.keys m).Nodup) :
    (dropIfSet m k).filter (fun e => e.2.notNull)
      = (m.filter (fun e => e.2.notNull)).filter (fun e => !decide (e.1 = k)) := by
  unfold dropIfSet
  have hcomm : (OptMap.delete m k).filter (fun e => e.2.notNull)
      = (m.filter (fun e => e.2.notNull)).filter (fun e => !decide (e.1 = k)) := by
    simp only [OptMap.delete, List.filter_filter]
    apply List.filter_congr
    intro e _
    exact Bool.and_comm _ _
  have hkeep : (∀ e ∈ m, e.2.notNull = true → e.1 ≠ k) →
      m.filter (fun e => e.2.notNull)
        = (m.filter (fun e => e.2.notNull)).filter (fun e => !decide (e.1 = k)) := by
    intro h
    symm
    apply List.filter_eq_self.mpr
    intro e he
    have he' := List.mem_filter.mp he
    simp [h e he'.1 he'.2]
  cases hg : OptMap.get m k with
  | none =>
    simp only
    apply hkeep
    intro e he _
    exact get_eq_none_iff.mp hg e he
  | some v =>
    cases v with
    | null =>
      simp only
      apply hkeep
      intro e he hn hk
      rw [eq_of_get_of_nodup hnd hg e he hk] at hn
      cases hn
    | _ => simp only; exact hcomm

theorem filter_notNull_stripMeta {m : OptMap} (hnd : (OptMap.keys m).Nodup) :
    (stripMeta m).filter (fun e => e.2.notNull)
      = (m.filter (fun e => !metaKeys.contains e.1)).filter (fun e => e.2.notNull) := by
  unfold stripMeta
  rw [filter_notNull_dropIfSet _ (keys_dropIfSet_nodup _ (keys_dropIfSet_nodup _ hnd)),
    filter_notNull_dropIfSet _ (keys_dropIfSet_nodup _ hnd), filter_notNull_dropIfSet _ hnd]
  simp only [List.filter_filter]
  apply List.filter_congr
  intro e _
  by_cases h1 : e.1 = "locked" <;> by_cases h2 : e.1 = "uuid" <;>
    by_cases h3 : e.1 = "template_uuid" <;> cases e.2.notNull <;>
    simp [metaKeys, h1, h2, h3]

/-- The entries `locked`, `uuid` and `template_uuid` do not reach the rewritten map. -/
theorem mapKeysToCamelCase_stripMeta (lib : Lib) (r : RulesBuilder) {m : OptMap}
    (hnd : (OptMap.keys m).Nodup) :
    mapKeysToCamelCase lib r (stripMeta m)
      = mapKeysToCamelCase lib r (m.filter (fun e => !metaKeys.contains e.1)) := by
  unfold mapKeysToCamelCase
  rw [← camelLoop_filter_notNull lib r (stripMeta m), filter_notNull_stripMeta hnd,
    camelLoop_filter_notNull]

theorem readOrDefault_bool (m : OptMap) (k : String) :
    readOrDefault asBool m k false
      = (match OptMap.get m k with
        | some (.bool v) => v
        | _ => false) := by
  unfold readOrDefault
  cases OptMap.get m k with
  | none => rfl
  | some v => cases v <;> rfl

theorem readOrDefault_string (m : OptMap) (k : String) :
    readOrDefault asString m k ""
      = (match OptMap.get m k with
        | some (.str s) => s
        | _ => "") := by
  unfold readOrDefault
  cases OptMap.get m k with
  | none => rfl
  | some v => cases v <;> rfl

/-- C13 (as amended): for an item (a Go map, so with unique keys) whose `locked`, `uuid` and
`template_uuid` entries are absent, `nil`, or a boolean and two strings, the behavior built has
`Locked`, `UUID` and `TemplateUuid` equal to these entries (`false`, "" and "" when absent or
`nil`) and the options of the map without these three entries, and it is built exactly when
`remapOptionValues` returns for these options; an item holding only the three entries yields
an empty `Options` map. -/
theorem behavior_metadata (lib : Lib) (r : RulesBuilder) (item : RuleItem)
    (hnd : (OptMap.keys item.Item).Nodup)
    (h1 : wellTyped asBool item.Item "locked" = true)
    (h2 : wellTyped asString item.Item "uuid" = true)
    (h3 : wellTyped asString item.Item "template_uuid" = true) :
    buildRuleBehavior lib r item =
      (remapOptionValues r (mappedName lib r item.Name)
          (mapKeysToCamelCase lib r (item.Item.filter (fun e => !metaKeys.contains e.1)))).map
        (fun options =>
          ({ Name := mappedName lib r item.Name
             Locked := (match OptMap.get item.Item "locked" with
               | some (.bool v) => v
               | _ => false)
             UUID := (match OptMap.get item.Item "uuid" with
               | some (.str s) => s
               | _ => "")
             TemplateUuid := (match OptMap.get item.Item "template_uuid" with
               | some (.str s) => s
               | _ => "")
             Options := options },
           { item with Item := stripMeta item.Item })) ∧
    ((∀ e ∈ item.Item, e.1 ∈ metaKeys) →
      ∃ b item', buildRuleBehavior lib r item = .ok (b, item') ∧ b.Options = [] ∧
        buildRuleBehaviors lib r [item] = .ok [b]) := by
  have heq := buildRuleBehavior_eq lib r item h1 h2 h3
  rw [mapKeysToCamelCase_stripMeta lib r hnd, readOrDefault_bool, readOrDefault_string,
    readOrDefault_string] at heq
  refine ⟨heq, ?_⟩
  intro hall
  have hempty : item.Item.filter (fun e => !metaKeys.contains e.1) = [] := by
    apply List.filter_eq_nil_iff.mpr
    intro e he
    simp [hall e he]
  have hremap : remapOptionValues r (mappedName lib r item.Name) (mapKeysToCamelCase lib r [])
      = .ok [] := by
    unfold remapOptionValues
    rw [show mapKeysToCamelCase lib r [] = [] from rfl, remapLoop_nil]
  rw [hempty, hremap] at heq
  refine ⟨_, _, heq, rfl, ?_⟩
  simp only [buildRuleBehaviors, buildRuleBehaviorsState, heq, Except.map, MayPanic.unwind,
    ok_bind]
  rfl

/-- C13 (witness): from the item holding `locked = true`, `uuid = "u-1"` and a `nil`
`template_uuid`, the behavior has these values, "" for the template, and no options. -/
theorem behavior_metadata_witness :
    buildRuleBehaviors plainLib (plainBuilder (bareReader "default")) [metaOnlyItem]
      = .ok [{ Name := "gzip", Locked := true, UUID := "u-1", TemplateUuid := "", Options := [] }] := by
  obtain ⟨heq, hall⟩ := behavior_metadata plainLib (plainBuilder (bareReader "default"))
    metaOnlyItem (by decide) rfl rfl rfl
  obtain ⟨b, item', hb, _, hbs⟩ := hall (by decide)
  have hr : remapOptionValues (plainBuilder (bareReader "default")) "gzip" [] = .ok [] := by
    unfold remapOptionValues
    rw [remapLoop_nil]
  have hb2 : buildRuleBehavior plainLib (plainBuilder (bareReader "default")) metaOnlyItem
      = .ok ({ Name := "gzip", Locked := true, UUID := "u-1", TemplateUuid := "", Options := [] },
          { Name := "gzip", Item := [("template_uuid", .null)] }) := by
    rw [heq]
    show Except.map _ (remapOptionValues (plainBuilder (bareReader "default")) "gzip" []) = _
    rw [hr]
    rfl
  rw [hb2] at hb
  simp only [Except.ok.injEq, Prod.mk.injEq] at hb
  rw [hbs, ← hb.1]

/-- C13 (counterexample): from an item whose `locked` entry is the string "yes" no behavior
is built: the type assertion panics. -/
theorem behavior_metadata_counterexample :
    buildRuleBehaviors plainLib (plainBuilder (bareReader "default")) [badLockedItem]
      = .error (.panic .typeAssertion) := rfl

/-! ## The document `Build` returns -/

theorem ruleBehaviors_ok {lib : Lib} {r : RulesBuilder} {b : Got (List RuleBehavior)}
    (h : ruleBehaviors lib r = .ok b) :
    b.2 = r.schemaReader.behaviorsList.2 ∧
    (r.schemaReader.behaviorsList.2 = none →
      buildRuleBehaviors lib r r.schemaReader.behaviorsList.1 = .ok b.1) ∧
    (r.schemaReader.behaviorsList.2 ≠ none → b.1 = []) := by
  unfold ruleBehaviors at h
  split at h
  · rename_i l err he
    cases h
    rw [he]
    exact ⟨rfl, (fun hn => by cases hn), fun _ => rfl⟩
  · rename_i l he
    cases hb : buildRuleBehaviors lib r l with
    | error f => rw [hb] at h; simp [Except.map] at h
    | ok bs =>
      rw [hb] at h
      simp only [Except.map] at h
      cases h
      rw [he]
      exact ⟨rfl, fun _ => hb, fun hn => (hn rfl).elim⟩

theorem ruleCriteria_ok {lib : Lib} {r : RulesBuilder} {c : Got (List RuleBehavior)}
    (h : ruleCriteria lib r = .ok c) :
    c.2 = r.schemaReader.criteriaList.2 ∧
    (r.schemaReader.criteriaList.2 = none →
      buildRuleBehaviors lib r r.schemaReader.criteriaList.1 = .ok c.1) ∧
    (r.schemaReader.criteriaList.2 ≠ none → c.1 = []) := by
  unfold ruleCriteria at h
  split at h
  · rename_i l err he
    cases h
    rw [he]
    exact ⟨rfl, (fun hn => by cases hn), fun _ => rfl⟩
  · rename_i l he
    cases hb : buildRuleBehaviors lib r l with
    | error f => rw [hb] at h; simp [Except.map] at h
    | ok bs =>
      rw [hb] at h
      simp only [Except.map] at h
      cases h
      rw [he]
      exact ⟨rfl, fun _ => hb, fun hn => (hn rfl).elim⟩

theorem buildRuleBehaviors_nil (lib : Lib) (r : RulesBuilder) :
    buildRuleBehaviors lib r [] = .ok [] := rfl

theorem ruleBehaviors_fullDefault :
    ruleBehaviors namingLib fullDefault = .ok ([builtMetaOnly], none) := by
  have hr : remapOptionValues fullDefault "gzip" [] = .ok [] := by
    unfold remapOptionValues
    rw [remapLoop_nil]
  have hb : buildRuleBehavior namingLib fullDefault metaOnlyItem
      = .ok (builtMetaOnly, { Name := "gzip", Item := [("template_uuid", .null)] }) := by
    rw [buildRuleBehavior_eq namingLib fullDefault metaOnlyItem rfl rfl rfl]
    show Except.map _ (remapOptionValues fullDefault "gzip" []) = _
    rw [hr]
    rfl
  show Except.map _ (buildRuleBehaviors namingLib fullDefault [metaOnlyItem]) = _
  simp only [buildRuleBehaviors, buildRuleBehaviorsState, hb, Except.map, MayPanic.unwind,
    ok_bind]
  rfl

/-- C14: when `Build` succeeds, each scalar field of the document is the value its getter
returned, `Variables` is the list `ruleVariables` returned, `Children` the list `ruleChildren`
returned, and `Behaviors` and `Criteria` are what `ruleBehaviors` and `ruleCriteria` returned:
`buildRuleBehaviors` of the item list when the list was read (or the getter handed back no
items), and empty when the list is absent. -/
theorem build_returns_values_read (lib : Lib) (r : RulesBuilder) (doc : Rules)
    (h : Build lib r = .ok doc) :
    doc.Name = (ruleName r).1 ∧ doc.Comments = (ruleComments r).1 ∧
    doc.UUID = (ruleUUID r).1 ∧ doc.TemplateUuid = (ruleTemplateUUID r).1 ∧
    doc.TemplateLink = (ruleTemplateLink r).1 ∧
    doc.AdvancedOverride = (ruleAdvancedOverride r).1 ∧
    doc.CustomOverride = (ruleCustomOverride r).1 ∧
    doc.CriteriaLocked = (ruleCriteriaLocked r).1 ∧
    doc.IsSecure = (ruleIsSecure r).1 ∧
    doc.CriteriaMustSatisfy = (ruleCriteriaMustSatisfy r).1 ∧
    ruleVariables r = .ok doc.Variables ∧
    doc.Children = (ruleChildren lib r).1 ∧
    ruleBehaviors lib r = .ok (doc.Behaviors, r.schemaReader.behaviorsList.2) ∧
    ruleCriteria lib r = .ok (doc.Criteria, r.schemaReader.criteriaList.2) ∧
    ((r.schemaReader.behaviorsList.2 = none ∨ r.schemaReader.behaviorsList.1 = []) →
      buildRuleBehaviors lib r r.schemaReader.behaviorsList.1 = .ok doc.Behaviors) ∧
    ((r.schemaReader.criteriaList.2 = none ∨ r.schemaReader.criteriaList.1 = []) →
      buildRuleBehaviors lib r r.schemaReader.criteriaList.1 = .ok doc.Criteria) ∧
    (r.schemaReader.behaviorsList.2 ≠ none → doc.Behaviors = []) ∧
    (r.schemaReader.criteriaList.2 ≠ none → doc.Criteria = []) := by
  obtain ⟨_, vs, c, b, hv, hc, hb, _, _, _, _, _, _, _, _, _, _, _, _, _, _, _, _, _, _, _, hdoc⟩ :=
    Build_ok_inv h
  obtain ⟨hc2, hc3, hc4⟩ := ruleCriteria_ok hc
  obtain ⟨hb2, hb3, hb4⟩ := ruleBehaviors_ok hb
  subst hdoc
  refine ⟨rfl, rfl, rfl, rfl, rfl, rfl, rfl, rfl, rfl, rfl, hv, rfl, ?_, ?_, ?_, ?_, hb4, hc4⟩
  · rw [hb, ← hb2]; rfl
  · rw [hc, ← hc2]; rfl
  · intro hcase
    by_cases hn : r.schemaReader.behaviorsList.2 = none
    · exact hb3 hn
    · rcases hcase with h1 | h1
      · exact (hn h1).elim
      · rw [h1]
        show buildRuleBehaviors lib r [] = .ok b.1
        rw [hb4 hn]
        rfl
  · intro hcase
    by_cases hn : r.schemaReader.criteriaList.2 = none
    · exact hc3 hn
    · rcases hcase with h1 | h1
      · exact (hn h1).elim
      · rw [h1]
        show buildRuleBehaviors lib r [] = .ok c.1
        rw [hc4 hn]
        rfl

/-- C14 (witness): the document built for `fullDefault` holds the comments, `is_secure`, the
uuid, the variable, the behavior and the child that were read. -/
theorem build_returns_values_read_witness :
    Build namingLib fullDefault = .ok fullDefaultDoc ∧
    fullDefaultDoc.Comments = "top rule" ∧ fullDefaultDoc.IsSecure = true ∧
    buildRuleBehaviors namingLib fullDefault [metaOnlyItem] = .ok fullDefaultDoc.Behaviors ∧
    ruleVariables fullDefault = .ok [builtVariable] ∧
    (ruleChildren namingLib fullDefault).1 = [namedRule "first"] := by
  have hB : Build namingLib fullDefault = .ok fullDefaultDoc := by
    unfold Build
    rw [ruleBehaviors_fullDefault]
    rfl
  have h := build_returns_values_read namingLib fullDefault _ hB
  exact ⟨hB, rfl, rfl, h.2.2.2.2.2.2.2.2.2.2.2.2.2.2.1 (Or.inl rfl), h.2.2.2.2.2.2.2.2.2.2.1,
    h.2.2.2.2.2.2.2.2.2.2.2.1.symm⟩

/-! ## The items as `buildRuleBehaviors` leaves them -/

theorem unsetAt_dropIfSet_self (m : OptMap) (k : String) : unsetAt (dropIfSet m k) k = true := by
  unfold unsetAt dropIfSet
  cases hg : OptMap.get m k with
  | none => simp only [hg]
  | some v =>
    cases v with
    | null => simp only [hg]
    | _ => simp only [get_delete_self]

theorem unsetAt_dropIfSet_ne (m : OptMap) {k k' : String} (h : k' ≠ k) :
    unsetAt (dropIfSet m k) k' = unsetAt m k' := by
  simp only [unsetAt, get_dropIfSet_ne m h]

theorem dropIfSet_of_unsetAt {m : OptMap} {k : String} (h : unsetAt m k = true) :
    dropIfSet m k = m := by
  unfold unsetAt at h
  unfold dropIfSet
  cases hg : OptMap.get m k with
  | none => rfl
  | some v =>
    rw [hg] at h
    cases v with
    | null => rfl
    | _ => cases h

theorem wellTyped_of_unsetAt (cast : Value → Option T) {m : OptMap} {k : String}
    (h : unsetAt m k = true) : wellTyped cast m k = true := by
  unfold unsetAt at h
  unfold wellTyped
  cases hg : OptMap.get m k with
  | none => rfl
  | some v =>
    rw [hg] at h
    cases v with
    | null => rfl
    | _ => cases h

theorem readOrDefault_of_unsetAt (cast : Value → Option T) {m : OptMap} {k : String} (d : T)
    (h : unsetAt m k = true) : readOrDefault cast m k d = d := by
  unfold unsetAt at h
  unfold readOrDefault
  cases hg : OptMap.get m k with
  | none => rfl
  | some v =>
    rw [hg] at h
    cases v with
    | null => rfl
    | _ => cases h

theorem unsetAt_stripMeta (m : OptMap) :
    unsetAt (stripMeta m) "locked" = true ∧ unsetAt (stripMeta m) "uuid" = true ∧
    unsetAt (stripMeta m) "template_uuid" = true := by
  have n1 : "locked" ≠ "uuid" := by decide
  have n2 : "locked" ≠ "template_uuid" := by decide
  have n3 : "uuid" ≠ "template_uuid" := by decide
  unfold stripMeta
  refine ⟨?_, ?_, unsetAt_dropIfSet_self _ _⟩
  · rw [unsetAt_dropIfSet_ne _ n2, unsetAt_dropIfSet_ne _ n1]
    exact unsetAt_dropIfSet_self _ _
  · rw [unsetAt_dropIfSet_ne _ n3]
    exact unsetAt_dropIfSet_self _ _

theorem stripMeta_of_unsetAt {m : OptMap} (h1 : unsetAt m "locked" = true)
    (h2 : unsetAt m "uuid" = true) (h3 : unsetAt m "template_uuid" = true) :
    stripMeta m = m := by
  unfold stripMeta
  rw [dropIfSet_of_unsetAt h1, dropIfSet_of_unsetAt h2, dropIfSet_of_unsetAt h3]

theorem stripMeta_idem (m : OptMap) : stripMeta (stripMeta m) = stripMeta m :=
  stripMeta_of_unsetAt (unsetAt_stripMeta m).1 (unsetAt_stripMeta m).2.1 (unsetAt_stripMeta m).2.2

theorem filter_dropIfSet_ne (m : OptMap) (k : String) (p : String × Value → Bool)
    (hp : ∀ e, e.1 = k → p e = false) : (dropIfSet m k).filter p = m.filter p := by
  unfold dropIfSet
  split
  · rfl
  · rfl
  · simp only [OptMap.delete, List.filter_filter]
    apply List.filter_congr
    intro e _
    by_cases h : e.1 = k
    · simp [hp e h]
    · simp [h]

/-- The entries under other keys than the three are left as they were, in their order. -/
theorem filter_stripMeta (m : OptMap) :
    (stripMeta m).filter (fun e => !metaKeys.contains e.1)
      = m.filter (fun e => !metaKeys.contains e.1) := by
  unfold stripMeta
  rw [filter_dropIfSet_ne, filter_dropIfSet_ne, filter_dropIfSet_ne]
  · intro e he; simp [metaKeys, he]
  · intro e he; simp [metaKeys, he]
  · intro e he; simp [metaKeys, he]

theorem get_dropIfSet_self (m : OptMap) (k : String) :
    OptMap.get (dropIfSet m k) k
      = (match OptMap.get m k with
        | some .null => some .null
        | _ => none) := by
  unfold dropIfSet
  cases hg : OptMap.get m k with
  | none => simp only [hg]
  | some v =>
    cases v with
    | null => simp only [hg]
    | _ => simp only [get_delete_self]

/-- Of the three entries, the call leaves those that are `nil` and deletes the others. -/
theorem get_stripMeta (m : OptMap) (k : String) (hk : k ∈ metaKeys) :
    OptMap.get (stripMeta m) k
      = (match OptMap.get m k with
        | some .null => some .null
        | _ => none) := by
  have n1 : "locked" ≠ "uuid" := by decide
  have n2 : "locked" ≠ "template_uuid" := by decide
  have n3 : "uuid" ≠ "template_uuid" := by decide
  simp only [metaKeys, List.mem_cons, List.mem_singleton, List.not_mem_nil, or_false] at hk
  unfold stripMeta
  rcases hk with rfl | rfl | rfl
  · rw [get_dropIfSet_ne _ n2, get_dropIfSet_ne _ n1, get_dropIfSet_self]
  · rw [get_dropIfSet_ne _ n3, get_dropIfSet_self, get_dropIfSet_ne _ n1.symm]
  · rw [get_dropIfSet_self, get_dropIfSet_ne _ n3.symm, get_dropIfSet_ne _ n2.symm]

/-- What a turn of the loop that returns has built, and the item it leaves. -/
theorem buildRuleBehavior_ok_inv {lib : Lib} {r : RulesBuilder} {item item' : RuleItem}
    {b : RuleBehavior} (h : buildRuleBehavior lib r item = .ok (b, item')) :
    item' = item.stripped ∧
    remapOptionValues r (mappedName lib r item.Name)
      (mapKeysToCamelCase lib r (stripMeta item.Item)) = .ok b.Options ∧
    b.Name = mappedName lib r item.Name := by
  cases h1 : wellTyped asBool item.Item "locked" with
  | false => rw [buildRuleBehavior_ill_typed lib r item (Or.inl h1)] at h; cases h
  | true =>
    cases h2 : wellTyped asString item.Item "uuid" with
    | false => rw [buildRuleBehavior_ill_typed lib r item (Or.inr (Or.inl h2))] at h; cases h
    | true =>
      cases h3 : wellTyped asString item.Item "template_uuid" with
      | false => rw [buildRuleBehavior_ill_typed lib r item (Or.inr (Or.inr h3))] at h; cases h
      | true =>
        rw [buildRuleBehavior_eq lib r item h1 h2 h3] at h
        cases hr : remapOptionValues r (mappedName lib r item.Name)
            (mapKeysToCamelCase lib r (stripMeta item.Item)) with
        | error p => rw [hr] at h; simp [Except.map] at h
        | ok options =>
          rw [hr] at h
          simp only [Except.map, Except.ok.injEq, Prod.mk.injEq] at h
          obtain ⟨rfl, rfl⟩ := h
          exact ⟨rfl, rfl, rfl⟩

/-- A second turn of the loop on the item the first one left: the same name and options,
and the defaults for the three values. -/
theorem buildRuleBehavior_again {lib : Lib} {r : RulesBuilder} {item item' : RuleItem}
    {b : RuleBehavior} (h : buildRuleBehavior lib r item = .ok (b, item')) :
    buildRuleBehavior lib r item' = .ok (b.withoutMeta, item') := by
  obtain ⟨rfl, hopt, hname⟩ := buildRuleBehavior_ok_inv h
  obtain ⟨u1, u2, u3⟩ := unsetAt_stripMeta item.Item
  rw [buildRuleBehavior_eq lib r item.stripped (wellTyped_of_unsetAt _ u1)
    (wellTyped_of_unsetAt _ u2) (wellTyped_of_unsetAt _ u3)]
  simp only [RuleItem.stripped, stripMeta_idem, readOrDefault_of_unsetAt _ _ u1,
    readOrDefault_of_unsetAt _ _ u2, readOrDefault_of_unsetAt _ _ u3, hopt, Except.map,
    RuleBehavior.withoutMeta, hname]

theorem buildRuleBehaviorsState_again {lib : Lib} {r : RulesBuilder}
    {items items' : List RuleItem} {bs : List RuleBehavior}
    (h : buildRuleBehaviorsState lib r items = .ok (bs, items')) :
    items' = items.map RuleItem.stripped ∧
    buildRuleBehaviorsState lib r items' = .ok (bs.map RuleBehavior.withoutMeta, items') := by
  induction items generalizing bs items' with
  | nil =>
    simp only [buildRuleBehaviorsState, Except.ok.injEq, Prod.mk.injEq] at h
    obtain ⟨rfl, rfl⟩ := h
    exact ⟨rfl, rfl⟩
  | cons item rest ih =>
    simp only [buildRuleBehaviorsState, bind_eq_ok, unwind_eq_ok] at h
    obtain ⟨⟨b, item'⟩, hb, ⟨bs', rest'⟩, hrest, h⟩ := h
    simp only [pure, Except.pure, Except.ok.injEq, Prod.mk.injEq] at h
    obtain ⟨rfl, rfl⟩ := h
    obtain ⟨h1, h2⟩ := ih hrest
    refine ⟨?_, ?_⟩
    · rw [List.map_cons, ← h1, (buildRuleBehavior_ok_inv hb).1]
    · simp only [buildRuleBehaviorsState, buildRuleBehavior_again hb, MayPanic.unwind, ok_bind,
        h2, List.map_cons]
      rfl

/-- One item without options: the behavior built and the item left. -/
theorem buildRuleBehaviorsState_no_options (lib : Lib) (r : RulesBuilder) (item : RuleItem)
    (h1 : wellTyped asBool item.Item "locked" = true)
    (h2 : wellTyped asString item.Item "uuid" = true)
    (h3 : wellTyped asString item.Item "template_uuid" = true)
    (hm : mapKeysToCamelCase lib r (stripMeta item.Item) = []) :
    buildRuleBehaviorsState lib r [item] =
      .ok ([{ Name := mappedName lib r item.Name
              Locked := readOrDefault asBool item.Item "locked" false
              UUID := readOrDefault asString item.Item "uuid" ""
              TemplateUuid := readOrDefault asString item.Item "template_uuid" ""
              Options := [] }], [item.stripped]) := by
  have hr : remapOptionValues r (mappedName lib r item.Name) [] = .ok [] := by
    unfold remapOptionValues
    rw [remapLoop_nil]
  have hb := buildRuleBehavior_eq lib r item h1 h2 h3
  rw [hm, hr] at hb
  simp only [buildRuleBehaviorsState, hb, Except.map, MayPanic.unwind, ok_bind]
  rfl

/-- C15 (as amended): when `buildRuleBehaviors` returns, each item's map holds the entries it
held before the call except its `locked`, `uuid` and `template_uuid` entries that were not
`nil`, which are deleted: the entries under other keys are unchanged, and of the three a `nil`
entry stays and any other is gone. Building a second time from the items as they were left
returns the same names and options, with `Locked` false and `UUID` and `TemplateUuid`
empty. -/
theorem buildRuleBehaviors_deletes_metadata (lib : Lib) (r : RulesBuilder)
    (items items' : List RuleItem) (bs : List RuleBehavior)
    (h : buildRuleBehaviorsState lib r items = .ok (bs, items')) :
    buildRuleBehaviors lib r items = .ok bs ∧
    items' = items.map (fun item => { item with Item := stripMeta item.Item }) ∧
    (∀ item ∈ items,
      (stripMeta item.Item).filter (fun e => !metaKeys.contains e.1)
        = item.Item.filter (fun e => !metaKeys.contains e.1) ∧
      ∀ k ∈ metaKeys, OptMap.get (stripMeta item.Item) k
        = (match OptMap.get item.Item k with
          | some .null => some .null
          | _ => none)) ∧
    buildRuleBehaviors lib r items'
      = .ok (bs.map (fun b => { b with Locked := false, UUID := "", TemplateUuid := "" })) := by
  obtain ⟨h1, h2⟩ := buildRuleBehaviorsState_again h
  refine ⟨buildRuleBehaviors_eq_ok.mpr ⟨items', h⟩, h1, ?_, buildRuleBehaviors_eq_ok.mpr ⟨items', h2⟩⟩
  intro item _
  exact ⟨filter_stripMeta item.Item, get_stripMeta item.Item⟩

/-- C15 (witness): after the call on `metaOnlyItem` the item holds its `nil` entry only, and
a second call builds the behavior without `locked` and `uuid`. -/
theorem buildRuleBehaviors_deletes_metadata_witness :
    buildRuleBehaviorsState plainLib (plainBuilder (bareReader "default")) [metaOnlyItem]
      = .ok ([builtMetaOnly], [{ Name := "gzip", Item := [("template_uuid", .null)] }]) ∧
    buildRuleBehaviors plainLib (plainBuilder (bareReader "default"))
        [{ Name := "gzip", Item := [("template_uuid", .null)] }]
      = .ok [{ Name := "gzip", Locked := false, UUID := "", TemplateUuid := "", Options := [] }] :=
  have h := buildRuleBehaviorsState_no_options plainLib (plainBuilder (bareReader "default"))
    metaOnlyItem rfl rfl rfl rfl
  ⟨h, (buildRuleBehaviors_deletes_metadata plainLib (plainBuilder (bareReader "default"))
    [metaOnlyItem] _ _ h).2.2.2⟩

/-- C15 (counterexample): the call on an item holding `locked = true` leaves the item's map
empty, and a second call on the item as left builds a behavior that is not locked. -/
theorem buildRuleBehaviors_deletes_metadata_counterexample :
    lockedOnlyItem.Item = [("locked", .bool true)] ∧
    buildRuleBehaviorsState plainLib (plainBuilder (bareReader "default")) [lockedOnlyItem]
      = .ok ([{ Name := "gzip", Locked := true, UUID := "", TemplateUuid := "", Options := [] }],
          [{ Name := "gzip", Item := [] }]) ∧
    buildRuleBehaviorsState plainLib (plainBuilder (bareReader "default"))
        [{ Name := "gzip", Item := [] }]
      = .ok ([{ Name := "gzip", Locked := false, UUID := "", TemplateUuid := "", Options := [] }],
          [{ Name := "gzip", Item := [] }]) :=
  ⟨rfl,
   buildRuleBehaviorsState_no_options plainLib (plainBuilder (bareReader "default"))
     lockedOnlyItem rfl rfl rfl rfl,
   buildRuleBehaviorsState_no_options plainLib (plainBuilder (bareReader "default"))
     { Name := "gzip", Item := [] } rfl rfl rfl rfl⟩

/-! ## The plan of the GTM resources -/

namespace Gtm

theorem sortedField_eq_iff {a b : List String} : sortedField a = sortedField b ↔ a.Perm b := by
  unfold sortedField
  constructor
  · intro h
    have h1 := List.perm_insertionSort (fun x y : String => x ≤ y) a
    rw [h] at h1
    exact h1.symm.trans (List.perm_insertionSort _ b)
  · intro h
    exact List.eq_of_perm_of_sorted
      (((List.perm_insertionSort _ a).trans h).trans (List.perm_insertionSort _ b).symm)
      (List.sorted_insertionSort _ a) (List.sorted_insertionSort _ b)

theorem normalBlock_eq_iff [LinearOrder κ] {a b : Block κ} :
    normalBlock a = normalBlock b ↔ a.1 = b.1 ∧ a.2.Perm b.2 := by
  unfold normalBlock
  rw [toLex_inj, Prod.mk.injEq, sortedField_eq_iff]

theorem map_normalBlock_of_forall₂ [LinearOrder κ] {l st : List (Block κ)}
    (h : List.Forall₂ (fun a b => a.1 = b.1 ∧ a.2.Perm b.2) l st) :
    l.map normalBlock = st.map normalBlock := by
  induction h with
  | nil => rfl
  | cons hab _ ih => rw [List.map_cons, List.map_cons, normalBlock_eq_iff.mpr hab, ih]

/-- Two lists of blocks have the same compared form exactly when they differ only by the
order of the blocks and of the lists inside them. -/
theorem normalBlocks_eq_iff [LinearOrder κ] {config state : List (Block κ)} :
    normalBlocks config = normalBlocks state ↔ Reordered config state := by
  unfold normalBlocks Reordered
  constructor
  · intro h
    have hperm : (config.map normalBlock).Perm (state.map normalBlock) := by
      have h1 := List.perm_insertionSort (fun x y : κ ×ₗ List String => x ≤ y)
        (config.map normalBlock)
      rw [h] at h1
      exact h1.symm.trans (List.perm_insertionSort _ _)
    have h1 : List.Forall₂ (fun (a : Block κ) x => normalBlock a = x) config
        (config.map normalBlock) := by
      rw [List.forall₂_map_right_iff]
      exact List.forall₂_same.mpr (fun _ _ => rfl)
    have h2 : Relation.Comp (List.Forall₂ (fun (a : Block κ) x => normalBlock a = x)) List.Perm
        config (state.map normalBlock) := ⟨_, h1, hperm⟩
    rw [List.forall₂_comp_perm_eq_perm_comp_forall₂] at h2
    obtain ⟨l, hl, hf⟩ := h2
    refine ⟨l, hl, ?_⟩
    rw [List.forall₂_map_right_iff] at hf
    exact hf.imp (fun _ _ hab => normalBlock_eq_iff.mp hab)
  · rintro ⟨l, hl, hf⟩
    have hperm : (config.map normalBlock).Perm (state.map normalBlock) := by
      rw [← map_normalBlock_of_forall₂ hf]
      exact hl.map _
    exact List.eq_of_perm_of_sorted
      (((List.perm_insertionSort _ _).trans hperm).trans (List.perm_insertionSort _ _).symm)
      (List.sorted_insertionSort _ _) (List.sorted_insertionSort _ _)

theorem append_ite_eq_nil {p : Prop} [Decidable p] {l : List String} {s : String} :
    l ++ (if p then [] else [s]) = [] ↔ l = [] ∧ p := by
  by_cases hp : p <;> simp [hp]

theorem ite_eq_nil {p : Prop} [Decidable p] {s : String} :
    (if p then [] else [s]) = ([] : List String) ↔ p := by
  by_cases hp : p <;> simp [hp]

/-- C16: for the geomap resource and for the resource resource, a configuration that differs
from the state only by the order of the blocks of the list-valued field (`assignment`,
`resource_instance`) and by the order of the list inside each block (`countries`,
`load_servers`) has an empty plan; and a configuration with an empty plan differs from the
state in nothing else. -/
theorem reorder_gives_empty_plan :
    (∀ state config : GeoMapConfig,
      config.Domain = state.Domain → config.Name = state.Name →
      config.WaitOnComplete = state.WaitOnComplete →
      Reordered (config.Assignments.map GeoAssignment.block)
        (state.Assignments.map GeoAssignment.block) →
      planGeoMap state config = []) ∧
    (∀ state config : ResourceConfig,
      config.Domain = state.Domain → config.Name = state.Name →
      config.AggregationType = state.AggregationType → config.ResourceType = state.ResourceType →
      Reordered (config.ResourceInstances.map ResourceInstance.block)
        (state.ResourceInstances.map ResourceInstance.block) →
      planResource state config = []) ∧
    (∀ state config : GeoMapConfig, planGeoMap state config = [] →
      config.Domain = state.Domain ∧ config.Name = state.Name ∧
      config.WaitOnComplete = state.WaitOnComplete ∧
      Reordered (config.Assignments.map GeoAssignment.block)
        (state.Assignments.map GeoAssignment.block)) ∧
    (∀ state config : ResourceConfig, planResource state config = [] →
      config.Domain = state.Domain ∧ config.Name = state.Name ∧
      config.AggregationType = state.AggregationType ∧ config.ResourceType = state.ResourceType ∧
      Reordered (config.ResourceInstances.map ResourceInstance.block)
        (state.ResourceInstances.map ResourceInstance.block)) := by
  refine ⟨?_, ?_, ?_, ?_⟩
  · intro state config h1 h2 h3 h4
    simp only [planGeoMap, append_ite_eq_nil, ite_eq_nil]
    exact ⟨⟨⟨h1, h2⟩, h3⟩, normalBlocks_eq_iff.mpr h4⟩
  · intro state config h1 h2 h3 h4 h5
    simp only [planResource, append_ite_eq_nil, ite_eq_nil]
    exact ⟨⟨⟨⟨h1, h2⟩, h3⟩, h4⟩, normalBlocks_eq_iff.mpr h5⟩
  · intro state config h
    simp only [planGeoMap, append_ite_eq_nil, ite_eq_nil] at h
    exact ⟨h.1.1.1, h.1.1.2, h.1.2, normalBlocks_eq_iff.mp h.2⟩
  · intro state config h
    simp only [planResource, append_ite_eq_nil, ite_eq_nil] at h
    exact ⟨h.1.1.1.1, h.1.1.1.2, h.1.1.2, h.1.2, normalBlocks_eq_iff.mp h.2⟩

/-- C16 (witness): the geomap and the resource of the order tests, with their blocks and the
lists inside them reordered, have an empty plan. -/
theorem reorder_gives_empty_plan_witness :
    planGeoMap diffOrderGeoMap diffOrderGeoMapReordered = [] ∧
    planResource resourceForOrderTests resourceReordered = [] :=
  ⟨reorder_gives_empty_plan.1 diffOrderGeoMap diffOrderGeoMapReordered rfl rfl rfl
      ⟨[(toLex (3131, "tfexample_dc_1"), ["GB", "PL", "US", "FR"]),
        (toLex (3132, "tfexample_dc_2"), ["GB", "AU"]),
        (toLex (3133, "tfexample_dc_3"), ["GB", "BG", "CN", "MC", "TR"])],
        List.Perm.swap _ _ _,
        List.Forall₂.cons ⟨rfl, by decide⟩ (List.Forall₂.cons ⟨rfl, by decide⟩
          (List.Forall₂.cons ⟨rfl, by decide⟩ List.Forall₂.nil))⟩,
   reorder_gives_empty_plan.2.1 resourceForOrderTests resourceReordered rfl rfl rfl rfl
      ⟨[(toLex (3131, toLex (false, toLex ("/test1", 80))), ["1.2.3.6", "1.2.3.4", "1.2.3.5"]),
        (toLex (3132, toLex (false, toLex ("/test2", 80))),
          ["1.2.3.10", "1.2.3.9", "1.2.3.8", "1.2.3.7"])],
        List.Perm.swap _ _ _,
        List.Forall₂.cons ⟨rfl, by decide⟩ (List.Forall₂.cons ⟨rfl, by decide⟩
          List.Forall₂.nil)⟩⟩

end Gtm

/-! ## The check on the variables -/

/-- When `Build` returns the role error for `variable`, `ruleVariables` has returned a list
that is not empty. -/
theorem Build_variable_error {lib : Lib} {r : RulesBuilder} {s : Sentinel}
    (h : Build lib r = .error (.err (.role s "variable"))) :
    ∃ vs, ruleVariables r = .ok vs ∧ vs ≠ [] := by
  unfold Build at h
  simp only [bind_eq_error, forbid_eq_error, unlessNotFound_eq_error, failOn_eq_error,
    unlessTfNotFound_eq_error, forbid_eq_ok, unlessNotFound_eq_ok, failOn_eq_ok,
    unlessTfNotFound_eq_ok, ruleVariables_ne_role, ruleCriteria_ne_err, ruleBehaviors_ne_err,
    Failure.err.injEq, reduceCtorEq, and_false, exists_false, false_or, or_false,
    BuildError.role.injEq, exists_const, false_and, Bool.and_eq_true, bne_iff_ne, ne_eq,
    beq_iff_eq, decide_eq_true_eq] at h
  rcases h with ⟨_, vs, hv, ⟨hc, hs, hf⟩ | ⟨_, ⟨hc, hs, hf⟩ | ⟨_, _, ⟨hc, hs, hf⟩ |
    ⟨_, _, ⟨hc, hs, hf⟩ | ⟨_, _, _, ⟨hc, hs, hf⟩ | ⟨_, _, ⟨hc, hs, hf⟩ |
    ⟨_, _, _, _, _, c, hcr, ⟨hc, hs, hf⟩ | ⟨_, _, b, _, _, ⟨be, hbe, _, hrole⟩ | ⟨_, hpure⟩⟩⟩⟩⟩⟩⟩⟩⟩
  · refine ⟨vs, hv, ?_⟩
    intro hnil
    rw [hnil] at hc
    simp at hc
  · exact absurd hf (by decide)
  · exact absurd hf (by decide)
  · exact absurd hf (by decide)
  · exact absurd hf (by decide)
  · exact absurd hf (by decide)
  · exact absurd hf (by decide)
  · rw [← hrole] at hbe
    exact (ruleChildren_ne_role.mp hbe).elim
  · cases hpure

/-- C20 (as amended): for a rule whose name is read and is not "default", `Build` returns the
error `ErrOnlyForDefault: variable` exactly when the variables list is read from the
configuration without error, is not empty, and each of its variables converts, that is, when
`ruleVariables` returns a list that is not empty; a list that is absent, or present and
empty, never causes this error. -/
theorem variable_error_iff (lib : Lib) (r : RulesBuilder) (n : String)
    (hname : ruleName r = (n, none)) (hn : n ≠ "default") :
    (Build lib r = .error (.err (.role .ErrOnlyForDefault "variable")) ↔
      r.schemaReader.variablesList.2 = none ∧ r.schemaReader.variablesList.1 ≠ [] ∧
      ∃ vs, convertVariables r.schemaReader.variablesList.1 = .ok vs) ∧
    (Build lib r = .error (.err (.role .ErrOnlyForDefault "variable")) ↔
      ∃ vs, ruleVariables r = .ok vs ∧ vs ≠ []) ∧
    (r.schemaReader.variablesList.absent = true →
      Build lib r ≠ .error (.err (.role .ErrOnlyForDefault "variable"))) ∧
    (r.schemaReader.variablesList.2 = none → r.schemaReader.variablesList.1 = [] →
      Build lib r ≠ .error (.err (.role .ErrOnlyForDefault "variable"))) := by
  have hn1 : (ruleName r).1 = n := by rw [hname]
  have hn2 : (ruleName r).2 = none := by rw [hname]
  have hne : (n != defaultRule) = true := by simpa [defaultRule] using hn
  have hback : ∀ vs, ruleVariables r = .ok vs → vs ≠ [] →
      Build lib r = .error (.err (.role .ErrOnlyForDefault "variable")) := by
    intro vs hv hnil
    have hlen : decide (vs.length > 0) = true := by
      simpa [List.length_pos] using hnil
    unfold Build
    simp only [hn1, hn2, hv, failOn, ok_bind, hne, Bool.true_and, hlen, forbid_true, error_bind]
  have hraw : ∀ vs, ruleVariables r = .ok vs → vs ≠ [] →
      r.schemaReader.variablesList.2 = none ∧ r.schemaReader.variablesList.1 ≠ [] ∧
      ∃ vs, convertVariables r.schemaReader.variablesList.1 = .ok vs := by
    intro vs hv hnil
    rcases ruleVariables_ok hv with ⟨_, h0⟩ | ⟨hnone, hlen⟩
    · exact (hnil h0).elim
    · refine ⟨hnone, ?_, vs, ?_⟩
      · intro h0
        rw [h0] at hlen
        exact hnil (List.length_eq_zero.mp hlen)
      · unfold ruleVariables at hv
        split at hv
        · rename_i he; rw [he] at hnone; cases hnone
        · rename_i l he
          rw [he]
          exact unwind_eq_ok.mp hv
  refine ⟨⟨?_, ?_⟩, ⟨Build_variable_error, fun ⟨vs, hv, hnil⟩ => hback vs hv hnil⟩, ?_, ?_⟩
  · intro h
    obtain ⟨vs, hv, hnil⟩ := Build_variable_error h
    exact hraw vs hv hnil
  · rintro ⟨hnone, hnil, vs, hvs⟩
    have hv : ruleVariables r = .ok vs := by
      unfold ruleVariables
      split
      · rename_i he; rw [he] at hnone; cases hnone
      · rename_i l he
        rw [he] at hvs
        rw [hvs]
        rfl
    refine hback vs hv ?_
    intro h0
    have hlen := convertVariables_length hvs
    rw [h0] at hlen
    exact hnil (List.length_eq_zero.mp hlen.symm)
  · intro habs h
    obtain ⟨vs, hv, hnil⟩ := Build_variable_error h
    have h2 := (hraw vs hv hnil).1
    simp only [Got.absent, h2] at habs
    cases habs
  · intro _ h0 h
    obtain ⟨vs, hv, hnil⟩ := Build_variable_error h
    exact (hraw vs hv hnil).2.1 h0

/-- C20 (witness): the rule "caching" is refused for its variable, and is not when its
variables list is absent or empty. -/
theorem variable_error_iff_witness :
    Build plainLib childWithVariable = .error (.err (.role .ErrOnlyForDefault "variable")) ∧
    Build plainLib (plainBuilder (bareReader "caching"))
      ≠ .error (.err (.role .ErrOnlyForDefault "variable")) ∧
    Build plainLib childWithNoVariables
      ≠ .error (.err (.role .ErrOnlyForDefault "variable")) :=
  ⟨(variable_error_iff plainLib childWithVariable "caching" rfl (by decide)).1.mpr
      ⟨rfl, by simp [childWithVariable, plainBuilder], _, rfl⟩,
   (variable_error_iff plainLib (plainBuilder (bareReader "caching")) "caching" rfl
      (by decide)).2.2.1 rfl,
   (variable_error_iff plainLib childWithNoVariables "caching" rfl (by decide)).2.2.2 rfl rfl⟩

/-- C20 (counterexample): for the rule "caching" whose variables list holds one variable
without a `name` entry, the list read is not empty and `Build` does not return the error for
`variable`: it panics on the type assertion. -/
theorem variable_error_iff_counterexample :
    ruleName childWithBadVariable = ("caching", none) ∧
    childWithBadVariable.schemaReader.variablesList = ([[("value", .str "1")]], none) ∧
    Build plainLib childWithBadVariable = .error (.panic .typeAssertion) :=
  ⟨rfl, rfl, rfl⟩

/-! ## The order of the role checks -/

/-- A role error returned by `Build` is the error of the first role constraint violated. -/
theorem Build_role_error_first {lib : Lib} {r : RulesBuilder} {s : Sentinel} {f : String}
    (h : Build lib r = .error (.err (.role s f))) :
    (firstViolation r).map (fun c => (c.field, c.sentinel)) = some (f, s) := by
  unfold Build at h
  simp only [bind_eq_error, forbid_eq_error, unlessNotFound_eq_error, failOn_eq_error,
    unlessTfNotFound_eq_error, forbid_eq_ok, unlessNotFound_eq_ok, failOn_eq_ok,
    unlessTfNotFound_eq_ok, ruleVariables_ne_role, ruleCriteria_ne_err, ruleBehaviors_ne_err,
    Failure.err.injEq, reduceCtorEq, and_false, exists_false, false_or, or_false,
    BuildError.role.injEq, exists_const, false_and, Bool.and_eq_true, bne_iff_ne, ne_eq,
    beq_iff_eq, decide_eq_true_eq] at h
  obtain ⟨_, vs, hv, h⟩ := h
  have hvar : (r.schemaReader.variablesList.2.isNone && !r.schemaReader.variablesList.1.isEmpty)
      = decide (vs.length > 0) := by
    rcases ruleVariables_ok hv with ⟨ha, hnil⟩ | ⟨hnone, hlen⟩
    · simp only [Got.absent] at ha
      split at ha
      · rename_i e he; rw [he, hnil]; rfl
      · cases ha
    · rw [hnone, hlen]
      cases r.schemaReader.variablesList.1 <;> simp
  rcases h with ⟨hc, hs, hf⟩ | ⟨h1, ⟨hc, hs, hf⟩ | ⟨h2, _, ⟨hc, hs, hf⟩ |
    ⟨h3, _, ⟨hc, hs, hf⟩ | ⟨h4, _, _, ⟨hc, hs, hf⟩ | ⟨h5, _, ⟨hc, hs, hf⟩ |
    ⟨h6, _, _, _, _, c, hcr, ⟨hc, hs, hf⟩ | ⟨_, _, b, _, _, ⟨be, hbe, _, hrole⟩ | ⟨_, hpure⟩⟩⟩⟩⟩⟩⟩⟩
  · have hne : ((ruleName r).1 != defaultRule) = true := by simpa using hc.1
    have hlen : decide (vs.length > 0) = true := by simpa using hc.2
    simp [firstViolation, roleChecks, List.find?, violated, hvar, hlen, hne, hs, hf]
  · have hne : ((ruleName r).1 != defaultRule) = false := by simpa using hc.1
    have heq : ((ruleName r).1 == defaultRule) = true := by simpa using hc.1
    simp [firstViolation, roleChecks, List.find?, violated, hne, heq, hs, hf, hc.2]
  · have hne : ((ruleName r).1 != defaultRule) = true := by simpa using hc.1
    have heq : ((ruleName r).1 == defaultRule) = false := by simpa using hc.1
    simp only [hne, heq, Bool.true_and, Bool.false_and] at h1 h2
    simp [firstViolation, roleChecks, List.find?, violated, hvar, hne, heq, hs, hf, hc.2, h1]
  · have hne : ((ruleName r).1 != defaultRule) = true := by simpa using hc.1
    have heq : ((ruleName r).1 == defaultRule) = false := by simpa using hc.1
    simp only [hne, heq, Bool.true_and, Bool.false_and] at h1 h2 h3
    simp [firstViolation, roleChecks, List.find?, violated, hvar, hne, heq, hs, hf, hc.2, h1, h3]
  · have hne : ((ruleName r).1 != defaultRule) = false := by simpa using hc.1
    have heq : ((ruleName r).1 == defaultRule) = true := by simpa using hc.1
    simp only [hne, heq, Bool.true_and, Bool.false_and] at h1 h2 h3 h4
    simp [firstViolation, roleChecks, List.find?, violated, hne, heq, hs, hf, hc.2, h2]
  · have hne : ((ruleName r).1 != defaultRule) = true := by simpa using hc.1
    have heq : ((ruleName r).1 == defaultRule) = false := by simpa using hc.1
    simp only [hne, heq, Bool.true_and, Bool.false_and] at h1 h2 h3 h4 h5
    simp [firstViolation, roleChecks, List.find?, violated, hvar, hne, heq, hs, hf, hc.2, h1, h3,
      h4]
  · have hne : ((ruleName r).1 != defaultRule) = false := by simpa using hc.1
    have heq : ((ruleName r).1 == defaultRule) = true := by simpa using hc.1
    simp only [hne, heq, Bool.true_and, Bool.false_and] at h1 h2 h3 h4 h5 h6
    have hcs := ruleCriteria_snd hcr
    rw [hcs] at hc
    simp [firstViolation, roleChecks, List.find?, violated, hne, heq, hs, hf, hc.2, h2, h5]
  · rw [← hrole] at hbe
    exact (ruleChildren_ne_role.mp hbe).elim
  · cases hpure

/-- The first role constraint violated is the one `Build` reports, when the name is read, the
variables are converted, no getter tested before the check fails with an error other than
not-found and, for `criterion`, the criteria are built. -/
theorem Build_reports_first {lib : Lib} {r : RulesBuilder} {c : RoleCheck}
    (hfirst : firstViolation r = some c) (hname : (ruleName r).2 = none)
    (hvars : ∃ vs, ruleVariables r = .ok vs) (hsoft : ∀ e ∈ c.before, notHard e = true)
    (hcrit : c.field = "criterion" → ∃ cr, ruleCriteria lib r = .ok cr) :
    Build lib r = .error (.err (.role c.sentinel c.field)) := by
  obtain ⟨vs, hv⟩ := hvars
  have hvar : (r.schemaReader.variablesList.2.isNone && !r.schemaReader.variablesList.1.isEmpty)
      = decide (vs.length > 0) := by
    rcases ruleVariables_ok hv with ⟨ha, hnil⟩ | ⟨hnone, hlen⟩
    · simp only [Got.absent] at ha
      split at ha
      · rename_i e he; rw [he, hnil]; rfl
      · cases ha
    · rw [hnone, hlen]
      cases r.schemaReader.variablesList.1 <;> simp
  simp only [firstViolation, roleChecks, List.find?, violated, hvar] at hfirst
  cases heq : (ruleName r).1 == defaultRule
  · have hne : ((ruleName r).1 != defaultRule) = true := by simp [bne, heq]
    simp only [heq, hne, Bool.and_true, Bool.and_false] at hfirst
    cases h1 : decide (vs.length > 0)
    · simp only [h1] at hfirst
      cases h2 : (ruleIsSecure r).2.isNone
      · simp only [h2] at hfirst
        cases h3 : (ruleAdvancedOverride r).2.isNone
        · simp only [h3] at hfirst
          cases h4 : (ruleCustomOverride r).2.isNone
          · simp only [h4] at hfirst
            cases hfirst
          · simp only [h4, Option.some.injEq] at hfirst
            subst hfirst
            have s1 := hsoft (ruleCriteriaMustSatisfy r).2 (by simp)
            have s2 := hsoft (ruleIsSecure r).2 (by simp)
            have s3 := hsoft (ruleAdvancedOverride r).2 (by simp)
            have s4 := hsoft (ruleComments r).2 (by simp)
            have s5 := hsoft (ruleCriteriaLocked r).2 (by simp)
            unfold Build
            simp only [hname, hv, failOn, ok_bind, hne, heq, Bool.false_and, Bool.true_and,
              forbid_false, h1, h2, h3, h4, forbid_true, error_bind,
              unlessNotFound_of_notHard s1, unlessNotFound_of_notHard s2,
              unlessNotFound_of_notHard s3, unlessNotFound_of_notHard s4,
              unlessNotFound_of_notHard s5]
        · simp only [h3, Option.some.injEq] at hfirst
          subst hfirst
          have s1 := hsoft (ruleCriteriaMustSatisfy r).2 (by simp)
          have s2 := hsoft (ruleIsSecure r).2 (by simp)
          unfold Build
          simp only [hname, hv, failOn, ok_bind, hne, heq, Bool.false_and, Bool.true_and,
            forbid_false, h1, h2, h3, forbid_true, error_bind,
            unlessNotFound_of_notHard s1, unlessNotFound_of_notHard s2]
      · simp only [h2, Option.some.injEq] at hfirst
        subst hfirst
        have s1 := hsoft (ruleCriteriaMustSatisfy r).2 (by simp)
        unfold Build
        simp only [hname, hv, failOn, ok_bind, hne, heq, Bool.false_and, Bool.true_and,
          forbid_false, h1, h2, forbid_true, error_bind, unlessNotFound_of_notHard s1]
    · simp only [h1, Option.some.injEq] at hfirst
      subst hfirst
      unfold Build
      simp only [hname, hv, failOn, ok_bind, hne, Bool.true_and, h1, forbid_true, error_bind]
  · have hne : ((ruleName r).1 != defaultRule) = false := by simp [bne, heq]
    simp only [heq, hne, Bool.and_true, Bool.and_false] at hfirst
    cases h1 : (ruleCriteriaMustSatisfy r).2.isNone
    · simp only [h1] at hfirst
      cases h2 : (ruleCriteriaLocked r).2.isNone
      · simp only [h2] at hfirst
        cases h3 : r.schemaReader.criteriaList.2.isNone
        · simp only [h3] at hfirst
          cases hfirst
        · simp only [h3, Option.some.injEq] at hfirst
          subst hfirst
          obtain ⟨cr, hcr⟩ := hcrit rfl
          have hcs := ruleCriteria_snd hcr
          have s1 := hsoft (ruleCriteriaMustSatisfy r).2 (by simp)
          have s2 := hsoft (ruleIsSecure r).2 (by simp)
          have s3 := hsoft (ruleAdvancedOverride r).2 (by simp)
          have s4 := hsoft (ruleComments r).2 (by simp)
          have s5 := hsoft (ruleCriteriaLocked r).2 (by simp)
          have s6 := hsoft (ruleCustomOverride r).2 (by simp)
          have s7 := hsoft (ruleUUID r).2 (by simp)
          have s8 := hsoft (ruleTemplateUUID r).2 (by simp)
          have s9 := hsoft (ruleTemplateLink r).2 (by simp)
          have h3' : cr.2.isNone = true := by rw [hcs]; exact h3
          unfold Build
          simp only [hname, hv, hcr, failOn, ok_bind, hne, heq, Bool.false_and, Bool.true_and,
            forbid_false, h1, h2, h3', forbid_true, error_bind,
            unlessNotFound_of_notHard s1, unlessNotFound_of_notHard s2,
            unlessNotFound_of_notHard s3, unlessNotFound_of_notHard s4,
            unlessNotFound_of_notHard s5, unlessNotFound_of_notHard s6,
            unlessNotFound_of_notHard s7, unlessNotFound_of_notHard s8,
            unlessNotFound_of_notHard s9]
      · simp only [h2, Option.some.injEq] at hfirst
        subst hfirst
        have s1 := hsoft (ruleCriteriaMustSatisfy r).2 (by simp)
        have s2 := hsoft (ruleIsSecure r).2 (by simp)
        have s3 := hsoft (ruleAdvancedOverride r).2 (by simp)
        have s4 := hsoft (ruleComments r).2 (by simp)
        unfold Build
        simp only [hname, hv, failOn, ok_bind, hne, heq, Bool.false_and, Bool.true_and,
          forbid_false, h1, h2, forbid_true, error_bind,
          unlessNotFound_of_notHard s1, unlessNotFound_of_notHard s2,
          unlessNotFound_of_notHard s3, unlessNotFound_of_notHard s4]
    · simp only [h1, Option.some.injEq] at hfirst
      subst hfirst
      unfold Build
      simp only [hname, hv, failOn, ok_bind, hne, heq, Bool.false_and, Bool.true_and,
        forbid_false, h1, forbid_true, error_bind]

/-! ## `Build` up to a role check -/

/-- A non-default rule with `is_secure` present: `Build` goes as far as the check on
`is_secure`, whatever the value read. -/
theorem Build_at_is_secure (lib : Lib) (r : RulesBuilder) {n : String}
    (hname : ruleName r = (n, none)) (hn : n ≠ "default")
    (hs : (ruleIsSecure r).2 = none) :
    Build lib r = (do
      let vars ← ruleVariables r
      forbid (decide (vars.length > 0)) .ErrOnlyForDefault "variable"
      unlessNotFound (ruleCriteriaMustSatisfy r).2
      .error (.err (.role .ErrOnlyForDefault "is_secure"))) := by
  have hn1 : (ruleName r).1 = n := by rw [hname]
  have hn2 : (ruleName r).2 = none := by rw [hname]
  have hne : (n != defaultRule) = true := by simpa [defaultRule] using hn
  have heq : (n == defaultRule) = false := by simpa [defaultRule] using hn
  unfold Build
  simp only [hn1, hn2, failOn, ok_bind, hne, heq, Bool.false_and, Bool.true_and, forbid_false,
    hs, Option.isNone_none, forbid_true, error_bind]

/-- A non-default rule with `advanced_override` present: `Build` goes as far as the check on
`advanced_override`, whatever the value read. -/
theorem Build_at_advanced_override (lib : Lib) (r : RulesBuilder) {n : String}
    (hname : ruleName r = (n, none)) (hn : n ≠ "default")
    (hs : (ruleAdvancedOverride r).2 = none) :
    Build lib r = (do
      let vars ← ruleVariables r
      forbid (decide (vars.length > 0)) .ErrOnlyForDefault "variable"
      unlessNotFound (ruleCriteriaMustSatisfy r).2
      forbid (ruleIsSecure r).2.isNone .ErrOnlyForDefault "is_secure"
      unlessNotFound (ruleIsSecure r).2
      .error (.err (.role .ErrOnlyForDefault "advanced_override"))) := by
  have hn1 : (ruleName r).1 = n := by rw [hname]
  have hn2 : (ruleName r).2 = none := by rw [hname]
  have hne : (n != defaultRule) = true := by simpa [defaultRule] using hn
  have heq : (n == defaultRule) = false := by simpa [defaultRule] using hn
  unfold Build
  simp only [hn1, hn2, failOn, ok_bind, hne, heq, Bool.false_and, Bool.true_and, forbid_false,
    hs, Option.isNone_none, forbid_true, error_bind]

/-- The default rule with `criteria_must_satisfy` present: `Build` goes as far as the check
on `criteria_must_satisfy`, whatever the value read. -/
theorem Build_at_criteria_must_satisfy (lib : Lib) (r : RulesBuilder)
    (hname : ruleName r = ("default", none)) (hs : (ruleCriteriaMustSatisfy r).2 = none) :
    Build lib r = (do
      let _ ← ruleVariables r
      .error (.err (.role .ErrNotForDefault "criteria_must_satisfy"))) := by
  have hn1 : (ruleName r).1 = defaultRule := by rw [hname]; rfl
  have hn2 : (ruleName r).2 = none := by rw [hname]
  unfold Build
  simp only [hn1, hn2, failOn, ok_bind, bne_self_eq_false, beq_self_eq_true, Bool.false_and,
    Bool.true_and, forbid_false, hs, Option.isNone_none, forbid_true, error_bind]

/-- The default rule with `criteria_locked` present: `Build` goes as far as the check on
`criteria_locked`, whatever the value read. -/
theorem Build_at_criteria_locked (lib : Lib) (r : RulesBuilder)
    (hname : ruleName r = ("default", none)) (hs : (ruleCriteriaLocked r).2 = none) :
    Build lib r = (do
      let _ ← ruleVariables r
      forbid (ruleCriteriaMustSatisfy r).2.isNone .ErrNotForDefault "criteria_must_satisfy"
      unlessNotFound (ruleCriteriaMustSatisfy r).2
      unlessNotFound (ruleIsSecure r).2
      unlessNotFound (ruleAdvancedOverride r).2
      unlessNotFound (ruleComments r).2
      .error (.err (.role .ErrNotForDefault "criteria_locked"))) := by
  have hn1 : (ruleName r).1 = defaultRule := by rw [hname]; rfl
  have hn2 : (ruleName r).2 = none := by rw [hname]
  unfold Build
  simp only [hn1, hn2, failOn, ok_bind, bne_self_eq_false, beq_self_eq_true, Bool.false_and,
    Bool.true_and, forbid_false, hs, Option.isNone_none, forbid_true, error_bind]

/-- A role error is returned for a field that is present. -/
theorem present_of_role_error {lib : Lib} {r : RulesBuilder} {s : Sentinel} {f : String}
    (h : Build lib r = .error (.err (.role s f))) :
    ∃ c ∈ roleChecks r, c.field = f ∧ c.sentinel = s ∧ c.present = true := by
  have h1 := Build_role_error_first h
  cases hc : firstViolation r with
  | none => rw [hc] at h1; cases h1
  | some c =>
    rw [hc] at h1
    simp only [Option.map_some', Option.some.injEq, Prod.mk.injEq] at h1
    unfold firstViolation at hc
    have hv := List.find?_some hc
    simp only [violated, Bool.and_eq_true] at hv
    exact ⟨c, List.mem_of_find?_eq_some hc, h1.1, h1.2, hv.1⟩

/-- C21 (as amended): the role checks on the scalar fields test the presence of the field, not
its value. For a rule that is not the default rule with `is_secure` (or `advanced_override`)
present, and for the default rule with `criteria_locked` (or `criteria_must_satisfy`) present,
`Build` returns no document and its result is the same for every value of the field; the
failure wraps `ErrOnlyForDefault` (for the default rule `ErrNotForDefault`) when the variables
are converted and no getter tested before the check fails with an error other than
not-found. The role error of a field is returned only when its getter returned no error. -/
theorem role_checks_test_presence (lib : Lib) (r : RulesBuilder) (n : String)
    (hname : ruleName r = (n, none)) :
    (n ≠ "default" → (ruleIsSecure r).2 = none →
      (∀ v, Build lib (r.withReader { r.schemaReader with isSecure := (v, none) })
        = Build lib r) ∧
      (∀ doc, Build lib r ≠ .ok doc) ∧
      ((∃ vs, ruleVariables r = .ok vs) → (ruleCriteriaMustSatisfy r).soft = true →
        ∃ field, Build lib r = .error (.err (.role .ErrOnlyForDefault field)))) ∧
    (n ≠ "default" → (ruleAdvancedOverride r).2 = none →
      (∀ v, Build lib (r.withReader { r.schemaReader with advancedOverride := (v, none) })
        = Build lib r) ∧
      (∀ doc, Build lib r ≠ .ok doc) ∧
      ((∃ vs, ruleVariables r = .ok vs) → (ruleCriteriaMustSatisfy r).soft = true →
        (ruleIsSecure r).soft = true →
        ∃ field, Build lib r = .error (.err (.role .ErrOnlyForDefault field)))) ∧
    (n = "default" → (ruleCriteriaLocked r).2 = none →
      (∀ v, Build lib (r.withReader { r.schemaReader with criteriaLocked := (v, none) })
        = Build lib r) ∧
      (∀ doc, Build lib r ≠ .ok doc) ∧
      ((∃ vs, ruleVariables r = .ok vs) → (ruleCriteriaMustSatisfy r).soft = true →
        (ruleIsSecure r).soft = true → (ruleAdvancedOverride r).soft = true →
        (ruleComments r).soft = true →
        ∃ field, Build lib r = .error (.err (.role .ErrNotForDefault field)))) ∧
    (n = "default" → (ruleCriteriaMustSatisfy r).2 = none →
      (∀ v, Build lib (r.withReader { r.schemaReader with criteriaMustSatisfy := (v, none) })
        = Build lib r) ∧
      (∀ doc, Build lib r ≠ .ok doc) ∧
      ((∃ vs, ruleVariables r = .ok vs) →
        Build lib r = .error (.err (.role .ErrNotForDefault "criteria_must_satisfy")))) ∧
    (∀ s, Build lib r = .error (.err (.role s "is_secure")) → (ruleIsSecure r).2 = none) ∧
    (∀ s, Build lib r = .error (.err (.role s "advanced_override")) →
      (ruleAdvancedOverride r).2 = none) ∧
    (∀ s, Build lib r = .error (.err (.role s "criteria_locked")) →
      (ruleCriteriaLocked r).2 = none) ∧
    (∀ s, Build lib r = .error (.err (.role s "criteria_must_satisfy")) →
      (ruleCriteriaMustSatisfy r).2 = none) := by
  have hpresent : ∀ s f, Build lib r = .error (.err (.role s f)) →
      (f = "is_secure" → (ruleIsSecure r).2 = none) ∧
      (f = "advanced_override" → (ruleAdvancedOverride r).2 = none) ∧
      (f = "criteria_locked" → (ruleCriteriaLocked r).2 = none) ∧
      (f = "criteria_must_satisfy" → (ruleCriteriaMustSatisfy r).2 = none) := by
    intro s f h
    obtain ⟨c, hmem, hf, _, hp⟩ := present_of_role_error h
    simp only [roleChecks, List.mem_cons, List.mem_singleton, List.not_mem_nil, or_false] at hmem
    rcases hmem with rfl | rfl | rfl | rfl | rfl | rfl | rfl <;>
      simp only [Option.isNone_iff_eq_none] at hp hf <;> subst hf <;>
      refine ⟨?_, ?_, ?_, ?_⟩ <;> intro hx <;>
      first
        | exact hp
        | exact absurd hx (by decide)
  refine ⟨?_, ?_, ?_, ?_, fun s h => (hpresent s _ h).1 rfl, fun s h => (hpresent s _ h).2.1 rfl,
    fun s h => (hpresent s _ h).2.2.1 rfl, fun s h => (hpresent s _ h).2.2.2 rfl⟩
  · intro hn hs
    have hB := Build_at_is_secure lib r hname hn hs
    refine ⟨?_, ?_, ?_⟩
    · intro v
      rw [hB, Build_at_is_secure lib
        (r.withReader { r.schemaReader with isSecure := (v, none) }) hname hn rfl]
      rfl
    · intro doc h
      rw [hB] at h
      simp only [bind_eq_ok, reduceCtorEq, and_false, exists_false, exists_const] at h
    · rintro ⟨vs, hv⟩ s1
      simp only [Got.soft] at s1
      rw [hB]
      simp only [hv, ok_bind, unlessNotFound_of_notHard s1]
      cases decide (vs.length > 0)
      · exact ⟨_, rfl⟩
      · exact ⟨_, rfl⟩
  · intro hn hs
    have hB := Build_at_advanced_override lib r hname hn hs
    refine ⟨?_, ?_, ?_⟩
    · intro v
      rw [hB, Build_at_advanced_override lib
        (r.withReader { r.schemaReader with advancedOverride := (v, none) }) hname hn rfl]
      rfl
    · intro doc h
      rw [hB] at h
      simp only [bind_eq_ok, reduceCtorEq, and_false, exists_false, exists_const] at h
    · rintro ⟨vs, hv⟩ s1 s2
      simp only [Got.soft] at s1 s2
      rw [hB]
      simp only [hv, ok_bind, unlessNotFound_of_notHard s1, unlessNotFound_of_notHard s2]
      cases decide (vs.length > 0)
      · cases (ruleIsSecure r).2.isNone
        · exact ⟨_, rfl⟩
        · exact ⟨_, rfl⟩
      · exact ⟨_, rfl⟩
  · intro hn hs
    subst hn
    have hB := Build_at_criteria_locked lib r hname hs
    refine ⟨?_, ?_, ?_⟩
    · intro v
      rw [hB, Build_at_criteria_locked lib
        (r.withReader { r.schemaReader with criteriaLocked := (v, none) }) hname rfl]
      rfl
    · intro doc h
      rw [hB] at h
      simp only [bind_eq_ok, reduceCtorEq, and_false, exists_false, exists_const] at h
    · rintro ⟨vs, hv⟩ s1 s2 s3 s4
      simp only [Got.soft] at s1 s2 s3 s4
      rw [hB]
      simp only [hv, ok_bind, unlessNotFound_of_notHard s1, unlessNotFound_of_notHard s2,
        unlessNotFound_of_notHard s3, unlessNotFound_of_notHard s4]
      cases (ruleCriteriaMustSatisfy r).2.isNone
      · exact ⟨_, rfl⟩
      · exact ⟨_, rfl⟩
  · intro hn hs
    subst hn
    have hB := Build_at_criteria_must_satisfy lib r hname hs
    refine ⟨?_, ?_, ?_⟩
    · intro v
      rw [hB, Build_at_criteria_must_satisfy lib
        (r.withReader { r.schemaReader with criteriaMustSatisfy := (v, none) }) hname rfl]
      rfl
    · intro doc h
      rw [hB] at h
      simp only [bind_eq_ok, reduceCtorEq, and_false, exists_false, exists_const] at h
    · rintro ⟨vs, hv⟩
      rw [hB]
      simp only [hv, ok_bind]

/-- C21 (witness): `is_secure = false` in the rule "caching" and `criteria_locked = false` in
the default rule are refused as `is_secure = true` and `criteria_locked = true` are, and so
are an empty `advanced_override` and an empty `criteria_must_satisfy`. -/
theorem role_checks_test_presence_witness :
    Build plainLib insecureChild = Build plainLib secureChild ∧
    (∃ field, Build plainLib insecureChild = .error (.err (.role .ErrOnlyForDefault field))) ∧
    (∃ field, Build plainLib childEmptyOverride
      = .error (.err (.role .ErrOnlyForDefault field))) ∧
    (∃ field, Build plainLib lockedDefault = .error (.err (.role .ErrNotForDefault field))) ∧
    Build plainLib defaultEmptyPolicy
      = .error (.err (.role .ErrNotForDefault "criteria_must_satisfy")) :=
  ⟨((role_checks_test_presence plainLib insecureChild "caching" rfl).1 (by decide) rfl).1 true,
   ((role_checks_test_presence plainLib insecureChild "caching" rfl).1 (by decide) rfl).2.2
     ⟨[], rfl⟩ rfl,
   ((role_checks_test_presence plainLib childEmptyOverride "caching" rfl).2.1 (by decide)
     rfl).2.2 ⟨[], rfl⟩ rfl rfl,
   ((role_checks_test_presence plainLib lockedDefault "default" rfl).2.2.1 rfl rfl).2.2
     ⟨[], rfl⟩ rfl rfl rfl rfl,
   ((role_checks_test_presence plainLib defaultEmptyPolicy "default" rfl).2.2.2.1 rfl rfl).2.2
     ⟨[], rfl⟩⟩

/-- C21 (counterexample): in the rule "caching" with `is_secure` present and `false`, `Build`
returns the reader's error, not one wrapping `ErrOnlyForDefault`, when `criteria_must_satisfy`
cannot be read; and a getter of `is_secure` that fails with an error other than not-found
avoids the role error as well. -/
theorem role_checks_test_presence_counterexample :
    (ruleName insecureChildBrokenPolicy = ("caching", none) ∧
      ruleIsSecure insecureChildBrokenPolicy = (false, none) ∧
      Build plainLib insecureChildBrokenPolicy = .error (.err (.reader errBroken)) ∧
      (BuildError.reader errBroken).wraps .ErrOnlyForDefault = false) ∧
    (ruleName childBrokenSecure = ("caching", none) ∧
      (ruleIsSecure childBrokenSecure).2 = some errBroken ∧ errBroken.isNotFound = false ∧
      Build plainLib childBrokenSecure = .error (.err (.reader errBroken))) :=
  ⟨⟨rfl, rfl, rfl, rfl⟩, ⟨rfl, rfl, rfl, rfl⟩⟩

/-! ## The name of the rule -/

/-- C22: when the name getter returns an error, a not-found included, `Build` returns this
error and no document, whatever the other getters return, and no role error. -/
theorem build_name_required (lib : Lib) (r : RulesBuilder) (e : ReaderError)
    (h : (ruleName r).2 = some e) :
    Build lib r = .error (.err (.reader e)) ∧
    (∀ doc, Build lib r ≠ .ok doc) ∧
    (∀ s f, Build lib r ≠ .error (.err (.role s f))) ∧
    (∀ r' : RulesBuilder, (ruleName r').2 = some e → Build lib r' = Build lib r) := by
  have hB : ∀ r' : RulesBuilder, (ruleName r').2 = some e →
      Build lib r' = .error (.err (.reader e)) := by
    intro r' h'
    unfold Build
    simp only [h', failOn, error_bind]
  refine ⟨hB r h, ?_, ?_, ?_⟩
  · intro doc hd
    rw [hB r h] at hd
    cases hd
  · intro s f hd
    rw [hB r h] at hd
    cases hd
  · intro r' h'
    rw [hB r h, hB r' h']

/-- C22 (witness): a rule whose name is not found is refused with the not-found error, though
`is_secure` is set and its criterion could not be built. -/
theorem build_name_required_witness :
    Build plainLib namelessRule = .error (.err (.reader errNotFound)) ∧
    errNotFound.isNotFound = true ∧ (ruleIsSecure namelessRule).2 = none :=
  ⟨(build_name_required plainLib namelessRule errNotFound rfl).1, rfl, rfl⟩

/-! ## The first role constraint violated -/

/-- C23 (as amended): a role error that `Build` returns is the error of the first role
constraint the configuration violates, in the order variable, is_secure, advanced_override,
custom_override for a rule that is not the default rule and criteria_must_satisfy,
criteria_locked, criterion for the default rule; and `Build` returns the error of the first
constraint violated, whatever the getters tested after it return, when the name is read,
the variables are converted, no getter tested before that check fails with an error other
than not-found and, for `criterion`, the criteria are built. -/
theorem first_violation_reported (lib : Lib) (r : RulesBuilder) :
    (∀ s f, Build lib r = .error (.err (.role s f)) →
      (firstViolation r).map (fun c => (c.field, c.sentinel)) = some (f, s)) ∧
    (∀ c, firstViolation r = some c → (ruleName r).2 = none →
      (∃ vs, ruleVariables r = .ok vs) → (∀ e ∈ c.before, notHard e = true) →
      (c.field = "criterion" → ∃ cr, ruleCriteria lib r = .ok cr) →
      Build lib r = .error (.err (.role c.sentinel c.field))) ∧
    ((roleChecks r).filter (fun c => c.sentinel = .ErrOnlyForDefault)).map RoleCheck.field
      = ["variable", "is_secure", "advanced_override", "custom_override"] ∧
    ((roleChecks r).filter (fun c => c.sentinel = .ErrNotForDefault)).map RoleCheck.field
      = ["criteria_must_satisfy", "criteria_locked", "criterion"] ∧
    (∀ c ∈ roleChecks r, violated r c = true →
      (c.sentinel = .ErrOnlyForDefault ↔ (ruleName r).1 ≠ "default")) := by
  refine ⟨fun s f h => Build_role_error_first h,
    fun c hc hn hv hs hcr => Build_reports_first hc hn hv hs hcr, rfl, rfl, ?_⟩
  intro c _ hv
  simp only [violated, Bool.and_eq_true] at hv
  cases hs : c.sentinel with
  | ErrOnlyForDefault =>
    rw [hs] at hv
    simpa [defaultRule] using hv.2
  | ErrNotForDefault =>
    rw [hs] at hv
    simpa [defaultRule] using hv.2

/-- C23 (witness): with `is_secure` and `custom_override` set in the rule "caching", the
error is the one of `is_secure`, though the getter of `comments`, tested later, fails; with
`criteria_must_satisfy` and `criteria_locked` set in the default rule, it is the one of
`criteria_must_satisfy`, though the getter of `is_secure` fails. -/
theorem first_violation_reported_witness :
    Build plainLib secureOverrideBrokenComments
      = .error (.err (.role .ErrOnlyForDefault "is_secure")) ∧
    (ruleCustomOverride secureOverrideBrokenComments).2 = none ∧
    (ruleComments secureOverrideBrokenComments).2 = some errBroken ∧
    Build plainLib defaultTwoCriteriaFields
      = .error (.err (.role .ErrNotForDefault "criteria_must_satisfy")) ∧
    (ruleCriteriaLocked defaultTwoCriteriaFields).2 = none ∧
    (ruleIsSecure defaultTwoCriteriaFields).2 = some errBroken :=
  ⟨(first_violation_reported plainLib secureOverrideBrokenComments).2.1
      { field := "is_secure", sentinel := .ErrOnlyForDefault, present := true,
        before := [some errNotFound] }
      rfl rfl ⟨[], rfl⟩ (by decide) (fun h => absurd h (by decide)),
   rfl, rfl,
   (first_violation_reported plainLib defaultTwoCriteriaFields).2.1
      { field := "criteria_must_satisfy", sentinel := .ErrNotForDefault, present := true,
        before := [] }
      rfl rfl ⟨[], rfl⟩ (by decide) (fun h => absurd h (by decide)),
   rfl, rfl⟩

/-- C23 (counterexample): the rule "caching" violates two constraints, the first being the
one on `advanced_override`, and `Build` reports none: the getter of `is_secure`, tested
before, fails, and `Build` returns its error. -/
theorem first_violation_reported_counterexample :
    (ruleName twoOverridesBrokenSecure).1 = "caching" ∧
    (ruleAdvancedOverride twoOverridesBrokenSecure).2 = none ∧
    (ruleCustomOverride twoOverridesBrokenSecure).2 = none ∧
    (firstViolation twoOverridesBrokenSecure).map RoleCheck.field = some "advanced_override" ∧
    Build plainLib twoOverridesBrokenSecure = .error (.err (.reader errBroken)) :=
  ⟨rfl, rfl, rfl, rfl, rfl⟩

/-! ## The panics of `remapOptionValues` -/

theorem pickValue_error_iff (r : RulesBuilder) (k : String) (v : Value) :
    (∃ p, pickValue r k v = .error p) ↔ r.shouldFlatten k = true ∧ notFlattenable v = true := by
  unfold pickValue notFlattenable
  cases hf : r.shouldFlatten k with
  | false =>
    simp only [Bool.false_eq_true, if_false, false_and, iff_false, not_exists]
    intro p
    split <;> simp
  | true =>
    simp only [if_true, true_and]
    cases v with
    | list slc =>
      by_cases hlen : slc.length > 1
      · simp [hlen]
      · simp only [hlen, if_false, decide_False, Bool.false_eq_true, iff_false, not_exists]
        intro p
        cases slc <;> simp
    | _ => simp

theorem reached_nil {r : RulesBuilder} {b key : String} {w : Value} :
    ¬ Reached r b [] key w := by
  intro h
  cases h with
  | here hmem => cases hmem
  | inside hmem _ _ => cases hmem

theorem reached_cons {r : RulesBuilder} {b o key : String} {v w : Value} {rest : OptMap} :
    Reached r b ((o, v) :: rest) key w ↔
      (key = b ++ "." ++ o ∧ w = v) ∨
      (∃ m, pickValue r (b ++ "." ++ o) v = .ok (some (.map m)) ∧
        Reached r (b ++ "." ++ o) m key w) ∨
      Reached r b rest key w := by
  constructor
  · intro h
    cases h with
    | here hmem =>
      rcases List.mem_cons.mp hmem with heq | hmem'
      · cases heq
        exact Or.inl ⟨rfl, rfl⟩
      · exact Or.inr (Or.inr (Reached.here hmem'))
    | inside hmem hp hin =>
      rcases List.mem_cons.mp hmem with heq | hmem'
      · cases heq
        exact Or.inr (Or.inl ⟨_, hp, hin⟩)
      · exact Or.inr (Or.inr (Reached.inside hmem' hp hin))
  · rintro (⟨rfl, rfl⟩ | ⟨m, hp, hin⟩ | h)
    · exact Reached.here (List.mem_cons_self _ _)
    · exact Reached.inside (List.mem_cons_self _ _) hp hin
    · cases h with
      | here hmem => exact Reached.here (List.mem_cons_of_mem _ hmem)
      | inside hmem hp hin => exact Reached.inside (List.mem_cons_of_mem _ hmem) hp hin

/-- The loop panics exactly when it reaches an option flagged for flattening whose value
cannot be flattened. -/
theorem remapLoop_error_iff (r : RulesBuilder) (b : String) (options newRom : OptMap) :
    (∃ p, remapLoop r b options newRom = .error p) ↔
      ∃ key v, Reached r b options key v ∧ r.shouldFlatten key = true ∧
        notFlattenable v = true := by
  induction b, options, newRom using remapLoop.induct r with
  | case1 b newRom =>
    rw [remapLoop_nil]
    constructor
    · rintro ⟨p, hp⟩; cases hp
    · rintro ⟨key, v, h, _⟩; exact (reached_nil h).elim
  | case2 b newRom o v rest f h =>
    rw [remapLoop_cons_error h]
    constructor
    · intro _
      obtain ⟨hf, hb⟩ := (pickValue_error_iff r _ v).mp ⟨f, h⟩
      exact ⟨_, v, Reached.here (List.mem_cons_self _ _), hf, hb⟩
    · intro _; exact ⟨f, rfl⟩
  | case3 b newRom o v rest h ih =>
    rw [remapLoop_cons_none h, ih]
    constructor
    · rintro ⟨key, w, hr, hf, hb⟩
      exact ⟨key, w, reached_cons.mpr (Or.inr (Or.inr hr)), hf, hb⟩
    · rintro ⟨key, w, hr, hf, hb⟩
      rcases reached_cons.mp hr with ⟨rfl, rfl⟩ | ⟨m, hp, _⟩ | hr'
      · obtain ⟨p, hp⟩ := (pickValue_error_iff r _ _).mpr ⟨hf, hb⟩
        rw [h] at hp; cases hp
      · rw [h] at hp; cases hp
      · exact ⟨key, w, hr', hf, hb⟩
  | case4 b newRom o v rest m h f hrec ih =>
    rw [remapLoop_cons_map h, hrec]
    constructor
    · intro _
      obtain ⟨key, w, hr, hf, hb⟩ := ih.mp ⟨f, hrec⟩
      exact ⟨key, w, Reached.inside (List.mem_cons_self _ _) h hr, hf, hb⟩
    · intro _; exact ⟨f, rfl⟩
  | case5 b newRom o v rest m h m' hrec ih1 ih2 =>
    rw [remapLoop_cons_map h, hrec]
    simp only
    rw [ih2]
    constructor
    · rintro ⟨key, w, hr, hf, hb⟩
      exact ⟨key, w, reached_cons.mpr (Or.inr (Or.inr hr)), hf, hb⟩
    · rintro ⟨key, w, hr, hf, hb⟩
      rcases reached_cons.mp hr with ⟨rfl, rfl⟩ | ⟨m₂, hp, hin⟩ | hr'
      · obtain ⟨p, hp⟩ := (pickValue_error_iff r _ _).mpr ⟨hf, hb⟩
        rw [h] at hp; cases hp
      · rw [h] at hp
        simp only [Except.ok.injEq, Option.some.injEq, Value.map.injEq] at hp
        subst hp
        obtain ⟨p, hp⟩ := ih1.mpr ⟨key, w, hin, hf, hb⟩
        rw [hrec] at hp; cases hp
      · exact ⟨key, w, hr', hf, hb⟩
  | case6 b newRom o v rest picked hnot h ih =>
    rw [remapLoop_cons_plain h (isMap_false_of_ne hnot), ih]
    constructor
    · rintro ⟨key, w, hr, hf, hb⟩
      exact ⟨key, w, reached_cons.mpr (Or.inr (Or.inr hr)), hf, hb⟩
    · rintro ⟨key, w, hr, hf, hb⟩
      rcases reached_cons.mp hr with ⟨rfl, rfl⟩ | ⟨m, hp, _⟩ | hr'
      · obtain ⟨p, hp⟩ := (pickValue_error_iff r _ _).mpr ⟨hf, hb⟩
        rw [h] at hp; cases hp
      · rw [h] at hp
        simp only [Except.ok.injEq, Option.some.injEq] at hp
        exact (hnot m hp).elim
      · exact ⟨key, w, hr', hf, hb⟩

/-- C24: `remapOptionValues` panics exactly when its walk, at the top level or in a nested map
it remaps, reaches an option flagged for flattening whose value is not a list or is a list
with more than one element; when every flagged option reached holds a list with at most one
element, it returns. -/
theorem remap_panics_iff (r : RulesBuilder) (b : String) (options : OptMap) :
    ((∃ p, remapOptionValues r b options = .error p) ↔
      ∃ key v, Reached r b options key v ∧ r.shouldFlatten key = true ∧
        ((∀ slc, v ≠ .list slc) ∨ ∃ slc, v = .list slc ∧ slc.length > 1)) ∧
    ((∀ key v, Reached r b options key v → r.shouldFlatten key = true →
        ∃ slc, v = .list slc ∧ slc.length ≤ 1) →
      ∃ out, remapOptionValues r b options = .ok out) := by
  have hbad : ∀ v, notFlattenable v = true ↔
      ((∀ slc, v ≠ .list slc) ∨ ∃ slc, v = .list slc ∧ slc.length > 1) := by
    intro v
    cases v with
    | list slc => simp [notFlattenable]
    | _ => simp [notFlattenable]
  have hiff : (∃ p, remapOptionValues r b options = .error p) ↔
      ∃ key v, Reached r b options key v ∧ r.shouldFlatten key = true ∧
        ((∀ slc, v ≠ .list slc) ∨ ∃ slc, v = .list slc ∧ slc.length > 1) := by
    unfold remapOptionValues
    rw [remapLoop_error_iff]
    constructor
    · rintro ⟨key, v, hr, hf, hb⟩
      exact ⟨key, v, hr, hf, (hbad v).mp hb⟩
    · rintro ⟨key, v, hr, hf, hb⟩
      exact ⟨key, v, hr, hf, (hbad v).mpr hb⟩
  refine ⟨hiff, ?_⟩
  intro hpre
  cases hres : remapOptionValues r b options with
  | ok out => exact ⟨out, rfl⟩
  | error p =>
    obtain ⟨key, v, hr, hf, hb⟩ := hiff.mp ⟨p, hres⟩
    obtain ⟨slc, hv, hlen⟩ := hpre key v hr hf
    rcases hb with hb | ⟨slc', hv', hlen'⟩
    · exact (hb slc hv).elim
    · rw [hv] at hv'
      cases hv'
      omega

/-- C24 (witness): with `b.o.p` flagged, the map under `o` is walked: the call returns when
`p` holds a one-element list, and panics when `p` holds a string. -/
theorem remap_panics_iff_witness :
    (∃ out, remapOptionValues flattenNested "b" [("o", .map [("p", .list [.str "x"])])]
      = .ok out) ∧
    (∃ p, remapOptionValues flattenNested "b" [("o", .map [("p", .str "x")])] = .error p) := by
  have h1 : pickValue flattenNested ("b" ++ "." ++ "o") (.map [("p", .list [.str "x"])])
      = .ok (some (.map [("p", .list [.str "x"])])) := rfl
  have h2 : pickValue flattenNested ("b" ++ "." ++ "o") (.map [("p", .str "x")])
      = .ok (some (.map [("p", .str "x")])) := rfl
  constructor
  · apply (remap_panics_iff flattenNested "b" [("o", .map [("p", .list [.str "x"])])]).2
    intro key v hr hf
    rcases reached_cons.mp hr with ⟨rfl, rfl⟩ | ⟨m, hp, hin⟩ | hr'
    · cases hf
    · rw [h1] at hp
      simp only [Except.ok.injEq, Option.some.injEq, Value.map.injEq] at hp
      subst hp
      rcases reached_cons.mp hin with ⟨rfl, rfl⟩ | ⟨m, hp, _⟩ | hr'
      · exact ⟨_, rfl, by decide⟩
      · cases hp
      · exact (reached_nil hr').elim
    · exact (reached_nil hr').elim
  · exact (remap_panics_iff flattenNested "b" [("o", .map [("p", .str "x")])]).1.mpr
      ⟨"b" ++ "." ++ "o" ++ "." ++ "p", .str "x",
        Reached.inside (List.mem_cons_self _ _) h2 (Reached.here (List.mem_cons_self _ _)),
        rfl, Or.inl (fun slc h => by cases h)⟩

/-! ## The keys of the output of `remapOptionValues` -/

theorem pickValue_none_iff (r : RulesBuilder) (k : String) (v : Value) :
    pickValue r k v = .ok none ↔ r.shouldFlatten k = true ∧ v = .list [] := by
  unfold pickValue
  cases hf : r.shouldFlatten k with
  | false =>
    simp only [Bool.false_eq_true, if_false, false_and, iff_false]
    split <;> simp
  | true =>
    simp only [if_true, true_and]
    cases v with
    | list slc =>
      cases slc with
      | nil => simp
      | cons x rest =>
        simp only [reduceCtorEq, Value.list.injEq, iff_false]
        split <;> simp
    | _ => simp

/-- The keys of the map the loop returns: those of `newRom`, and those of the entries
visited for which a value was stored. -/
theorem remapLoop_keys (r : RulesBuilder) {b : String} {options newRom out : OptMap}
    (h : remapLoop r b options newRom = .ok out) (k : String) :
    k ∈ OptMap.keys out ↔
      k ∈ OptMap.keys newRom ∨
      ∃ v, (k, v) ∈ options ∧ ∃ x, pickValue r (b ++ "." ++ k) v = .ok (some x) := by
  induction options generalizing newRom with
  | nil =>
    rw [remapLoop_nil] at h
    cases h
    simp
  | cons e rest ih =>
    obtain ⟨o, v⟩ := e
    have hsplit : (∃ w, (k, w) ∈ (o, v) :: rest ∧
          ∃ x, pickValue r (b ++ "." ++ k) w = .ok (some x)) ↔
        (k = o ∧ ∃ x, pickValue r (b ++ "." ++ o) v = .ok (some x)) ∨
        ∃ w, (k, w) ∈ rest ∧ ∃ x, pickValue r (b ++ "." ++ k) w = .ok (some x) := by
      constructor
      · rintro ⟨w, hmem, hx⟩
        rcases List.mem_cons.mp hmem with heq | hmem'
        · cases heq
          exact Or.inl ⟨rfl, hx⟩
        · exact Or.inr ⟨w, hmem', hx⟩
      · rintro (⟨rfl, hx⟩ | ⟨w, hmem, hx⟩)
        · exact ⟨v, List.mem_cons_self _ _, hx⟩
        · exact ⟨w, List.mem_cons_of_mem _ hmem, hx⟩
    rw [hsplit]
    cases hp : pickValue r (b ++ "." ++ o) v with
    | error p => rw [remapLoop_cons_error hp] at h; cases h
    | ok picked =>
      cases picked with
      | none =>
        rw [remapLoop_cons_none hp] at h
        rw [ih h]
        simp
      | some x =>
        cases hx : x.isMap with
        | false =>
          rw [remapLoop_cons_plain hp hx] at h
          rw [ih h, keys_set]
          simp only [Except.ok.injEq, Option.some.injEq, exists_eq', and_true]
          tauto
        | true =>
          cases x with
          | map m =>
            rw [remapLoop_cons_map hp] at h
            cases hm : remapLoop r (b ++ "." ++ o) m [] with
            | error f => rw [hm] at h; cases h
            | ok m' =>
              rw [hm] at h
              rw [ih h, keys_set, keys_set]
              simp only [Except.ok.injEq, Option.some.injEq, exists_eq', and_true]
              tauto
          | _ => simp [Value.isMap] at hx

/-- When the loop returns, the value of every entry visited could be picked. -/
theorem remapLoop_ok_pick (r : RulesBuilder) {b : String} {options newRom out : OptMap}
    (h : remapLoop r b options newRom = .ok out) {o : String} {v : Value}
    (hmem : (o, v) ∈ options) : ∃ res, pickValue r (b ++ "." ++ o) v = .ok res := by
  cases hp : pickValue r (b ++ "." ++ o) v with
  | ok res => exact ⟨res, rfl⟩
  | error p =>
    obtain ⟨hf, hb⟩ := (pickValue_error_iff r _ v).mp ⟨p, hp⟩
    obtain ⟨p', hp'⟩ := (remapLoop_error_iff r b options newRom).mpr
      ⟨_, v, Reached.here hmem, hf, hb⟩
    rw [h] at hp'
    cases hp'

theorem get_eq_some_of_mem_nodup {m : List (String × α)} {k : String} {v : α}
    (hnd : (OptMap.keys m).Nodup) (hmem : (k, v) ∈ m) : OptMap.get m k = some v := by
  cases hg : OptMap.get m k with
  | none => exact (get_eq_none_iff.mp hg (k, v) hmem rfl).elim
  | some w =>
    have := eq_of_get_of_nodup hnd hg (k, v) hmem rfl
    simp only at this
    rw [this]

theorem mem_of_get_eq_some {m : List (String × α)} {k : String} {v : α}
    (hg : OptMap.get m k = some v) : (k, v) ∈ m := by
  induction m with
  | nil => simp [OptMap.get] at hg
  | cons e rest ih =>
    obtain ⟨k', v'⟩ := e
    by_cases h : k' = k
    · simp only [OptMap.get, h, if_true, Option.some.injEq] at hg
      rw [h, hg]
      exact List.mem_cons_self _ _
    · simp only [OptMap.get, h, if_false] at hg
      exact List.mem_cons_of_mem _ (ih hg)

/-- C25: when `remapOptionValues` returns, the keys of the output are the keys of the input
except those that are flagged for flattening and hold an empty list: no key is renamed and
none is invented. -/
theorem remap_keeps_keys (r : RulesBuilder) (b : String) (options out : OptMap)
    (h : remapOptionValues r b options = .ok out) :
    (∀ k, k ∈ OptMap.keys out ↔
      ∃ v, (k, v) ∈ options ∧ ¬ (r.shouldFlatten (b ++ "." ++ k) = true ∧ v = .list [])) ∧
    ((OptMap.keys options).Nodup → ∀ k, k ∈ OptMap.keys out ↔
      k ∈ OptMap.keys options ∧
        ¬ (r.shouldFlatten (b ++ "." ++ k) = true ∧ OptMap.get options k = some (.list []))) := by
  unfold remapOptionValues at h
  have hkeys : ∀ k, k ∈ OptMap.keys out ↔
      ∃ v, (k, v) ∈ options ∧ ¬ (r.shouldFlatten (b ++ "." ++ k) = true ∧ v = .list []) := by
    intro k
    rw [remapLoop_keys r h k]
    simp only [OptMap.keys, List.map_nil, List.not_mem_nil, false_or]
    constructor
    · rintro ⟨v, hmem, x, hx⟩
      refine ⟨v, hmem, ?_⟩
      intro hnone
      rw [(pickValue_none_iff r _ v).mpr hnone] at hx
      cases hx
    · rintro ⟨v, hmem, hnot⟩
      refine ⟨v, hmem, ?_⟩
      obtain ⟨res, hres⟩ := remapLoop_ok_pick r h hmem
      cases res with
      | none => exact (hnot ((pickValue_none_iff r _ v).mp hres)).elim
      | some x => exact ⟨x, hres⟩
  refine ⟨hkeys, ?_⟩
  intro hnd k
  rw [hkeys]
  constructor
  · rintro ⟨v, hmem, hnot⟩
    refine ⟨List.mem_map_of_mem Prod.fst hmem, ?_⟩
    rintro ⟨hf, hg⟩
    rw [get_eq_some_of_mem_nodup hnd hmem] at hg
    exact hnot ⟨hf, Option.some.inj hg⟩
  · rintro ⟨hk, hnot⟩
    obtain ⟨⟨k', v⟩, hmem, hk'⟩ := List.mem_map.mp hk
    simp only at hk'
    subst hk'
    refine ⟨v, hmem, ?_⟩
    rintro ⟨hf, hv⟩
    apply hnot
    refine ⟨hf, ?_⟩
    rw [get_eq_some_of_mem_nodup hnd hmem, hv]

/-- C25 (witness): of the options `someOption`, flagged and empty, and `ttl`, the output
holds `ttl` only. -/
theorem remap_keeps_keys_witness :
    remapOptionValues flattenSomeOption "someBehavior"
        [("someOption", .list []), ("ttl", .str "1d")] = .ok [("ttl", .str "1d")] ∧
    ∀ k, k ∈ OptMap.keys [("ttl", Value.str "1d")] ↔
      ∃ v, (k, v) ∈ [("someOption", Value.list []), ("ttl", Value.str "1d")] ∧
        ¬ (flattenSomeOption.shouldFlatten ("someBehavior" ++ "." ++ k) = true ∧
          v = .list []) := by
  have h1 : pickValue flattenSomeOption ("someBehavior" ++ "." ++ "someOption") (.list [])
      = .ok none := rfl
  have h2 : pickValue flattenSomeOption ("someBehavior" ++ "." ++ "ttl") (.str "1d")
      = .ok (some (.str "1d")) := rfl
  have h : remapOptionValues flattenSomeOption "someBehavior"
      [("someOption", .list []), ("ttl", .str "1d")] = .ok [("ttl", .str "1d")] := by
    unfold remapOptionValues
    rw [remapLoop_cons_none h1, remapLoop_cons_plain h2 rfl, remapLoop_nil]
    rfl
  exact ⟨h, (remap_keeps_keys flattenSomeOption "someBehavior" _ _ h).1⟩

/-! ## Nested maps -/

/-- C26: when `remapOptionValues` returns for a map with unique keys, an option `o` whose
chosen value (the literal value, the single element of a flattened list, or the type-mapped
value) is a map `m` holds in the output the map `remapOptionValues` returns for `m` under the
name `b.o`, so that a nested option `p` is looked up under `b.o.p`; a list that is not
flattened is copied as it is, maps among its elements included. -/
theorem nested_maps_remapped (r : RulesBuilder) (b : String) (options out : OptMap)
    (hnd : (OptMap.keys options).Nodup) (h : remapOptionValues r b options = .ok out)
    (o : String) (v : Value) (hmem : (o, v) ∈ options) :
    (∀ m, pickValue r (b ++ "." ++ o) v = .ok (some (.map m)) →
      ∃ m', remapOptionValues r (b ++ "." ++ o) m = .ok m' ∧
        OptMap.get out o = some (.map m') ∧
        (∀ p w, (p, w) ∈ m → Reached r b options (b ++ "." ++ o ++ "." ++ p) w) ∧
        ((OptMap.keys m).Nodup → ∀ p w x, (p, w) ∈ m →
          pickValue r (b ++ "." ++ o ++ "." ++ p) w = .ok (some x) → x.isMap = false →
          OptMap.get m' p = some x)) ∧
    (∀ m, r.shouldFlatten (b ++ "." ++ o) = false →
      OptMap.get r.typeMappings (b ++ "." ++ o ++ "." ++ v.fmtV) = none → v = .map m →
      pickValue r (b ++ "." ++ o) v = .ok (some (.map m))) ∧
    (∀ m, r.shouldFlatten (b ++ "." ++ o) = true → v = .list [.map m] →
      pickValue r (b ++ "." ++ o) v = .ok (some (.map m))) ∧
    (∀ m, r.shouldFlatten (b ++ "." ++ o) = false →
      OptMap.get r.typeMappings (b ++ "." ++ o ++ "." ++ v.fmtV) = some (.map m) →
      pickValue r (b ++ "." ++ o) v = .ok (some (.map m))) ∧
    (∀ l, r.shouldFlatten (b ++ "." ++ o) = false →
      OptMap.get r.typeMappings (b ++ "." ++ o ++ "." ++ v.fmtV) = none → v = .list l →
      OptMap.get out o = some (.list l)) := by
  refine ⟨?_, ?_, ?_, ?_, ?_⟩
  · intro m hp
    obtain ⟨m', hm', hget⟩ := remap_get_map hnd hmem h hp
    refine ⟨m', hm', hget, ?_, ?_⟩
    · intro p w hpw
      exact Reached.inside hmem hp (Reached.here hpw)
    · intro hndm p w x hpw hpx hx
      exact remap_get_plain hndm hpw hm' hpx hx
  · intro m hf ht hv
    subst hv
    exact pickValue_plain hf ht
  · intro m hf hv
    subst hv
    exact pickValue_flat_one hf _
  · intro m hf ht
    exact pickValue_mapped hf ht
  · intro l hf ht hv
    subst hv
    exact remap_get_plain hnd hmem h (pickValue_plain hf ht) rfl

/-- C26 (witness): with `b.o.p` flagged, the map under `o` is remapped, its option `p` being
flattened, and the list under `l` is copied with the map it holds. -/
theorem nested_maps_remapped_witness :
    remapOptionValues flattenNested "b" nestedOptions
      = .ok [("o", .map [("p", .str "x")]), ("l", .list [.map [("p", .list [.str "x"])]])] ∧
    (∃ m', remapOptionValues flattenNested ("b" ++ "." ++ "o") [("p", .list [.str "x"])]
        = .ok m' ∧
      OptMap.get [("o", Value.map [("p", .str "x")]),
        ("l", .list [.map [("p", .list [.str "x"])]])] "o" = some (.map m')) := by
  have h1 : pickValue flattenNested ("b" ++ "." ++ "o") (.map [("p", .list [.str "x"])])
      = .ok (some (.map [("p", .list [.str "x"])])) := rfl
  have h2 : pickValue flattenNested ("b" ++ "." ++ "o" ++ "." ++ "p") (.list [.str "x"])
      = .ok (some (.str "x")) := rfl
  have h3 : pickValue flattenNested ("b" ++ "." ++ "l") (.list [.map [("p", .list [.str "x"])]])
      = .ok (some (.list [.map [("p", .list [.str "x"])]])) := rfl
  have hin : remapLoop flattenNested ("b" ++ "." ++ "o") [("p", .list [.str "x"])] []
      = .ok [("p", .str "x")] := by
    rw [remapLoop_cons_plain h2 rfl, remapLoop_nil]
    rfl
  have h : remapOptionValues flattenNested "b" nestedOptions
      = .ok [("o", .map [("p", .str "x")]), ("l", .list [.map [("p", .list [.str "x"])]])] := by
    unfold remapOptionValues nestedOptions
    rw [remapLoop_cons_map h1, hin]
    simp only
    rw [remapLoop_cons_plain h3 rfl, remapLoop_nil]
    rfl
  obtain ⟨m', hm', hget, _⟩ := (nested_maps_remapped flattenNested "b" nestedOptions _
    (by decide) h "o" (.map [("p", .list [.str "x"])]) (by simp [nestedOptions])).1 _ h1
  exact ⟨h, m', hm', hget⟩

/-! ## The entries of the output of `mapKeysToCamelCase` -/

theorem camelLoop_append (lib : Lib) (r : RulesBuilder) (l1 l2 newMap : OptMap) :
    camelLoop lib r (l1 ++ l2) newMap = camelLoop lib r l2 (camelLoop lib r l1 newMap) := by
  induction l1 generalizing newMap with
  | nil => simp [camelLoop]
  | cons e rest ih =>
    obtain ⟨k, v⟩ := e
    cases v with
    | null => simp only [List.cons_append, camelLoop]; exact ih newMap
    | _ => simp only [List.cons_append, camelLoop]; exact ih _

/-- A key to which no entry visited is converted keeps what `newMap` holds for it. -/
theorem camelLoop_frame (lib : Lib) (r : RulesBuilder) (old newMap : OptMap) (k' : String)
    (h : ∀ e ∈ old, e.2 ≠ .null → mappedName lib r e.1 ≠ k') :
    OptMap.get (camelLoop lib r old newMap) k' = OptMap.get newMap k' := by
  induction old generalizing newMap with
  | nil => simp [camelLoop]
  | cons e rest ih =>
    obtain ⟨k, v⟩ := e
    have hrest : ∀ e ∈ rest, e.2 ≠ .null → mappedName lib r e.1 ≠ k' :=
      fun e he => h e (List.mem_cons_of_mem _ he)
    by_cases hv : v = .null
    · subst hv
      simp only [camelLoop]
      exact ih newMap hrest
    · rw [camelLoop_cons_of_ne_null lib r k hv, ih _ hrest]
      exact get_set_ne _ _ (fun hk => h (k, v) (List.mem_cons_self _ _) hv hk.symm)

theorem camelLoop_keys (lib : Lib) (r : RulesBuilder) (old newMap : OptMap) (k' : String) :
    k' ∈ OptMap.keys (camelLoop lib r old newMap) ↔
      k' ∈ OptMap.keys newMap ∨ ∃ e ∈ old, e.2 ≠ .null ∧ mappedName lib r e.1 = k' := by
  induction old generalizing newMap with
  | nil => simp [camelLoop]
  | cons e rest ih =>
    obtain ⟨k, v⟩ := e
    by_cases hv : v = .null
    · subst hv
      simp only [camelLoop]
      rw [ih]
      simp
    · rw [camelLoop_cons_of_ne_null lib r k hv, ih, keys_set]
      simp only [List.mem_cons, exists_eq_or_imp, ne_eq, hv, not_false_eq_true, true_and]
      constructor
      · rintro ((h | h) | h)
        · exact Or.inr (Or.inl h.symm)
        · exact Or.inl h
        · exact Or.inr (Or.inr h)
      · rintro (h | h | h)
        · exact Or.inl (Or.inr h)
        · exact Or.inl (Or.inl h.symm)
        · exact Or.inr h

theorem camelSlice_length (lib : Lib) (r : RulesBuilder) (l : List Value) :
    (camelSlice lib r l).length = l.length := by
  induction l with
  | nil => simp [camelSlice]
  | cons x rest ih => cases x <;> simp [camelSlice, ih]

theorem camelSlice_getElem? (lib : Lib) (r : RulesBuilder) (l : List Value) (i : Nat) :
    (camelSlice lib r l)[i]? = l[i]?.map (fun x =>
      match x with
      | .map m => .map (mapKeysToCamelCase lib r m)
      | x => x) := by
  induction l generalizing i with
  | nil => simp [camelSlice]
  | cons x rest ih =>
    cases i with
    | zero => cases x <;> simp [camelSlice, mapKeysToCamelCase]
    | succ j => cases x <;> simp [camelSlice, ih]

/-- C27 (as amended): `mapKeysToCamelCase` drops every entry whose value is `nil` and keeps
every other entry under the key that its key is converted to (its entry in `nameMappings`, or
else its lower camel case), unless an entry visited later has the same converted key, which
then holds the later value; with distinct converted keys the output has one entry per entry
that is not `nil`. A map value is rewritten in the same way, a list keeps its length and
order with the maps among its elements rewritten and its other elements unchanged, and any
other value is unchanged. -/
theorem camel_case_entries (lib : Lib) (r : RulesBuilder) (old : OptMap) :
    mapKeysToCamelCase lib r old
      = mapKeysToCamelCase lib r (old.filter (fun e => e.2.notNull)) ∧
    (∀ k', k' ∈ OptMap.keys (mapKeysToCamelCase lib r old) ↔
      ∃ e ∈ old, e.2 ≠ .null ∧ mappedName lib r e.1 = k') ∧
    (∀ pre e post, old = pre ++ e :: post → e.2 ≠ .null →
      (∀ e' ∈ post, e'.2 ≠ .null → mappedName lib r e'.1 ≠ mappedName lib r e.1) →
      OptMap.get (mapKeysToCamelCase lib r old) (mappedName lib r e.1)
        = some (camelValue lib r e.2)) ∧
    (((old.filter (fun e => e.2.notNull)).map (fun e => mappedName lib r e.1)).Nodup →
      mapKeysToCamelCase lib r old
        = (old.filter (fun e => e.2.notNull)).map
            (fun e => (mappedName lib r e.1, camelValue lib r e.2))) ∧
    (∀ k, mappedName lib r k
      = (match OptMap.get r.nameMappings (lib.toLowerCamel k) with
        | some name => name
        | none => lib.toLowerCamel k)) ∧
    (∀ m, camelValue lib r (.map m) = .map (mapKeysToCamelCase lib r m)) ∧
    (∀ l, ∃ l', camelValue lib r (.list l) = .list l' ∧ l'.length = l.length ∧
      ∀ (i : Nat), l'[i]? = l[i]?.map (fun x =>
        match x with
        | .map m => .map (mapKeysToCamelCase lib r m)
        | x => x)) ∧
    (∀ v, (∀ m, v ≠ .map m) → (∀ l, v ≠ .list l) → camelValue lib r v = v) := by
  have hfilter : mapKeysToCamelCase lib r old
      = mapKeysToCamelCase lib r (old.filter (fun e => e.2.notNull)) := by
    unfold mapKeysToCamelCase
    rw [camelLoop_filter_notNull]
  refine ⟨hfilter, ?_, ?_, ?_, fun _ => rfl, fun _ => rfl, ?_, ?_⟩
  · intro k'
    unfold mapKeysToCamelCase
    rw [camelLoop_keys]
    simp [OptMap.keys]
  · intro pre e post hsplit hnull hlater
    obtain ⟨k, v⟩ := e
    unfold mapKeysToCamelCase
    rw [hsplit, camelLoop_append, camelLoop_cons_of_ne_null lib r k hnull,
      camelLoop_frame lib r post _ _ hlater, get_set_self]
  · intro hnd
    rw [hfilter]
    unfold mapKeysToCamelCase
    rw [camelLoop_entrywise lib r _ [] ?_ hnd (by intro e _; simp [OptMap.keys])]
    · rfl
    · intro e he hn
      have := (List.mem_filter.mp he).2
      rw [hn] at this
      cases this
  · intro l
    exact ⟨camelSlice lib r l, rfl, camelSlice_length lib r l, camelSlice_getElem? lib r l⟩
  · intro v h1 h2
    cases v with
    | map m => exact (h1 m rfl).elim
    | list l => exact (h2 l rfl).elim
    | _ => rfl

/-- C27 (witness): the entries `drop` and `n`, which hold `nil`, are dropped; `cache_key` is
converted at both levels and inside the list; the `nil` and the string in the list stay. -/
theorem camel_case_entries_witness :
    mapKeysToCamelCase snakeLib (plainBuilder (bareReader "default")) snakeOptions
      = [("cacheKey", .map [("cacheKey", .str "X")]),
         ("l", .list [.map [("cacheKey", .int 1)], .null, .str "s"])] ∧
    (snakeOptions.filter (fun e => e.2.notNull)).map
        (fun e => (mappedName snakeLib (plainBuilder (bareReader "default")) e.1,
          camelValue snakeLib (plainBuilder (bareReader "default")) e.2))
      = [("cacheKey", .map [("cacheKey", .str "X")]),
         ("l", .list [.map [("cacheKey", .int 1)], .null, .str "s"])] :=
  ⟨((camel_case_entries snakeLib (plainBuilder (bareReader "default")) snakeOptions).2.2.2.1
      (by decide)).trans rfl, rfl⟩

/-- C27 (counterexample): of the entries `a` and `b`, neither of which is `nil` and both of
which are converted to `c`, the output keeps one: it holds 2 under `c`, and 1 nowhere. -/
theorem camel_case_entries_counterexample :
    mappedName plainLib mergeNames "a" = "c" ∧ mappedName plainLib mergeNames "b" = "c" ∧
    mapKeysToCamelCase plainLib mergeNames [("a", .int 1), ("b", .int 2)] = [("c", .int 2)] :=
  ⟨rfl, rfl, rfl⟩

/-! ## Termination of `remapOptionValues` -/

theorem length_le_maxKeyLen {t : List (String × α)} {k : String} {w : α}
    (h : OptMap.get t k = some w) : k.length ≤ maxKeyLen t := by
  induction t with
  | nil => simp [OptMap.get] at h
  | cons e rest ih =>
    obtain ⟨k', v'⟩ := e
    simp only [OptMap.get] at h
    simp only [maxKeyLen]
    split at h
    · subst_vars; exact Nat.le_max_left _ _
    · exact Nat.le_trans (ih h) (Nat.le_max_right _ _)

/-- With enough turns the bounded loop returns what the loop returns. -/
theorem remapLoopWithin_enough (r : RulesBuilder) (b : String) (options newRom : OptMap) :
    ∃ n, ∀ fuel, n ≤ fuel →
      remapLoopWithin r fuel b options newRom = some (remapLoop r b options newRom) := by
  induction b, options, newRom using remapLoop.induct r with
  | case1 b newRom =>
    refine ⟨1, ?_⟩
    intro fuel hf
    obtain ⟨f, rfl⟩ : ∃ f, fuel = f + 1 := ⟨fuel - 1, by omega⟩
    rw [remapLoop_nil]
    rfl
  | case2 b newRom o v rest p h =>
    refine ⟨1, ?_⟩
    intro fuel hf
    obtain ⟨f, rfl⟩ : ∃ f, fuel = f + 1 := ⟨fuel - 1, by omega⟩
    rw [remapLoop_cons_error h]
    simp only [remapLoopWithin, h]
  | case3 b newRom o v rest h ih =>
    obtain ⟨n, hn⟩ := ih
    refine ⟨n + 1, ?_⟩
    intro fuel hf
    obtain ⟨f, rfl⟩ : ∃ f, fuel = f + 1 := ⟨fuel - 1, by omega⟩
    rw [remapLoop_cons_none h]
    simp only [remapLoopWithin, h]
    exact hn f (by omega)
  | case4 b newRom o v rest m h p hrec ih =>
    obtain ⟨n, hn⟩ := ih
    refine ⟨n + 1, ?_⟩
    intro fuel hf
    obtain ⟨f, rfl⟩ : ∃ f, fuel = f + 1 := ⟨fuel - 1, by omega⟩
    rw [remapLoop_cons_map h, hrec]
    simp only [remapLoopWithin, h, hn f (by omega), hrec]
  | case5 b newRom o v rest m h m' hrec ih1 ih2 =>
    obtain ⟨n1, hn1⟩ := ih1
    obtain ⟨n2, hn2⟩ := ih2
    refine ⟨max n1 n2 + 1, ?_⟩
    intro fuel hf
    obtain ⟨f, rfl⟩ : ∃ f, fuel = f + 1 := ⟨fuel - 1, by omega⟩
    have h1 : n1 ≤ f := by have := Nat.le_max_left n1 n2; omega
    have h2 : n2 ≤ f := by have := Nat.le_max_right n1 n2; omega
    rw [remapLoop_cons_map h, hrec]
    simp only [remapLoopWithin, h, hn1 f h1, hrec]
    exact hn2 f h2
  | case6 b newRom o v rest picked hnot h ih =>
    obtain ⟨n, hn⟩ := ih
    refine ⟨n + 1, ?_⟩
    intro fuel hf
    obtain ⟨f, rfl⟩ : ∃ f, fuel = f + 1 := ⟨fuel - 1, by omega⟩
    rw [remapLoop_cons_plain h (isMap_false_of_ne hnot)]
    cases picked with
    | map m => exact (hnot m rfl).elim
    | _ =>
      simp only [remapLoopWithin, h]
      exact hn f (by omega)

/-- C28: `remapOptionValues` terminates: run with a bound on its loop turns and recursive
calls, it returns its result for every bound that is large enough. The name under which a
nested map is remapped is longer than the name of the call, and a map taken from
`typeMappings` is found only under a name shorter than the longest key of the table, so that
replacements by the table nest to a bounded depth. -/
theorem remap_terminates (r : RulesBuilder) (b : String) (options : OptMap) :
    (∃ n, ∀ fuel, n ≤ fuel →
      remapLoopWithin r fuel b options [] = some (remapOptionValues r b options)) ∧
    (∀ o, b.length < (b ++ "." ++ o).length) ∧
    (∀ o v m, r.shouldFlatten (b ++ "." ++ o) = false →
      OptMap.get r.typeMappings (b ++ "." ++ o ++ "." ++ v.fmtV) = some (.map m) →
      pickValue r (b ++ "." ++ o) v = .ok (some (.map m)) ∧
      (b ++ "." ++ o).length < maxKeyLen r.typeMappings) := by
  refine ⟨remapLoopWithin_enough r b options [], ?_, ?_⟩
  · intro o
    simp only [String.length_append]
    have : ".".length = 1 := rfl
    omega
  · intro o v m hf ht
    refine ⟨pickValue_mapped hf ht, ?_⟩
    have h := length_le_maxKeyLen ht
    simp only [String.length_append] at h ⊢
    have : ".".length = 1 := rfl
    omega

/-- C28 (witness): a value replaced by a map of the table, whose option is replaced by a map
of the table in turn, is remapped in five turns; the second replacement is found under the
name `b.o`, shorter than the longest key of the table. -/
theorem remap_terminates_witness :
    remapLoopWithin mapTwice 5 "b" [("o", .str "x")] []
      = some (.ok [("o", .map [("o", .map [("o", .str "x")])])]) ∧
    pickValue mapTwice ("b" ++ "." ++ "o" ++ "." ++ "o") (.str "y")
      = .ok (some (.map [("o", .str "x")])) ∧
    ("b" ++ "." ++ "o" ++ "." ++ "o").length < maxKeyLen mapTwice.typeMappings :=
  ⟨rfl, (remap_terminates mapTwice ("b" ++ "." ++ "o") [("o", .str "y")]).2.2 "o" (.str "y")
    [("o", .str "x")] rfl rfl⟩

/-! ## The lines logged by `LogMultiline` -/

namespace Edgegrid

theorem splitAfter_ne_nil (line cs : List Char) : splitAfter line cs ≠ [] := by
  induction cs generalizing line with
  | nil => simp [splitAfter]
  | cons c cs ih =>
    simp only [splitAfter]
    split
    · simp
    · exact ih _

theorem splitAfter_no_newline (line cs : List Char) (hline : '\n' ∉ line) :
    ∀ l ∈ splitAfter line cs, '\n' ∉ l := by
  induction cs generalizing line with
  | nil =>
    intro l hl
    simp only [splitAfter, List.mem_singleton] at hl
    rw [hl]; exact hline
  | cons c cs ih =>
    intro l hl
    simp only [splitAfter] at hl
    split at hl
    · rcases List.mem_cons.mp hl with h | h
      · rw [h]; exact hline
      · exact ih [] (by simp) l h
    · rename_i hc
      refine ih (line ++ [c]) ?_ l hl
      simp only [List.mem_append, List.mem_singleton, not_or]
      exact ⟨hline, fun h => hc h.symm⟩

theorem intercalate_splitAfter (line cs : List Char) :
    List.intercalate ['\n'] (splitAfter line cs) = line ++ cs := by
  induction cs generalizing line with
  | nil => simp [splitAfter, List.intercalate]
  | cons c cs ih =>
    simp only [splitAfter]
    split
    · rename_i hc
      have hne := splitAfter_ne_nil [] cs
      have hrest := ih []
      cases hs : splitAfter [] cs with
      | nil => exact (hne hs).elim
      | cons l ls =>
        rw [hs] at hrest
        simp only [List.intercalate, List.intersperse, List.flatten, List.nil_append] at hrest ⊢
        rw [hc]
        simp only [List.flatten_cons, List.singleton_append, List.append_assoc] at hrest ⊢
        rw [hrest]
    · rw [ih]
      simp

theorem length_splitAfter (line cs : List Char) :
    (splitAfter line cs).length = cs.count '\n' + 1 := by
  induction cs generalizing line with
  | nil => simp [splitAfter]
  | cons c cs ih =>
    simp only [splitAfter]
    split
    · rename_i hc
      rw [hc]
      simp [ih]
    · rename_i hc
      rw [ih, List.count_cons_of_ne (fun h => hc h.symm)]

theorem takeWhile_newline (l : List Char) :
    l.takeWhile (fun c => c == '\n') = List.replicate (l.takeWhile (fun c => c == '\n')).length '\n' := by
  apply List.eq_replicate_of_mem
  intro c hc
  have := List.mem_takeWhile_imp hc
  simpa using this

theorem head?_dropWhile_newline (l : List Char) :
    (l.dropWhile (fun c => c == '\n')).head? ≠ some '\n' := by
  intro h
  have := List.head?_dropWhile_not (fun c => c == '\n') l
  rw [h] at this
  simp at this

/-- What `strings.Trim(s, "\n")` removes is newlines before and after, and what it leaves
neither starts nor ends with a newline. -/
theorem trimNewlines_spec (s : String) :
    (∃ n m, s.data = List.replicate n '\n' ++ (trimNewlines s).data ++ List.replicate m '\n') ∧
    (trimNewlines s).data.head? ≠ some '\n' ∧ (trimNewlines s).data.getLast? ≠ some '\n' := by
  have h1 := List.takeWhile_append_dropWhile (fun c => c == '\n') s.data
  have h2 := List.takeWhile_append_dropWhile (fun c => c == '\n')
    (s.data.dropWhile (fun c => c == '\n')).reverse
  have h3 : s.data.dropWhile (fun c => c == '\n')
      = (trimNewlines s).data ++
        ((s.data.dropWhile (fun c => c == '\n')).reverse.takeWhile (fun c => c == '\n')).reverse := by
    have := congrArg List.reverse h2
    rw [List.reverse_append, List.reverse_reverse] at this
    exact this.symm
  refine ⟨?_, ?_, ?_⟩
  · obtain ⟨n, hn⟩ : ∃ n, s.data.takeWhile (fun c => c == '\n') = List.replicate n '\n' :=
      ⟨_, takeWhile_newline _⟩
    obtain ⟨m, hm⟩ : ∃ m, (s.data.dropWhile (fun c => c == '\n')).reverse.takeWhile
        (fun c => c == '\n') = List.replicate m '\n' := ⟨_, takeWhile_newline _⟩
    refine ⟨n, m, ?_⟩
    rw [hm, List.reverse_replicate] at h3
    rw [hn] at h1
    rw [List.append_assoc, ← h3, h1]
  · intro h
    have hd := head?_dropWhile_newline s.data
    rw [h3] at hd
    cases ht : (trimNewlines s).data with
    | nil => rw [ht] at h; cases h
    | cons x rest =>
      rw [ht] at h hd
      simp only [List.head?_cons, Option.some.injEq] at h
      rw [h] at hd
      simp at hd
  · intro h
    have hl : (trimNewlines s).data.getLast?
        = ((s.data.dropWhile (fun c => c == '\n')).reverse.dropWhile (fun c => c == '\n')).head? := by
      simp [trimNewlines]
    rw [hl] at h
    exact head?_dropWhile_newline _ h

theorem trimNewlines_of_newlines (s : String) (h : ∀ c ∈ s.data, c = '\n') :
    trimNewlines s = "" := by
  have h1 : s.data.dropWhile (fun c => c == '\n') = [] := by
    rw [List.dropWhile_eq_nil_iff]
    intro c hc
    simp [h c hc]
  simp only [trimNewlines, h1, List.reverse_nil, List.dropWhile_nil]

theorem foldl_linesOf (f : σ → String → σ) (log : σ) (args : List String) :
    LogMultiline f log args = ((args.map linesOf).flatten).foldl f log := by
  unfold LogMultiline
  induction args generalizing log with
  | nil => rfl
  | cons a rest ih =>
    simp only [List.foldl_cons, List.map_cons, List.flatten_cons, List.foldl_append]
    exact ih _

/-- C29: `LogMultiline` calls `f` on the lines of its arguments, argument after argument and
line after line, the lines of an argument being the pieces between the newlines of the
argument without its leading and trailing newlines. No line holds a newline; an argument
gives at least one line, and the line "" alone when it is empty or made of newlines; empty
lines inside the argument are kept, there being one line more than newlines in the trimmed
argument; and the lines joined by newlines are the trimmed argument. -/
theorem log_multiline_lines (f : σ → String → σ) (log : σ) (args : List String) :
    LogMultiline f log args = ((args.map linesOf).flatten).foldl f log ∧
    LogMultiline record [] args = (args.map linesOf).flatten ∧
    (∀ str, linesOf str = splitNewlines (trimNewlines str)) ∧
    (∀ str,
      (∃ n m, str.data
        = List.replicate n '\n' ++ (trimNewlines str).data ++ List.replicate m '\n') ∧
      (trimNewlines str).data.head? ≠ some '\n' ∧
      (trimNewlines str).data.getLast? ≠ some '\n') ∧
    (∀ str, ∀ line ∈ linesOf str, '\n' ∉ line.data) ∧
    (∀ str, linesOf str ≠ []) ∧
    (∀ str, (∀ c ∈ str.data, c = '\n') → linesOf str = [""]) ∧
    (∀ str, (linesOf str).length = (trimNewlines str).data.count '\n' + 1) ∧
    (∀ str, List.intercalate ['\n'] ((linesOf str).map String.data)
      = (trimNewlines str).data) := by
  refine ⟨foldl_linesOf f log args, ?_, fun _ => rfl, trimNewlines_spec, ?_, ?_, ?_, ?_, ?_⟩
  · rw [foldl_linesOf]
    generalize (List.map linesOf args).flatten = l
    have : ∀ acc : List String, List.foldl record acc l = acc ++ l := by
      induction l with
      | nil => intro acc; simp
      | cons x rest ih => intro acc; simp [List.foldl_cons, record, ih]
    simpa using this []
  · intro str line hline
    simp only [linesOf, splitNewlines, List.mem_map] at hline
    obtain ⟨l, hl, rfl⟩ := hline
    exact splitAfter_no_newline [] _ (by simp) l hl
  · intro str h
    simp only [linesOf, splitNewlines, List.map_eq_nil_iff] at h
    exact splitAfter_ne_nil _ _ h
  · intro str h
    simp only [linesOf, trimNewlines_of_newlines str h]
    rfl
  · intro str
    simp only [linesOf, splitNewlines, List.length_map, length_splitAfter]
  · intro str
    simp only [linesOf, splitNewlines, List.map_map]
    have : (String.data ∘ String.mk) = id := by funext l; rfl
    rw [this, List.map_id, intercalate_splitAfter, List.nil_append]

/-- C29 (witness): for the arguments "\na\n\nb\n", "" and "\n\n", `f` is called with "a",
"", "b", "" and "". -/
theorem log_multiline_lines_witness :
    LogMultiline record [] ["\na\n\nb\n", "", "\n\n"] = ["a", "", "b", "", ""] ∧
    linesOf "\n\n" = [""] :=
  ⟨((log_multiline_lines record [] ["\na\n\nb\n", "", "\n\n"]).2.1).trans (by decide),
   (log_multiline_lines record ([] : List String) []).2.2.2.2.2.2.1 "\n\n" (by decide)⟩

end Edgegrid

/-! ## The read of a metadata entry -/

theorem mem_delete {m : List (String × α)} {k : String} {e : String × α} :
    e ∈ OptMap.delete m k ↔ e ∈ m ∧ e.1 ≠ k := by
  simp [OptMap.delete, List.mem_filter]

/-- C30 (as amended): `getFromMapAndDeleteOrDefault(m, key, def)` returns `def` and leaves `m`
unchanged when `key` is absent from `m` or maps to `nil`; otherwise, when `m[key]` is of the
type of `def`, it returns `m[key]` and afterwards `m` no longer contains `key` while every
other entry of `m` is unchanged; when `m[key]` is of another type, it panics. -/
theorem get_and_delete (cast : Value → Option T) (m : OptMap) (key : String) (defVal : T) :
    (OptMap.get m key = none ∨ OptMap.get m key = some .null →
      getFromMapAndDeleteOrDefault cast m key defVal = .ok (defVal, m)) ∧
    (∀ res t, OptMap.get m key = some res → res ≠ .null → cast res = some t →
      getFromMapAndDeleteOrDefault cast m key defVal = .ok (t, OptMap.delete m key) ∧
      OptMap.get (OptMap.delete m key) key = none ∧
      key ∉ OptMap.keys (OptMap.delete m key) ∧
      (∀ k', k' ≠ key → OptMap.get (OptMap.delete m key) k' = OptMap.get m k') ∧
      (∀ e, e ∈ OptMap.delete m key ↔ e ∈ m ∧ e.1 ≠ key)) ∧
    (∀ res, OptMap.get m key = some res → res ≠ .null → cast res = none →
      getFromMapAndDeleteOrDefault cast m key defVal = .error .typeAssertion) := by
  refine ⟨?_, ?_, ?_⟩
  · rintro (h | h) <;> simp only [getFromMapAndDeleteOrDefault, h]
  · intro res t hg hn hc
    refine ⟨?_, get_delete_self m key, ?_, fun k' hk => get_delete_ne m hk, fun e => mem_delete⟩
    · unfold getFromMapAndDeleteOrDefault
      rw [hg]
      cases res with
      | null => exact (hn rfl).elim
      | _ => simp only [hc]
    · intro hmem
      obtain ⟨e, he, hk⟩ := List.mem_map.mp hmem
      exact (mem_delete.mp he).2 hk
  · intro res hg hn hc
    unfold getFromMapAndDeleteOrDefault
    rw [hg]
    cases res with
    | null => exact (hn rfl).elim
    | _ => simp only [hc]

/-- C30 (witness): the read of `locked` from `metaOnlyItem` returns `true` and leaves the two
other entries; the read of `template_uuid`, which is `nil`, returns the default and leaves
the map as it is. -/
theorem get_and_delete_witness :
    getFromMapAndDeleteOrDefault asBool metaOnlyItem.Item "locked" false
      = .ok (true, [("uuid", .str "u-1"), ("template_uuid", .null)]) ∧
    getFromMapAndDeleteOrDefault asString metaOnlyItem.Item "template_uuid" ""
      = .ok ("", metaOnlyItem.Item) :=
  ⟨((get_and_delete asBool metaOnlyItem.Item "locked" false).2.1 (.bool true) true rfl
      (by simp) rfl).1,
   (get_and_delete asString metaOnlyItem.Item "template_uuid" "").1 (Or.inr rfl)⟩

/-- C30 (counterexample): the read of `locked` as a boolean from a map in which `locked`
holds the string "yes" returns nothing: the type assertion panics. -/
theorem get_and_delete_counterexample :
    OptMap.get badLockedItem.Item "locked" = some (.str "yes") ∧
    getFromMapAndDeleteOrDefault asBool badLockedItem.Item "locked" false
      = .error .typeAssertion :=
  ⟨rfl, rfl⟩

end Ruleformats
